import Mathlib

/-!
Verification development for the orangutan language toolchain: a tree-walking
evaluator, a single-pass bytecode compiler and a stack virtual machine for a
small expression language.  The definitions below are a shallow embedding of
the TypeScript sources: JavaScript numbers are modelled as rationals (exact
for every concrete value appearing in the theorems), JavaScript `Map`s as
association lists preserving insertion order, thrown exceptions as
`Except String`, and `undefined`/absence as `Option`.  Reference identity of
the `TRUE`/`FALSE`/`NULL` singletons coincides with value equality of the
corresponding constructors; reference identity of freshly allocated strings,
arrays and hashes is not modelled (no theorem below depends on it).
-/

set_option maxRecDepth 8000

namespace Orangutan

/-! ## JavaScript 32-bit helpers

The string hash in the object model applies `(hash << 5) - hash + code` and
then `hash |= 0`, i.e. both the shift and the or reduce to a signed 32-bit
integer. -/

/-- Reduce an integer to JavaScript signed 32-bit range, as `| 0` does. -/
def toInt32 (n : ℤ) : ℤ := (n + 2 ^ 31) % 2 ^ 32 - 2 ^ 31

/-- One step of the JavaScript string hash: `(hash << 5) - hash + code`,
reduced to 32 bits.  The shift itself operates on 32-bit values, hence the
inner `toInt32`. -/
def hashStep (h : ℤ) (c : ℕ) : ℤ := toInt32 (toInt32 (h * 32) - h + c)

/-- Modelled from the spec: the helper module `hashString` imported by
`src/interpreter/object/object.ts` is not part of the snapshot; the spec
requires a deterministic content hash used as a per-kind salt, and
`StringObject.hashKey` inlines exactly this loop, so the helper is modelled
with the same algorithm over the UTF-16 code units of the string. -/
def hashString (s : String) : ℤ := s.data.foldl (fun h c => hashStep h c.toNat) 0

/-! ## Object type tags (src/interpreter/object/object.ts, enum ObjectType) -/

inductive ObjectType where
  | INTEGER
  | BOOLEAN
  | NULL
  | RETURN_VALUE
  | ERROR_OBJECT
  | FUNCTION_OBJECT
  | STRING
  | BUILTIN_OBJECT
  | ARRAY_OBJECT
  | COMPILED_FUNCTION_OBJECT
  /-- Modelled from the spec: the closure kind of the final code module
  (`ClosureObject` in `src/compiler/code/code.ts`), which is not part of the
  snapshot; the spec lists Closure among the value kinds. -/
  | CLOSURE_OBJECT
  deriving DecidableEq, Repr

/-- The string value of each `ObjectType` enum member. -/
def ObjectType.tag : ObjectType → String
  | .INTEGER => "INTEGER"
  | .BOOLEAN => "BOOLEAN"
  | .NULL => "NULL"
  | .RETURN_VALUE => "RETURN_VALUE"
  | .ERROR_OBJECT => "ERROR_OBJECT"
  | .FUNCTION_OBJECT => "FUNCTION_OBJECT"
  | .STRING => "STRING"
  | .BUILTIN_OBJECT => "BUILTIN_OBJECT"
  | .ARRAY_OBJECT => "ARRAY_OBJECT"
  | .COMPILED_FUNCTION_OBJECT => "COMPILED_FUNCTION_OBJECT"
  | .CLOSURE_OBJECT => "CLOSURE_OBJECT"

/-! ## Abstract syntax (src/ast/ast.ts)

The variants the compiler in the snapshot handles.  Tokens are dropped:
an `IntegerLiteral` keeps its numeric value (its token literal is the decimal
spelling), a `StringLiteral` keeps its token literal, a `BooleanLiteral` its
boolean value, and identifiers their name.  `WhileExpression` and
`ReassignStatement` are omitted: the compiler rejects them
(`Not implemented`) and no claim mentions them. -/

inductive AstNode where
  | Program (statements : List AstNode)
  | BlockStatement (statements : List AstNode)
  | ExpressionStatement (expression : AstNode)
  | LetStatement (name : String) (value : AstNode)
  | ReturnStatement (returnValue : AstNode)
  | IntegerLiteral (value : ℕ)
  | StringLiteral (literal : String)
  | BooleanLiteral (value : Bool)
  | Identifier (value : String)
  | PrefixExpression (operator : String) (right : AstNode)
  | InfixExpression (operator : String) (left : AstNode) (right : AstNode)
  | IfExpression (condition : AstNode) (consequence : AstNode)
      (alternative : Option AstNode)
  | FunctionLiteral (parameters : List String) (body : AstNode)
  | CallExpression (function : AstNode) (arguments : List AstNode)
  | ArrayLiteral (elements : List AstNode)
  | HashLiteral (pairs : List (AstNode × AstNode))
  | IndexExpression (left : AstNode) (index : AstNode)
  deriving Repr

/-- String.intercalate, named after the JavaScript `Array.join`. -/
def joinWith (sep : String) (parts : List String) : String :=
  String.intercalate sep parts

mutual

/-- The `asString` printer of src/ast/ast.ts (used by the compiler to sort
hash-literal pairs).  An integer literal prints its token literal, which the
parser produced as the decimal spelling of the value. -/
def AstNode.asString : AstNode → String
  | .Program statements => joinWith "\n" (asStringList statements)
  | .BlockStatement statements =>
      "\x7b " ++ joinWith "\n" (asStringList statements) ++ " \x7d"
  | .ExpressionStatement expression => expression.asString
  | .LetStatement name value => "let " ++ name ++ " = " ++ value.asString ++ ";"
  | .ReturnStatement returnValue => "return " ++ returnValue.asString ++ ";"
  | .IntegerLiteral value => toString value
  | .StringLiteral literal => literal
  | .BooleanLiteral value => if value then "true" else "false"
  | .Identifier value => value
  | .PrefixExpression operator right =>
      "(" ++ operator ++ right.asString ++ ")"
  | .InfixExpression operator left right =>
      "(" ++ left.asString ++ " " ++ operator ++ " " ++ right.asString ++ ")"
  | .IfExpression condition consequence alternative =>
      let base := "if " ++ condition.asString ++ " " ++ consequence.asString
      match alternative with
      | some alt => base ++ " else " ++ alt.asString
      | none => base
  | .FunctionLiteral parameters body =>
      "fn(" ++ joinWith ", " parameters ++ ") " ++ body.asString
  | .CallExpression function arguments =>
      function.asString ++ "(" ++ joinWith ", " (asStringList arguments) ++ ")"
  | .ArrayLiteral elements =>
      "[" ++ joinWith ", " (asStringList elements) ++ "]"
  | .HashLiteral pairs =>
      "\x7b " ++ joinWith ", " (asStringPairs pairs) ++ " \x7d"
  | .IndexExpression left index =>
      "(" ++ left.asString ++ "[" ++ index.asString ++ "])"

def asStringList : List AstNode → List String
  | [] => []
  | n :: ns => n.asString :: asStringList ns

def asStringPairs : List (AstNode × AstNode) → List String
  | [] => []
  | (k, v) :: ps => (k.asString ++ ": " ++ v.asString) :: asStringPairs ps

end

/-! ## Runtime objects (src/interpreter/object/object.ts together with the
`CompiledFunctionObject`/`ClosureObject` carried by the final code module) -/

/-- The data of a `CompiledFunctionObject`: instructions (a byte vector),
`numberLocals` and `numberParameters`. -/
structure CompiledFn where
  instructions : List ℕ
  numberLocals : ℕ
  numberParameters : ℕ
  deriving Repr

mutual

inductive Obj where
  | IntegerObject (value : ℚ)
  | BooleanObject (value : Bool)
  | NullObject
  | StringObject (value : String)
  | ReturnValueObject (value : Obj)
  | ErrorObject (message : String)
  | FunctionObject (parameters : List String) (body : AstNode) (environment : Env)
  /-- A builtin carries its function in the source; the embedding carries its
  name and applies it through `builtinApply` below. -/
  | BuiltinFunctionObject (name : String)
  | ArrayObject (elements : List Obj)
  /-- A `Map<number, {key, value}>` in insertion order. -/
  | HashObject (pairs : List (ℚ × Obj × Obj))
  | CompiledFunctionObject (fn : CompiledFn)
  | ClosureObject (fn : CompiledFn) (free : List Obj)

/-- An evaluator environment (src/interpreter/object/environment.ts): a store
and an optional outer environment.  Mutation is modelled by threading the
updated environment; the sharing of one environment object by several
closures is not modelled (no theorem below exercises it). -/
inductive Env where
  | mk (store : List (String × Obj)) (outer : Option Env)

end

/-- Map.set: replace in place if the key is present, else append. -/
def storeSet {α : Type} (store : List (String × α)) (k : String) (v : α) :
    List (String × α) :=
  if store.any (fun p => p.1 = k) then
    store.map (fun p => if p.1 = k then (k, v) else p)
  else
    store ++ [(k, v)]

/-- Map.has. -/
def storeHas {α : Type} (store : List (String × α)) (k : String) : Bool :=
  store.any (fun p => p.1 = k)

/-- Map.get (None models `undefined`). -/
def storeGet {α : Type} (store : List (String × α)) (k : String) : Option α :=
  (store.find? (fun p => p.1 = k)).map (fun p => p.2)

/-- The objectType method of every runtime object.  `HashObject.objectType`
returns `ObjectType.ARRAY_OBJECT` in the source, exactly as transcribed
here. -/
def Obj.objectType : Obj → ObjectType
  | .IntegerObject _ => .INTEGER
  | .BooleanObject _ => .BOOLEAN
  | .NullObject => .NULL
  | .StringObject _ => .STRING
  | .ReturnValueObject _ => .RETURN_VALUE
  | .ErrorObject _ => .ERROR_OBJECT
  | .FunctionObject _ _ _ => .FUNCTION_OBJECT
  | .BuiltinFunctionObject _ => .BUILTIN_OBJECT
  | .ArrayObject _ => .ARRAY_OBJECT
  | .HashObject _ => .ARRAY_OBJECT
  | .CompiledFunctionObject _ => .COMPILED_FUNCTION_OBJECT
  | .ClosureObject _ _ => .CLOSURE_OBJECT

/-! ## Hash keys -/

/-- IntegerObject.hashKey: `hashString(this.objectType()) + this.value`. -/
def integerHashKey (value : ℚ) : ℚ := (hashString "INTEGER" : ℚ) + value

/-- BooleanObject.hashKey: `hashString(this.objectType()) + (value ? 1 : 0)`. -/
def booleanHashKey (value : Bool) : ℚ :=
  (hashString "BOOLEAN" : ℚ) + (if value then 1 else 0)

/-- The inline content-hash loop of StringObject.hashKey. -/
def stringContentHash (s : String) : ℤ :=
  s.data.foldl (fun h c => hashStep h c.toNat) 0

/-- StringObject.hashKey: content hash plus the STRING salt. -/
def stringHashKey (s : String) : ℚ :=
  (hashString "STRING" : ℚ) + (stringContentHash s : ℚ)

/-- hashKey of a value when it is Hashable (`instanceof Hashable`),
or none otherwise. -/
def Obj.hashKey : Obj → Option ℚ
  | .IntegerObject v => some (integerHashKey v)
  | .BooleanObject b => some (booleanHashKey b)
  | .StringObject s => some (stringHashKey s)
  | _ => none

/-- Display of a JavaScript number, exact on integral values (the only ones
any theorem below displays). -/
def ratDisplay (q : ℚ) : String :=
  if q.den = 1 then toString q.num else toString q

mutual

/-- The inspect method of every runtime object (its display form). -/
def Obj.inspect : Obj → String
  | .IntegerObject value => ratDisplay value
  | .BooleanObject value => if value then "true" else "false"
  | .NullObject => "null"
  | .StringObject value => value
  | .ReturnValueObject value => value.inspect
  | .ErrorObject message => message
  | .FunctionObject parameters body _ =>
      "fn(" ++ joinWith ", " parameters ++ ") " ++ body.asString
  | .BuiltinFunctionObject _ => "builtin function"
  | .ArrayObject elements => "[" ++ joinWith ", " (inspectList elements) ++ "]"
  | .HashObject pairs => "\x7b" ++ joinWith ", " (inspectPairs pairs) ++ "\x7d"
  | .CompiledFunctionObject _ => "CompiledFunction"
  | .ClosureObject _ _ => "Closure"

def inspectList : List Obj → List String
  | [] => []
  | o :: os => o.inspect :: inspectList os

def inspectPairs : List (ℚ × Obj × Obj) → List String
  | [] => []
  | (_, k, v) :: ps => (k.inspect ++ ": " ++ v.inspect) :: inspectPairs ps

end

/-! ## Symbol table (src/unnamed/part_001, the latest SymbolTable) -/

inductive SymbolScope where
  | Global
  | Local
  | BuiltIn
  | Free
  deriving DecidableEq, Repr

structure Symbol where
  name : String
  scope : SymbolScope
  index : ℕ
  deriving DecidableEq, Repr

/-- A symbol table: outer pointer, store, freeSymbols, numberDefinitions. -/
inductive SymbolTable where
  | mk (outer : Option SymbolTable) (store : List (String × Symbol))
      (freeSymbols : List Symbol) (numberDefinitions : ℕ)
  deriving Repr

def SymbolTable.outer : SymbolTable → Option SymbolTable
  | .mk o _ _ _ => o

def SymbolTable.store : SymbolTable → List (String × Symbol)
  | .mk _ s _ _ => s

def SymbolTable.freeSymbols : SymbolTable → List Symbol
  | .mk _ _ f _ => f

def SymbolTable.numberDefinitions : SymbolTable → ℕ
  | .mk _ _ _ n => n

/-- define: scope is Local when the table has an outer, Global otherwise;
index is the current counter, which is then incremented. -/
def SymbolTable.define : SymbolTable → String → Symbol × SymbolTable
  | .mk outer store free nd, name =>
    let symbol : Symbol :=
      ⟨name, (match outer with | some _ => .Local | none => .Global), nd⟩
    (symbol, .mk outer (storeSet store name symbol) free (nd + 1))

/-- defineBuiltIn: inserts a BuiltIn symbol at the given index; the
local-definition counter is untouched. -/
def SymbolTable.defineBuiltIn : SymbolTable → ℕ → String → Symbol × SymbolTable
  | .mk outer store free nd, index, name =>
    let symbol : Symbol := ⟨name, .BuiltIn, index⟩
    (symbol, .mk outer (storeSet store name symbol) free nd)

/-- defineFree: push the original symbol onto freeSymbols, store a Free
replacement under the same name whose index is `freeSymbols.length - 1`
after the push. -/
def SymbolTable.defineFree : SymbolTable → Symbol → Symbol × SymbolTable
  | .mk outer store free nd, original =>
    let free' := free ++ [original]
    let symbol : Symbol := ⟨original.name, .Free, free'.length - 1⟩
    (symbol, .mk outer (storeSet store original.name symbol) free' nd)

/-- resolve: local hit is returned as is; otherwise the outer table is
consulted (possibly mutating it, hence the threaded table); a Global or
BuiltIn outer result passes through unchanged, any other outer result is
promoted with defineFree. -/
def SymbolTable.resolve : SymbolTable → String → Option Symbol × SymbolTable
  | t@(.mk outer store free nd), name =>
    if storeHas store name then
      (storeGet store name, t)
    else
      match outer with
      | none => (none, t)
      | some o =>
        match o.resolve name with
        | (none, o') => (none, .mk (some o') store free nd)
        | (some s, o') =>
          if s.scope = .Global ∨ s.scope = .BuiltIn then
            (some s, .mk (some o') store free nd)
          else
            SymbolTable.defineFree (.mk (some o') store free nd) s
            |>.map some id

/-- Some table in the outer chain defines the name. -/
def SymbolTable.chainHas : SymbolTable → String → Bool
  | .mk outer store _ _, name =>
    storeHas store name ||
      (match outer with
       | none => false
       | some o => o.chainHas name)

end Orangutan

namespace Orangutan

/-! ## Claim C4: SymbolTable.resolve -/

theorem resolve_none_of_not_chainHas :
    ∀ (t : SymbolTable) (name : String),
      t.chainHas name = false → (t.resolve name).1 = none
  | .mk outer store free nd, name, h => by
    unfold SymbolTable.chainHas at h
    unfold SymbolTable.resolve
    simp only [Bool.or_eq_false_iff] at h
    obtain ⟨h1, h2⟩ := h
    simp only [h1, Bool.false_eq_true, if_false]
    match outer, h2 with
    | none, _ => rfl
    | some o, h2 =>
      have ih := resolve_none_of_not_chainHas o name h2
      cases hr : o.resolve name with
      | mk s o' =>
        rw [hr] at ih
        simp only at ih
        subst ih
        simp [hr]

/-- C4: on every symbol table, a locally defined name resolves to the
table's own entry; otherwise the outer table is consulted, and an outer
result with scope Global or BuiltIn is returned unchanged, while any other
outer result is promoted by appending the original symbol to freeSymbols and
returning a Free replacement whose index is the new length minus one; a name
no table in the chain defines is reported unresolved. -/
theorem symbolTable_resolve_spec :
    (∀ (t : SymbolTable) (name : String),
      storeHas t.store name = true →
        t.resolve name = (storeGet t.store name, t)) ∧
    (∀ (o : SymbolTable) (store : List (String × Symbol))
        (free : List Symbol) (nd : ℕ) (name : String) (s : Symbol)
        (o' : SymbolTable),
      storeHas store name = false →
      o.resolve name = (some s, o') →
      (s.scope = .Global ∨ s.scope = .BuiltIn) →
        (SymbolTable.mk (some o) store free nd).resolve name =
          (some s, .mk (some o') store free nd)) ∧
    (∀ (o : SymbolTable) (store : List (String × Symbol))
        (free : List Symbol) (nd : ℕ) (name : String) (s : Symbol)
        (o' : SymbolTable),
      storeHas store name = false →
      o.resolve name = (some s, o') →
      ¬(s.scope = .Global ∨ s.scope = .BuiltIn) →
        (SymbolTable.mk (some o) store free nd).resolve name =
          (some ⟨s.name, .Free, free.length⟩,
            .mk (some o') (storeSet store s.name ⟨s.name, .Free, free.length⟩)
              (free ++ [s]) nd)) ∧
    (∀ (t : SymbolTable) (name : String),
      t.chainHas name = false → (t.resolve name).1 = none) := by
  refine ⟨?_, ?_, ?_, resolve_none_of_not_chainHas⟩
  · intro t name h
    match t with
    | .mk outer store free nd =>
      unfold SymbolTable.resolve
      simp only [SymbolTable.store] at h
      simp [h, SymbolTable.store]
  · intro o store free nd name s o' hstore hres hscope
    unfold SymbolTable.resolve
    simp only [hstore, Bool.false_eq_true, if_false, hres, hscope, if_true]
  · intro o store free nd name s o' hstore hres hscope
    unfold SymbolTable.resolve
    simp only [hstore, Bool.false_eq_true, if_false, hres, hscope, if_false]
    unfold SymbolTable.defineFree
    simp [Prod.map]

/-- Witness for C4: the second-clause promotion on a concrete two-level
table, and the unresolved clause on an empty root. -/
theorem symbolTable_resolve_spec_witness :
    (SymbolTable.mk
        (some (.mk none [("a", ⟨"a", .Local, 0⟩)] [] 1)) [] [] 0).resolve "a" =
      (some ⟨"a", .Free, 0⟩,
        .mk (some (.mk none [("a", ⟨"a", .Local, 0⟩)] [] 1))
          (storeSet [] "a" ⟨"a", .Free, 0⟩) ([] ++ [⟨"a", .Local, 0⟩]) 0) ∧
    ((SymbolTable.mk none [] [] 0).resolve "missing").1 = none := by
  constructor
  · exact symbolTable_resolve_spec.2.2.1
      (.mk none [("a", ⟨"a", .Local, 0⟩)] [] 1) [] [] 0 "a" ⟨"a", .Local, 0⟩
      (.mk none [("a", ⟨"a", .Local, 0⟩)] [] 1) rfl rfl (by decide)
  · exact symbolTable_resolve_spec.2.2.2 (.mk none [] [] 0) "missing" rfl

/-! ## Claim C6: hash keys -/

/-- C6 counterexample: hash_key is not injective within the String kind.
The distinct strings "Aa" and "BB" have the same content hash (2112), so
their hash keys coincide while the values differ, refuting the claimed
equivalence between key equality and same-kind value equality. -/
theorem hashKey_not_injective :
    Obj.hashKey (.StringObject "Aa") = Obj.hashKey (.StringObject "BB") ∧
    "Aa" ≠ "BB" := by
  constructor
  · rfl
  · decide

/-- C6 amended: hash_key is injective within the Integer kind and within the
Boolean kind, and the three examples the spec names, hash_key(1),
hash_key(true) and hash_key("1"), are pairwise distinct; but injectivity
fails for the String kind ("Aa" and "BB" collide) and the kinds are not
disjoint (a suitable Integer key equals the Boolean key of true). -/
theorem hashKey_amended :
    (∀ a b : ℚ, integerHashKey a = integerHashKey b → a = b) ∧
    (∀ a b : Bool, booleanHashKey a = booleanHashKey b → a = b) ∧
    integerHashKey 1 ≠ booleanHashKey true ∧
    integerHashKey 1 ≠ stringHashKey "1" ∧
    booleanHashKey true ≠ stringHashKey "1" ∧
    stringHashKey "Aa" = stringHashKey "BB" ∧
    integerHashKey ((booleanHashKey true : ℚ) - (hashString "INTEGER" : ℚ)) =
      booleanHashKey true := by
  have hI : hashString "INTEGER" = -1618932450 := by decide
  have hB : hashString "BOOLEAN" = 782694408 := by decide
  have hS : hashString "STRING" = -1838656495 := by decide
  have h1 : stringContentHash "1" = 49 := by decide
  refine ⟨?_, ?_, ?_, ?_, ?_, rfl, ?_⟩
  · intro a b h
    simpa [integerHashKey] using h
  · intro a b h
    cases a <;> cases b <;> simp_all [booleanHashKey]
  · simp [integerHashKey, booleanHashKey, hI, hB]
    norm_num
  · simp [integerHashKey, stringHashKey, hI, hS, h1]
    norm_num
  · simp [booleanHashKey, stringHashKey, hB, hS, h1]
    norm_num
  · simp [integerHashKey]

/-- Witness for C6 amended: integer-kind injectivity applied at the
concrete key of 7. -/
theorem hashKey_amended_witness : (7 : ℚ) = 7 :=
  hashKey_amended.1 7 7 rfl

end Orangutan

namespace Orangutan

/-! ## Instruction encoding (src/unnamed/part_012, the code module the claims
cite: `Opcode`, `DEFINITIONS`, `make`, `readOperands`, `readUint16`)

Instructions are a `Uint8Array`, modelled as a list of bytes; an assignment
into a cell reduces the value modulo 256 as the typed array does.  Opcodes
are their numeric enum values. -/

structure Definition where
  name : String
  operandWidths : List ℕ
  deriving Repr

/-- The per-opcode definition table of part_012 (opcodes 0 to 20). -/
def DEFINITIONS : ℕ → Option Definition
  | 0 => some ⟨"OpConstant", [2]⟩
  | 1 => some ⟨"OpAdd", []⟩
  | 2 => some ⟨"OpPop", []⟩
  | 3 => some ⟨"OpSub", []⟩
  | 4 => some ⟨"OpMul", []⟩
  | 5 => some ⟨"OpDiv", []⟩
  | 6 => some ⟨"OpTrue", []⟩
  | 7 => some ⟨"OpFalse", []⟩
  | 8 => some ⟨"OpEqual", []⟩
  | 9 => some ⟨"OpNotEqual", []⟩
  | 10 => some ⟨"OpGreaterThan", []⟩
  | 11 => some ⟨"OpMinus", []⟩
  | 12 => some ⟨"OpBang", []⟩
  | 13 => some ⟨"OpJumpNotTruthy", [2]⟩
  | 14 => some ⟨"OpJump", [2]⟩
  | 15 => some ⟨"OpNull", []⟩
  | 16 => some ⟨"OpGetGlobal", [2]⟩
  | 17 => some ⟨"OpSetGlobal", [2]⟩
  | 18 => some ⟨"OpArray", [2]⟩
  | 19 => some ⟨"OpHash", [2]⟩
  | 20 => some ⟨"OpIndex", []⟩
  | _ => none

/-- readUint16: `(slice[0] << 8) | slice[1]`, with absent cells read as 0
(in JavaScript `undefined` coerces to 0 under these bitwise operators). -/
def readUint16 (slice : List ℕ) : ℕ :=
  ((slice[0]?.getD 0) <<< 8) ||| (slice[1]?.getD 0)

/-- make of part_012: allocate `1 + Σ widths` zeroed bytes, store the opcode
at offset 0, then write each operand whose width is 2 big-endian
(`operand >> 8`, `operand & 0x00ff`); the switch has no other case, so any
other width writes nothing. -/
def make (op : ℕ) (operands : List ℕ) : List ℕ :=
  match DEFINITIONS op with
  | none => []
  | some definition =>
    let instructionLength := definition.operandWidths.foldl (· + ·) 1
    let init : List ℕ × ℕ :=
      ((List.replicate instructionLength 0).set 0 (op % 256), 1)
    (operands.enum.foldl
      (fun acc p =>
        match definition.operandWidths[p.1]? with
        | some 2 =>
            ((acc.1.set acc.2 (((p.2 >>> 8)) % 256)).set (acc.2 + 1)
              ((p.2 &&& 255) % 256),
             acc.2 + 2)
        | _ => acc)
      init).1

/-- readOperands of part_012: walk the definition widths, decoding each
width-2 operand with readUint16 from the current offset and advancing by the
width; the returned offset is the number of bytes consumed. -/
def readOperands (definition : Definition) (instructions : List ℕ) :
    List ℕ × ℕ :=
  definition.operandWidths.foldl
    (fun acc width =>
      match width with
      | 2 => (acc.1 ++ [readUint16 ((instructions.drop acc.2).take 2)],
              acc.2 + 2)
      | _ => acc)
    ([], 0)

theorem readUint16_bytes (x : ℕ) (h : x < 65536) :
    readUint16 [(x >>> 8) % 256, (x &&& 255) % 256] = x := by
  unfold readUint16
  have h8 : x >>> 8 = x / 256 := Nat.shiftRight_eq_div_pow x 8
  have hand : x &&& 255 = x % 256 := Nat.and_pow_two_sub_one_eq_mod x 8
  have hd : x / 256 < 256 := by omega
  have hm : x % 256 < 256 := by omega
  simp only [List.getElem?_cons_zero, List.getElem?_cons_succ, Option.getD_some]
  rw [h8, hand, Nat.mod_eq_of_lt hd, Nat.mod_eq_of_lt hm]
  have hlt : x % 256 < 2 ^ 8 := by omega
  calc (x / 256) <<< 8 ||| x % 256
      = x / 256 * 2 ^ 8 ||| x % 256 := by rw [Nat.shiftLeft_eq]
    _ = 2 ^ 8 * (x / 256) ||| x % 256 := by ring_nf
    _ = 2 ^ 8 * (x / 256) + x % 256 := (Nat.mul_add_lt_is_or hlt _).symm
    _ = x := by omega

theorem make_roundTrip_width0 (op : ℕ) (nm : String)
    (hd : DEFINITIONS op = some ⟨nm, []⟩) (hop : op < 256) :
    make op [] = [op] ∧
    readOperands ⟨nm, []⟩ ((make op []).drop 1) = ([], 0) := by
  constructor
  · unfold make
    rw [hd]
    simp [Nat.mod_eq_of_lt hop, List.enum]
  · unfold readOperands
    simp

theorem make_roundTrip_width2 (op : ℕ) (nm : String) (x : ℕ)
    (hd : DEFINITIONS op = some ⟨nm, [2]⟩) (hop : op < 256) (hx : x < 65536) :
    make op [x] = [op, x / 256, x % 256] ∧
    readOperands ⟨nm, [2]⟩ ((make op [x]).drop 1) = ([x], 2) := by
  have hmk : make op [x] = [op, (x >>> 8) % 256, (x &&& 255) % 256] := by
    unfold make
    rw [hd]
    simp [Nat.mod_eq_of_lt hop, List.enum, List.set]
  have h8 : x >>> 8 = x / 256 := Nat.shiftRight_eq_div_pow x 8
  have hand : x &&& 255 = x % 256 := Nat.and_pow_two_sub_one_eq_mod x 8
  constructor
  · rw [hmk, h8, hand, Nat.mod_eq_of_lt (by omega : x / 256 < 256),
      Nat.mod_eq_of_lt (by omega : x % 256 < 256)]
  · rw [hmk]
    unfold readOperands
    simp only [List.foldl_cons, List.foldl_nil, List.drop_succ_cons,
      List.drop_zero, List.nil_append]
    rw [show ([(x >>> 8) % 256, (x &&& 255) % 256].take 2) =
      [(x >>> 8) % 256, (x &&& 255) % 256] from rfl]
    rw [readUint16_bytes x hx]

end Orangutan

namespace Orangutan

theorem DEFINITIONS_past_end : ∀ (n : ℕ), DEFINITIONS (n + 21) = none :=
  fun _ => rfl

theorem roundTrip_of_width0 (op : ℕ) (nm : String) (operands : List ℕ)
    (hd : DEFINITIONS op = some ⟨nm, []⟩) (hop : op < 256)
    (hlen : operands.length = 0) :
    make op operands =
      op :: (operands.map (fun x => [x / 256, x % 256])).flatten ∧
    (make op operands).length = 1 + (0 : ℕ) ∧
    readOperands ⟨nm, []⟩ ((make op operands).drop 1) = (operands, 0) := by
  have hnil : operands = [] := List.length_eq_zero.mp hlen
  subst hnil
  have h := make_roundTrip_width0 op nm hd hop
  exact ⟨by rw [h.1]; rfl, by rw [h.1]; rfl, h.2⟩

theorem roundTrip_of_width2 (op : ℕ) (nm : String) (operands : List ℕ)
    (hd : DEFINITIONS op = some ⟨nm, [2]⟩) (hop : op < 256)
    (hlen : operands.length = 1) (hb : ∀ x ∈ operands, x < 65536) :
    make op operands =
      op :: (operands.map (fun x => [x / 256, x % 256])).flatten ∧
    (make op operands).length = 1 + (2 : ℕ) ∧
    readOperands ⟨nm, [2]⟩ ((make op operands).drop 1) = (operands, 2) := by
  match operands, hlen with
  | [x], _ =>
    have hx : x < 65536 := hb x (by simp)
    have h := make_roundTrip_width2 op nm x hd hop hx
    refine ⟨by rw [h.1]; rfl, by rw [h.1]; rfl, h.2⟩

/-- C9: for every opcode that has a definition and every operand list
fitting the definition widths (matching count, 16-bit range), make returns a
buffer of length 1 plus the sum of the operand widths consisting of the
opcode byte followed by each operand encoded big-endian, and readOperands
applied to the bytes after the opcode returns exactly the original operands
after consuming sum-of-widths bytes. -/
theorem make_readOperands_roundTrip :
    ∀ (op : ℕ) (d : Definition) (operands : List ℕ),
      DEFINITIONS op = some d →
      operands.length = d.operandWidths.length →
      (∀ x ∈ operands, x < 65536) →
      make op operands =
        op :: (operands.map (fun x => [x / 256, x % 256])).flatten ∧
      (make op operands).length = 1 + d.operandWidths.sum ∧
      readOperands d ((make op operands).drop 1) =
        (operands, d.operandWidths.sum) := by
  intro op d operands hd hlen hb
  have hlt : op < 21 := by
    by_contra hge
    push_neg at hge
    obtain ⟨n, rfl⟩ : ∃ n, op = n + 21 := ⟨op - 21, by omega⟩
    rw [DEFINITIONS_past_end] at hd
    exact Option.noConfusion hd
  interval_cases op <;>
    (simp only [DEFINITIONS, Option.some_inj] at hd; subst hd;
     simp only [Definition.operandWidths] at hlen ⊢) <;>
    first
      | exact roundTrip_of_width0 _ _ operands rfl (by norm_num)
          (by simpa using hlen)
      | exact roundTrip_of_width2 _ _ operands rfl (by norm_num)
          (by simpa using hlen) hb

/-- Witness for C9: OpJump (opcode 14, one 16-bit operand) at operand 65534
encodes to `[14, 255, 254]` and decodes back. -/
theorem make_readOperands_roundTrip_witness :
    make 14 [65534] = [14, 255, 254] ∧
    readOperands ⟨"OpJump", [2]⟩ ((make 14 [65534]).drop 1) = ([65534], 2) := by
  obtain ⟨h1, _, h3⟩ :=
    make_readOperands_roundTrip 14 ⟨"OpJump", [2]⟩ [65534] rfl rfl
      (by intro x hx; simp at hx; omega)
  exact ⟨h1.trans (by rfl), h3⟩

end Orangutan

namespace Orangutan

/-! ## Built-in functions (src/evaluator/builtins.ts)

Each builtin carries a JavaScript function; the embedding dispatches on the
builtin name.  `puts` prints through console.log, a side effect outside the
model; its return value NULL is what the semantics observes. -/

/-- Apply the builtin of the given name to arguments, as the function bodies
in builtins.ts do.  Quotes inside the source messages are kept verbatim
(written with an escape). -/
def builtinApply (name : String) (args : List Obj) : Obj :=
  match name with
  | "len" =>
    match args with
    | [.StringObject s] => .IntegerObject (s.length : ℚ)
    | [.ArrayObject es] => .IntegerObject (es.length : ℚ)
    | [arg] =>
        .ErrorObject ("argument to \x27len\x27 not supported, got "
          ++ arg.objectType.tag)
    | _ =>
        .ErrorObject ("wrong number of arguments. got="
          ++ toString args.length ++ ", want=1")
  | "first" =>
    match args with
    | [.ArrayObject es] =>
        match es with
        | e :: _ => e
        | [] => .NullObject
    | [arg] =>
        .ErrorObject ("argument to \x27first\x27 must be ARRAY, got "
          ++ arg.objectType.tag)
    | _ =>
        .ErrorObject ("wrong number of arguments. got="
          ++ toString args.length ++ ", want=1")
  | "last" =>
    match args with
    | [.ArrayObject es] =>
        match es.getLast? with
        | some e => e
        | none => .NullObject
    | [arg] =>
        .ErrorObject ("argument to \x27last\x27 must be ARRAY, got "
          ++ arg.objectType.tag)
    | _ =>
        .ErrorObject ("wrong number of arguments. got="
          ++ toString args.length ++ ", want=1")
  | "rest" =>
    match args with
    | [.ArrayObject es] =>
        match es with
        | _ :: tail => .ArrayObject tail
        | [] => .NullObject
    | [arg] =>
        .ErrorObject ("argument to \x27rest\x27 must be ARRAY, got "
          ++ arg.objectType.tag)
    | _ =>
        .ErrorObject ("wrong number of arguments. got="
          ++ toString args.length ++ ", want=1")
  | "push" =>
    match args with
    | [.ArrayObject es, v] => .ArrayObject (es ++ [v])
    | [arg, _] =>
        .ErrorObject ("argument to \x27push\x27 must be ARRAY, got "
          ++ arg.objectType.tag)
    | _ =>
        .ErrorObject ("wrong number of arguments. got="
          ++ toString args.length ++ ", want=2")
  | _ => .NullObject

/-- Modelled from the spec: the ordered builtin registry
(`Object.values(builtinRecord)` in the final VM; the module
`src/interpreter/object/builtins.ts` is not in the snapshot).  The order is
the one of builtins.ts and of the registry table in the spec. -/
def builtinNames : List String := ["len", "first", "last", "rest", "push", "puts"]

/-! ## Virtual machine (the full VM of the snapshot, the second document of
src/src/compiler/vm/vm.test.ts, with the Frame of src/unnamed/part_011) -/

def STACK_SIZE : ℕ := 2048
def GLOBALS_SIZE : ℕ := 0xffff
def CONSTANTS_SIZE : ℕ := 0xffff
def MAX_FRAMES : ℕ := 1024

/-- A call frame: the closure being executed, its base pointer, and the
instruction pointer, which the constructor starts at -1. -/
structure Frame where
  fn : CompiledFn
  free : List Obj
  basePointer : ℤ
  instructionPointer : ℤ

/-- The Frame constructor (instructionPointer starts at -1). -/
def mkFrame (fn : CompiledFn) (free : List Obj) (basePointer : ℤ) : Frame :=
  ⟨fn, free, basePointer, -1⟩

/-- Read a JavaScript array cell by signed index; out-of-range and negative
reads yield `undefined`, which every use below treats like the null-filled
initial cells, so both are modelled as NullObject. -/
def aGet (l : List Obj) (i : ℤ) : Obj :=
  if i < 0 then .NullObject else (l.getD i.toNat .NullObject)

/-- Write a JavaScript array cell by signed index.  The VM's arrays are
sealed at a fixed size, so out-of-range writes are silently dropped, which
is also what `List.set` does. -/
def aSet (l : List Obj) (i : ℤ) (v : Obj) : List Obj :=
  if i < 0 then l else l.set i.toNat v

/-- stack.slice(from, to) for the in-range slices the VM takes; a negative
`from` (malformed bytecode only) is clamped to 0 rather than given the
from-the-end meaning of JavaScript. -/
def aSlice (l : List Obj) (a b : ℤ) : List Obj :=
  (l.take b.toNat).drop a.toNat

structure VmState where
  constants : List Obj
  globals : List Obj
  stack : List Obj
  stackPointer : ℤ
  frames : List Frame
  framesIndex : ℤ

/-- A frame read out of range returns a frame with no instructions, on which
the run loop stops (JavaScript would crash on `undefined`; no theorem below
reaches this case). -/
def frameGet (l : List Frame) (i : ℤ) : Frame :=
  if i < 0 then mkFrame ⟨[], 0, 0⟩ [] 0 else (l.getD i.toNat (mkFrame ⟨[], 0, 0⟩ [] 0))

def frameSet (l : List Frame) (i : ℤ) (v : Frame) : List Frame :=
  if i < 0 then l else l.set i.toNat v

/-- The VM constructor: constants padded to the constants size, null-filled
globals and stack, the main frame wrapping a synthetic closure whose
compiled function holds the program instructions. -/
def newVM (instructions : List ℕ) (constants : List Obj) : VmState :=
  let mainFunction : CompiledFn := ⟨instructions, 0, 0⟩
  let mainFrame := mkFrame mainFunction [] 0
  { constants :=
      constants ++ List.replicate (CONSTANTS_SIZE - constants.length) .NullObject
    globals := List.replicate GLOBALS_SIZE .NullObject
    stack := List.replicate STACK_SIZE .NullObject
    stackPointer := 0
    frames := (List.replicate MAX_FRAMES (mkFrame ⟨[], 0, 0⟩ [] 0)).set 0 mainFrame
    framesIndex := 1 }

def VmState.currentFrame (st : VmState) : Frame :=
  frameGet st.frames (st.framesIndex - 1)

/-- Replace the current frame (models in-place mutation of the frame the VM
is running). -/
def VmState.setCurrentFrame (st : VmState) (fr : Frame) : VmState :=
  { st with frames := frameSet st.frames (st.framesIndex - 1) fr }

def VmState.bumpIp (st : VmState) (k : ℤ) : VmState :=
  let fr := st.currentFrame
  st.setCurrentFrame { fr with instructionPointer := fr.instructionPointer + k }

def VmState.setIp (st : VmState) (ip : ℤ) : VmState :=
  let fr := st.currentFrame
  st.setCurrentFrame { fr with instructionPointer := ip }

/-- VM.push: stack overflow above the fixed stack size. -/
def vmPush (st : VmState) (object : Obj) : Except String VmState :=
  if (STACK_SIZE : ℤ) ≤ st.stackPointer then
    .error "stack overflow"
  else
    .ok { st with
      stack := aSet st.stack st.stackPointer object,
      stackPointer := st.stackPointer + 1 }

/-- VM.pop: underflow at stack pointer 0; only the pointer moves, the cell
keeps its value (the last-popped trick). -/
def vmPop (st : VmState) : Except String (Obj × VmState) :=
  if st.stackPointer = 0 then
    .error "stack underflow"
  else
    .ok (aGet st.stack (st.stackPointer - 1),
      { st with stackPointer := st.stackPointer - 1 })

/-- VM.lastPoppedStackElement: the cell just above the stack pointer. -/
def VmState.lastPoppedStackElement (st : VmState) : Obj :=
  aGet st.stack st.stackPointer

def VmState.pushFrame (st : VmState) (fr : Frame) : VmState :=
  { st with frames := frameSet st.frames st.framesIndex fr,
            framesIndex := st.framesIndex + 1 }

/-- VM.popFrame: decrement the index and return the frame there. -/
def VmState.popFrame (st : VmState) : Frame × VmState :=
  let st' := { st with framesIndex := st.framesIndex - 1 }
  (frameGet st'.frames st'.framesIndex, st')

/-- isTruthy of the evaluator (also used by the VM): everything except the
NULL and FALSE singletons.  Booleans and null exist only as the singletons,
so matching on the constructors coincides with the identity tests of the
source. -/
def isTruthy : Obj → Bool
  | .NullObject => false
  | .BooleanObject false => false
  | _ => true

/-- nativeBooleanToBooleanObject: the singleton for each boolean. -/
def nativeBooleanToBooleanObject (value : Bool) : Obj := .BooleanObject value

/-- JavaScript `===` between runtime objects, used by comparisons on
non-integer operands.  The boolean and null singletons compare by value;
distinct freshly built objects are never identical, which is how the cases
reachable in the theorems below behave (aliasing of one object reference,
e.g. comparing one global to itself, is not modelled). -/
def identityEq : Obj → Obj → Bool
  | .BooleanObject a, .BooleanObject b => a = b
  | .NullObject, .NullObject => true
  | _, _ => false

/-- JavaScript `>` between two non-integer runtime objects: both coerce to
the string "[object Object]", so the comparison is always false. -/
def jsObjectGreater (_ _ : Obj) : Bool := false

/-- VM.executeBinaryIntegerOperation.  Division is the bare JavaScript `/`
on the operand values: rational division here, exact for the divisions any
theorem below evaluates, and in particular not truncated to an integer. -/
def executeBinaryIntegerOperation (st : VmState) (opcode : ℕ) (left right : ℚ) :
    Except String VmState :=
  match opcode with
  | 1 => vmPush st (.IntegerObject (left + right))
  | 3 => vmPush st (.IntegerObject (left - right))
  | 4 => vmPush st (.IntegerObject (left * right))
  | 5 => vmPush st (.IntegerObject (left / right))
  | _ => .error ("operation " ++ toString opcode ++ " unsupported for integer literals")

/-- VM.executeBinaryStringOperation: only OpAdd (concatenation). -/
def executeBinaryStringOperation (st : VmState) (opcode : ℕ) (left right : String) :
    Except String VmState :=
  if opcode ≠ 1 then
    .error ("operation " ++ toString opcode ++ " unsupported for string literals")
  else
    vmPush st (.StringObject (left ++ right))

/-- VM.executeBinaryOperation: pop right then left, require equal object
types, then dispatch on integers or strings. -/
def executeBinaryOperation (st : VmState) (opcode : ℕ) : Except String VmState := do
  let (right, st) ← vmPop st
  let (left, st) ← vmPop st
  if left.objectType ≠ right.objectType then
    .error ("type mismatch: " ++ left.objectType.tag ++ " + " ++ right.objectType.tag)
  else
    match left, right with
    | .IntegerObject l, .IntegerObject r => executeBinaryIntegerOperation st opcode l r
    | .StringObject l, .StringObject r => executeBinaryStringOperation st opcode l r
    | _, _ =>
      .error ("operation unsupported for " ++ left.objectType.tag
        ++ " and " ++ right.objectType.tag)

/-- VM.executeIntegerComparison. -/
def executeIntegerComparison (st : VmState) (opcode : ℕ) (left right : ℚ) :
    Except String VmState :=
  match opcode with
  | 8 => vmPush st (nativeBooleanToBooleanObject (left = right))
  | 9 => vmPush st (nativeBooleanToBooleanObject (left ≠ right))
  | 10 => vmPush st (nativeBooleanToBooleanObject (right < left))
  | _ => .error ("operation " ++ toString opcode ++ " unsupported for integer literals")

/-- VM.executeComparison: pop right then left, require equal types, compare
integers by value and anything else by identity (or the degenerate object
`>`). -/
def executeComparison (st : VmState) (opcode : ℕ) : Except String VmState := do
  let (right, st) ← vmPop st
  let (left, st) ← vmPop st
  if left.objectType ≠ right.objectType then
    .error ("type mismatch: " ++ left.objectType.tag ++ " + " ++ right.objectType.tag)
  else
    match left, right with
    | .IntegerObject l, .IntegerObject r => executeIntegerComparison st opcode l r
    | _, _ =>
      match opcode with
      | 8 => vmPush st (nativeBooleanToBooleanObject (identityEq left right))
      | 9 => vmPush st (nativeBooleanToBooleanObject (!identityEq left right))
      | 10 => vmPush st (nativeBooleanToBooleanObject (jsObjectGreater left right))
      | _ =>
        .error ("operation " ++ toString opcode ++ " unsupported for "
          ++ left.objectType.tag ++ " and " ++ right.objectType.tag)

end Orangutan

namespace Orangutan

/-- The two-at-a-time loop of the OpHash case: each even element must be
hashable, and the pair goes into the map under its hash key (replacing any
earlier pair with the same key, as Map.set does).  An odd trailing key takes
`undefined` as its value, modelled as NullObject. -/
def buildHashPairs : List Obj → List (ℚ × Obj × Obj) →
    Except String (List (ℚ × Obj × Obj))
  | [], acc => .ok acc
  | key :: rest, acc =>
    match key.hashKey with
    | none => .error ("unusable as hash key: " ++ key.objectType.tag)
    | some hk =>
      match rest with
      | [] => .ok (hashMapSet acc hk (key, .NullObject))
      | value :: rest' => buildHashPairs rest' (hashMapSet acc hk (key, value))
where
  hashMapSet (m : List (ℚ × Obj × Obj)) (k : ℚ) (kv : Obj × Obj) :
      List (ℚ × Obj × Obj) :=
    if m.any (fun p => p.1 = k) then
      m.map (fun p => if p.1 = k then (k, kv.1, kv.2) else p)
    else
      m ++ [(k, kv.1, kv.2)]

/-- Map.get on the hash pairs. -/
def hashGet (m : List (ℚ × Obj × Obj)) (k : ℚ) : Option (Obj × Obj) :=
  (m.find? (fun p => p.1 = k)).map (fun p => p.2)

/-- VM.pushClosure: the constant must be a compiled function; pop nfree
values preserving stack order into the closure. -/
def pushClosure (st : VmState) (constIndex numberFreeVariables : ℕ) :
    Except String VmState :=
  let constant := aGet st.constants (constIndex : ℤ)
  match constant with
  | .CompiledFunctionObject fn =>
    let freeVariables :=
      (List.range numberFreeVariables).map
        (fun i => aGet st.stack (st.stackPointer - numberFreeVariables + i))
    let st := { st with stackPointer := st.stackPointer - numberFreeVariables }
    vmPush st (.ClosureObject fn freeVariables)
  | _ => .error ("not a function: " ++ constant.objectType.tag)

/-- VM.callClosure: arity must match; the new frame's base pointer is the
stack pointer minus the argument count, and the stack pointer advances past
the reserved local slots. -/
def callClosure (st : VmState) (fn : CompiledFn) (free : List Obj)
    (numberOfArguments : ℕ) : Except String VmState :=
  if fn.numberParameters ≠ numberOfArguments then
    .error ("wrong number of arguments: want=" ++ toString fn.numberParameters
      ++ ", got=" ++ toString numberOfArguments)
  else
    let frame := mkFrame fn free (st.stackPointer - numberOfArguments)
    let st := st.pushFrame frame
    .ok { st with stackPointer := frame.basePointer + fn.numberLocals }

/-- VM.callBuiltin: slice the arguments, apply, rewind the stack pointer by
`numberOfArguments - 1` (the arithmetic of the source, which leaves the
callee slot in place), then either raise the builtin's error or push its
result. -/
def callBuiltin (st : VmState) (name : String) (numberOfArguments : ℕ) :
    Except String VmState :=
  let args := aSlice st.stack (st.stackPointer - numberOfArguments) st.stackPointer
  let result := builtinApply name args
  let st := { st with stackPointer := st.stackPointer - ((numberOfArguments : ℤ) - 1) }
  match result with
  | .ErrorObject message => .error message
  | _ => vmPush st result

/-- VM.executeCall: the callee sits below the arguments, at stack slot
`stackPointer - 1 - numberOfArguments`; closures and builtins are called,
anything else is a runtime error. -/
def executeCall (st : VmState) (numberOfArguments : ℕ) : Except String VmState :=
  let callee := aGet st.stack (st.stackPointer - 1 - numberOfArguments)
  match callee with
  | .ClosureObject fn free => callClosure st fn free numberOfArguments
  | .BuiltinFunctionObject name => callBuiltin st name numberOfArguments
  | _ => .error "calling non-function and non-builtin"

/-- One iteration of the VM run loop: pre-increment the instruction pointer,
read the opcode there and dispatch; every operand read advances the pointer
as in the source. -/
def vmStep (st : VmState) : Except String VmState := do
  let st := st.bumpIp 1
  let instructionPointer := st.currentFrame.instructionPointer
  let instructions := st.currentFrame.fn.instructions
  let opcode := (instructions.drop instructionPointer.toNat).headD 0
  match opcode with
  | 0 => -- OpConstant
    let constIndex := readUint16 (instructions.drop (instructionPointer.toNat + 1))
    let st := st.bumpIp 2
    let constant := aGet st.constants (constIndex : ℤ)
    vmPush st constant
  | 1 | 3 | 4 | 5 => executeBinaryOperation st opcode
  | 2 => do -- OpPop
    let (_, st) ← vmPop st
    .ok st
  | 6 => vmPush st (.BooleanObject true)
  | 7 => vmPush st (.BooleanObject false)
  | 15 => vmPush st .NullObject
  | 8 | 9 | 10 => executeComparison st opcode
  | 11 => do -- OpMinus
    let (top, st) ← vmPop st
    match top with
    | .IntegerObject v => vmPush st (.IntegerObject (-v))
    | _ => .error ("unsupported type for negation: " ++ top.objectType.tag)
  | 12 => do -- OpBang
    let (operand, st) ← vmPop st
    let negated := if isTruthy operand then Obj.BooleanObject false
      else Obj.BooleanObject true
    vmPush st negated
  | 13 => do -- OpJumpNotTruthy
    let (condition, st) ← vmPop st
    if !isTruthy condition then
      let jumpToIndex := readUint16 (instructions.drop (instructionPointer.toNat + 1))
      .ok (st.setIp ((jumpToIndex : ℤ) - 1))
    else
      .ok (st.bumpIp 2)
  | 14 => -- OpJump
    let jumpToIndex := readUint16 (instructions.drop (instructionPointer.toNat + 1))
    .ok (st.setIp ((jumpToIndex : ℤ) - 1))
  | 17 => do -- OpSetGlobal
    let globalSetIndex := readUint16 (instructions.drop (instructionPointer.toNat + 1))
    let st := st.bumpIp 2
    let (value, st) ← vmPop st
    .ok { st with globals := aSet st.globals (globalSetIndex : ℤ) value }
  | 25 => do -- OpSetLocal
    let localSetIndex := (instructions.drop (instructionPointer.toNat + 1)).headD 0
    let st := st.bumpIp 1
    let (value, st) ← vmPop st
    .ok { st with
      stack := aSet st.stack (st.currentFrame.basePointer + localSetIndex) value }
  | 16 => -- OpGetGlobal
    let globalGetIndex := readUint16 (instructions.drop (instructionPointer.toNat + 1))
    let st := st.bumpIp 2
    vmPush st (aGet st.globals (globalGetIndex : ℤ))
  | 24 => -- OpGetLocal
    let localGetIndex := (instructions.drop (instructionPointer.toNat + 1)).headD 0
    let st := st.bumpIp 1
    vmPush st (aGet st.stack (st.currentFrame.basePointer + localGetIndex))
  | 26 => -- OpGetBuiltin
    let builtinIndex := (instructions.drop (instructionPointer.toNat + 1)).headD 0
    let st := st.bumpIp 1
    match builtinNames[builtinIndex]? with
    | none => .error ("builtin not found at index: " ++ toString builtinIndex)
    | some name => vmPush st (.BuiltinFunctionObject name)
  | 28 => -- OpGetFree
    let freeIndex := (instructions.drop (instructionPointer.toNat + 1)).headD 0
    let st := st.bumpIp 1
    let currentClosure := st.currentFrame
    vmPush st (currentClosure.free.getD freeIndex .NullObject)
  | 18 => -- OpArray
    let size := readUint16 (instructions.drop (instructionPointer.toNat + 1))
    let st := st.bumpIp 2
    let array := Obj.ArrayObject (aSlice st.stack (st.stackPointer - size) st.stackPointer)
    let st := { st with stackPointer := st.stackPointer - size }
    vmPush st array
  | 19 => do -- OpHash
    let sizeHash := readUint16 (instructions.drop (instructionPointer.toNat + 1))
    let st := st.bumpIp 2
    let elements := aSlice st.stack (st.stackPointer - sizeHash) st.stackPointer
    let st := { st with stackPointer := st.stackPointer - sizeHash }
    let pairs ← buildHashPairs elements []
    vmPush st (.HashObject pairs)
  | 20 => do -- OpIndex
    let (index, st) ← vmPop st
    let (left, st) ← vmPop st
    match left, index with
    | .ArrayObject elements, .IntegerObject i =>
      let max : ℚ := (elements.length : ℚ) - 1
      if i < 0 ∨ max < i then
        vmPush st .NullObject
      else
        vmPush st (if i.den = 1 then elements.getD i.num.toNat .NullObject
          else .NullObject)
    | .HashObject pairs, _ =>
      match index.hashKey with
      | some hk =>
        (match hashGet pairs hk with
         | none => vmPush st .NullObject
         | some pair => vmPush st pair.2)
      | none =>
        .error ("index operator " ++ index.objectType.tag
          ++ " not supported for: " ++ left.objectType.tag)
    | _, _ =>
      .error ("index operator " ++ index.objectType.tag
        ++ " not supported for: " ++ left.objectType.tag)
  | 27 => -- OpClosure
    let constIndexClosure := readUint16 (instructions.drop (instructionPointer.toNat + 1))
    let numberFreeVariables := (instructions.drop (instructionPointer.toNat + 3)).headD 0
    let st := st.bumpIp 3
    pushClosure st constIndexClosure numberFreeVariables
  | 29 => -- OpCurrentClosure
    let fr := st.currentFrame
    vmPush st (.ClosureObject fr.fn fr.free)
  | 21 => -- OpCall
    let numberOfArguments := (instructions.drop (instructionPointer.toNat + 1)).headD 0
    let st := st.bumpIp 1
    executeCall st numberOfArguments
  | 22 => do -- OpReturnValue
    let (returnValue, st) ← vmPop st
    let (poppedFrame, st) := st.popFrame
    let st := { st with stackPointer := poppedFrame.basePointer - 1 }
    vmPush st returnValue
  | 23 => -- OpReturn
    let (poppedFrame, st) := st.popFrame
    let st := { st with stackPointer := poppedFrame.basePointer - 1 }
    vmPush st .NullObject
  | _ => .error ("unknown opcode: " ++ toString opcode)

/-- VM.run: iterate while the current frame's instruction pointer is before
its last instruction.  The fuel only bounds the number of loop iterations of
the model; every concrete execution below terminates well within the fuel it
is given. -/
def vmRun (fuel : ℕ) (st : VmState) : Except String VmState :=
  match fuel with
  | 0 => .error "model out of fuel"
  | fuel + 1 =>
    if st.currentFrame.instructionPointer <
        (st.currentFrame.fn.instructions.length : ℤ) - 1 then
      match vmStep st with
      | .error e => .error e
      | .ok st' => vmRun fuel st'
    else
      .ok st

end Orangutan

namespace Orangutan

/-! ## Claim C2: OpCall dispatch -/

/-- C2: executeCall reads the callee from stack slot
`stackPointer - 1 - numberOfArguments`; a closure whose parameter count
differs from the argument count raises
`wrong number of arguments: want=W, got=G`; a matching closure pushes a
frame based at `stackPointer - numberOfArguments` and reserves its locals;
any callee that is neither a closure nor a builtin raises
`calling non-function and non-builtin`. -/
theorem executeCall_spec :
    (∀ (st : VmState) (n : ℕ) (fn : CompiledFn) (free : List Obj),
      aGet st.stack (st.stackPointer - 1 - n) = .ClosureObject fn free →
      fn.numberParameters ≠ n →
        executeCall st n =
          .error ("wrong number of arguments: want=" ++ toString fn.numberParameters
            ++ ", got=" ++ toString n)) ∧
    (∀ (st : VmState) (n : ℕ) (fn : CompiledFn) (free : List Obj),
      aGet st.stack (st.stackPointer - 1 - n) = .ClosureObject fn free →
      fn.numberParameters = n →
        executeCall st n =
          .ok { st.pushFrame (mkFrame fn free (st.stackPointer - n)) with
                  stackPointer := (st.stackPointer - n) + fn.numberLocals }) ∧
    (∀ (st : VmState) (n : ℕ),
      (∀ fn free, aGet st.stack (st.stackPointer - 1 - n) ≠ .ClosureObject fn free) →
      (∀ name, aGet st.stack (st.stackPointer - 1 - n) ≠ .BuiltinFunctionObject name) →
        executeCall st n = .error "calling non-function and non-builtin") := by
  refine ⟨?_, ?_, ?_⟩
  · intro st n fn free hslot hmismatch
    unfold executeCall
    rw [hslot]
    unfold callClosure
    simp [hmismatch]
  · intro st n fn free hslot hmatch
    unfold executeCall
    rw [hslot]
    unfold callClosure
    simp [hmatch, mkFrame]
  · intro st n hnc hnb
    unfold executeCall
    cases hslot : aGet st.stack (st.stackPointer - 1 - n) with
    | ClosureObject fn free => exact absurd hslot (by simpa using hnc fn free)
    | BuiltinFunctionObject name => exact absurd hslot (by simpa using hnb name)
    | _ => rfl

/-- Witness for C2: on a one-slot stack holding a zero-local closure of two
parameters, a zero-argument call raises the arity error, and an integer
callee raises the non-callable error. -/
theorem executeCall_spec_witness :
    executeCall ⟨[], [], [.ClosureObject ⟨[], 0, 2⟩ []], 1, [], 1⟩ 0 =
      .error "wrong number of arguments: want=2, got=0" ∧
    executeCall ⟨[], [], [.IntegerObject 1], 1, [], 1⟩ 0 =
      .error "calling non-function and non-builtin" := by
  constructor
  · exact executeCall_spec.1 ⟨[], [], [.ClosureObject ⟨[], 0, 2⟩ []], 1, [], 1⟩ 0
      ⟨[], 0, 2⟩ [] rfl (by decide)
  · exact executeCall_spec.2.2 ⟨[], [], [.IntegerObject 1], 1, [], 1⟩ 0
      (by intro fn free h; exact Obj.noConfusion h)
      (by intro name h; exact Obj.noConfusion h)

/-! ## Claim C10: HashObject.objectType -/

/-- C10: HashObject.objectType returns ARRAY_OBJECT, the same tag
ArrayObject.objectType returns, so hashes and arrays are indistinguishable
by objectType, and a type-based runtime error on a hash reports
ARRAY_OBJECT: negating the empty hash built by `OpHash 0` raises
`unsupported type for negation: ARRAY_OBJECT`. -/
theorem hashObject_objectType_is_array :
    (∀ pairs, (Obj.HashObject pairs).objectType = ObjectType.ARRAY_OBJECT) ∧
    (∀ elements, (Obj.ArrayObject elements).objectType = ObjectType.ARRAY_OBJECT) ∧
    (∀ pairs elements,
      (Obj.HashObject pairs).objectType = (Obj.ArrayObject elements).objectType) ∧
    (Obj.HashObject []).objectType.tag = "ARRAY_OBJECT" ∧
    vmRun 10 (newVM [19, 0, 0, 11] []) =
      .error "unsupported type for negation: ARRAY_OBJECT" := by
  refine ⟨fun _ => rfl, fun _ => rfl, fun _ _ => rfl, rfl, ?_⟩
  rfl

end Orangutan

namespace Orangutan

/-! ## Environments (src/interpreter/object/environment.ts) -/

/-- Environment.get: the local store first, then the outer chain. -/
def Env.get : Env → String → Option Obj
  | .mk store outer, name =>
    if storeHas store name then storeGet store name
    else
      match outer with
      | some o => o.get name
      | none => none

/-- Environment.setOnCurrent. -/
def Env.setOnCurrent : Env → String → Obj → Env
  | .mk store outer, name, value => .mk (storeSet store name value) outer

/-! ## The reference evaluator (src/unnamed/part_021, the latest evaluator)

The evaluator returns runtime objects; its errors are ErrorObject values.
The fuel argument is a modelling artifact bounding recursion depth; every
function returns none when it runs out, and every concrete run below is
given ample fuel.  The environment is threaded through each evaluation in
source order, modelling the in-place mutation of the source. -/

/-- Identity test against the NULL singleton (`right === NULL`). -/
def isNull : Obj → Bool
  | .NullObject => true
  | _ => false

/-- isError of the evaluator. -/
def isError : Obj → Bool
  | .ErrorObject _ => true
  | _ => false

/-- evaluateBangOperatorExpression. -/
def evaluateBangOperatorExpression (right : Obj) : Obj :=
  if isTruthy right then .BooleanObject false else .BooleanObject true

/-- evaluateMinusPrefixOperatorExpression. -/
def evaluateMinusPrefixOperatorExpression (right : Obj) : Obj :=
  match right with
  | .IntegerObject value => .IntegerObject (-value)
  | _ => .ErrorObject ("unknown operator: -" ++ right.objectType.tag)

/-- evaluatePrefixExpression. -/
def evaluatePrefixExpression (operator : String) (right : Obj) : Obj :=
  match operator with
  | "!" => evaluateBangOperatorExpression right
  | "-" => evaluateMinusPrefixOperatorExpression right
  | _ => .ErrorObject ("unknown operator: " ++ operator ++ " " ++ right.objectType.tag)

/-- evaluateIntegerInfixExpression.  The `/` case is the bare JavaScript
division of the two values: rational division in the model, exact for every
division a theorem below evaluates, and not truncated to an integer. -/
def evaluateIntegerInfixExpression (operator : String) (left right : Obj) : Obj :=
  let leftValue := match left with | .IntegerObject v => v | _ => 0
  let rightValue := match right with | .IntegerObject v => v | _ => 0
  match operator with
  | "+" => .IntegerObject (leftValue + rightValue)
  | "-" => .IntegerObject (leftValue - rightValue)
  | "*" => .IntegerObject (leftValue * rightValue)
  | "/" => .IntegerObject (leftValue / rightValue)
  | "<" => nativeBooleanToBooleanObject (leftValue < rightValue)
  | ">" => nativeBooleanToBooleanObject (rightValue < leftValue)
  | "==" => nativeBooleanToBooleanObject (leftValue = rightValue)
  | "!=" => nativeBooleanToBooleanObject (leftValue ≠ rightValue)
  | _ =>
    .ErrorObject ("unknown operator: " ++ left.objectType.tag ++ " " ++ operator
      ++ " " ++ right.objectType.tag)

/-- evaluateStringInfixExpression: only concatenation. -/
def evaluateStringInfixExpression (operator : String) (left right : Obj) : Obj :=
  let leftValue := match left with | .StringObject v => v | _ => ""
  let rightValue := match right with | .StringObject v => v | _ => ""
  if operator ≠ "+" then
    .ErrorObject ("unknown operator: " ++ left.objectType.tag ++ " " ++ operator
      ++ " " ++ right.objectType.tag)
  else
    .StringObject (leftValue ++ rightValue)

/-- evaluateInfixExpression. -/
def evaluateInfixExpression (operator : String) (left right : Obj) : Obj :=
  if operator = "&&" then
    nativeBooleanToBooleanObject (isTruthy left && isTruthy right)
  else if operator = "||" then
    nativeBooleanToBooleanObject (isTruthy left || isTruthy right)
  else if left.objectType ≠ right.objectType then
    .ErrorObject ("type mismatch: " ++ left.objectType.tag ++ " " ++ operator
      ++ " " ++ right.objectType.tag)
  else
    match left, right with
    | .IntegerObject _, .IntegerObject _ =>
        evaluateIntegerInfixExpression operator left right
    | .StringObject _, .StringObject _ =>
        evaluateStringInfixExpression operator left right
    | _, _ =>
      if operator = "==" then
        nativeBooleanToBooleanObject (identityEq left right)
      else if operator = "!=" then
        nativeBooleanToBooleanObject (!identityEq left right)
      else
        .ErrorObject ("unknown operator: " ++ left.objectType.tag ++ " " ++ operator
          ++ " " ++ right.objectType.tag)

/-- evaluateIdentifier: environment first, then the builtin map, then an
`identifier not found` error. -/
def evaluateIdentifier (name : String) (environment : Env) : Obj :=
  match environment.get name with
  | some value => value
  | none =>
    if builtinNames.contains name then .BuiltinFunctionObject name
    else .ErrorObject ("identifier not found: " ++ name)

/-- evaluateArrayIndexExpression. -/
def evaluateArrayIndexExpression (elements : List Obj) (i : ℚ) : Obj :=
  let max : ℚ := (elements.length : ℚ) - 1
  if i < 0 ∨ max < i then .NullObject
  else if i.den = 1 then elements.getD i.num.toNat .NullObject
  else .NullObject

/-- evaluateHashIndexExpression. -/
def evaluateHashIndexExpression (pairs : List (ℚ × Obj × Obj)) (index : Obj) : Obj :=
  match index.hashKey with
  | none => .ErrorObject ("unusable as hash key: " ++ index.objectType.tag)
  | some hk =>
    match hashGet pairs hk with
    | none => .NullObject
    | some pair => pair.2

/-- evaluateIndexExpression. -/
def evaluateIndexExpression (left index : Obj) : Obj :=
  match left, index with
  | .ArrayObject elements, .IntegerObject i => evaluateArrayIndexExpression elements i
  | .HashObject pairs, _ => evaluateHashIndexExpression pairs index
  | _, _ => .ErrorObject ("index operator not supported: " ++ left.objectType.tag)

/-- unwrapReturnValue. -/
def unwrapReturnValue : Obj → Obj
  | .ReturnValueObject value => value
  | object => object

/-- extendFunctionEnvironment: a fresh environment whose outer is the
function's captured environment, binding each parameter to the argument at
its index (a missing argument binds JavaScript `undefined`, modelled as
NullObject). -/
def extendFunctionEnvironment (parameters : List String) (environment : Env)
    (args : List Obj) : Env :=
  (parameters.enum.foldl
    (fun env p => env.setOnCurrent p.2 (args.getD p.1 .NullObject))
    (.mk [] (some environment)))

mutual

/-- The evaluator of part_021.  A `PrefixExpression` and an
`InfixExpression` return an operand outright when it evaluates to NULL
(lumping NULL with errors), bypassing the operator; a `LetStatement` binds
and falls through to the final NULL return. -/
def evaluator : ℕ → AstNode → Env → Option (Obj × Env)
  | 0, _, _ => none
  | fuel + 1, node, environment =>
    match node with
    | .Program statements => evaluateProgram fuel statements .NullObject environment
    | .ExpressionStatement expression => evaluator fuel expression environment
    | .IntegerLiteral value => some (.IntegerObject (value : ℚ), environment)
    | .StringLiteral literal => some (.StringObject literal, environment)
    | .BooleanLiteral value => some (nativeBooleanToBooleanObject value, environment)
    | .PrefixExpression operator right => do
      let (r, environment) ← evaluator fuel right environment
      if isNull r || isError r then
        some (r, environment)
      else
        some (evaluatePrefixExpression operator r, environment)
    | .InfixExpression operator left right => do
      let (l, environment) ← evaluator fuel left environment
      if isNull l || isError l then
        some (l, environment)
      else do
        let (r, environment) ← evaluator fuel right environment
        if isNull r || isError r then
          some (r, environment)
        else
          some (evaluateInfixExpression operator l r, environment)
    | .BlockStatement statements =>
        evaluateBlockStatement fuel statements .NullObject environment
    | .IfExpression condition consequence alternative => do
      let (c, environment) ← evaluator fuel condition environment
      if isError c then
        some (c, environment)
      else if isTruthy c then
        evaluator fuel consequence environment
      else
        match alternative with
        | some alt => evaluator fuel alt environment
        | none => some (.NullObject, environment)
    | .ReturnStatement returnValue => do
      let (value, environment) ← evaluator fuel returnValue environment
      some (.ReturnValueObject value, environment)
    | .LetStatement name value => do
      let (v, environment) ← evaluator fuel value environment
      if isError v then
        some (v, environment)
      else
        some (.NullObject, environment.setOnCurrent name v)
    | .Identifier value => some (evaluateIdentifier value environment, environment)
    | .FunctionLiteral parameters body =>
        some (.FunctionObject parameters body environment, environment)
    | .CallExpression function arguments => do
      let (fn, environment) ← evaluator fuel function environment
      if isError fn then
        some (fn, environment)
      else do
        let (args, environment) ← evaluateExpressions fuel arguments [] environment
        if args.length = 1 ∧ isError (args.getD 0 .NullObject) then
          some (args.getD 0 .NullObject, environment)
        else do
          let result ← applyFunction fuel fn args
          some (result, environment)
    | .ArrayLiteral elements => do
      let (es, environment) ← evaluateExpressions fuel elements [] environment
      if es.length = 1 ∧ isError (es.getD 0 .NullObject) then
        some (es.getD 0 .NullObject, environment)
      else
        some (.ArrayObject es, environment)
    | .IndexExpression left index => do
      let (l, environment) ← evaluator fuel left environment
      if isError l then
        some (l, environment)
      else do
        let (i, environment) ← evaluator fuel index environment
        if isError i then
          some (i, environment)
        else
          some (evaluateIndexExpression l i, environment)
    | .HashLiteral pairs => do
      let (ps, environment) ← evaluateHashLiteral fuel pairs [] environment
      some (.HashObject ps, environment)

/-- evaluateProgram: a ReturnValueObject stops and unwraps, an ErrorObject
stops; otherwise the last statement's value (NULL before any statement). -/
def evaluateProgram : ℕ → List AstNode → Obj → Env → Option (Obj × Env)
  | 0, _, _, _ => none
  | _, [], result, environment => some (result, environment)
  | fuel + 1, statement :: rest, _, environment => do
    let (result, environment) ← evaluator fuel statement environment
    match result with
    | .ReturnValueObject value => some (value, environment)
    | .ErrorObject _ => some (result, environment)
    | _ => evaluateProgram fuel rest result environment

/-- evaluateBlockStatement: like evaluateProgram but a ReturnValueObject is
returned still wrapped. -/
def evaluateBlockStatement : ℕ → List AstNode → Obj → Env → Option (Obj × Env)
  | 0, _, _, _ => none
  | _, [], result, environment => some (result, environment)
  | fuel + 1, statement :: rest, _, environment => do
    let (result, environment) ← evaluator fuel statement environment
    match result with
    | .ReturnValueObject _ => some (result, environment)
    | .ErrorObject _ => some (result, environment)
    | _ => evaluateBlockStatement fuel rest result environment

/-- evaluateExpressions: evaluate in order; on the first error return a
one-element list holding it. -/
def evaluateExpressions : ℕ → List AstNode → List Obj → Env →
    Option (List Obj × Env)
  | 0, _, _, _ => none
  | _, [], results, environment => some (results, environment)
  | fuel + 1, expression :: rest, results, environment => do
    let (result, environment) ← evaluator fuel expression environment
    if isError result then
      some ([result], environment)
    else
      evaluateExpressions fuel rest (results ++ [result]) environment

/-- applyFunction: user functions run their body in an extended environment
and unwrap a ReturnValueObject; builtins apply directly; anything else is an
error. -/
def applyFunction : ℕ → Obj → List Obj → Option Obj
  | 0, _, _ => none
  | fuel + 1, fn, args =>
    match fn with
    | .FunctionObject parameters body environment => do
      let extended := extendFunctionEnvironment parameters environment args
      let (evaluated, _) ← evaluator fuel body extended
      some (unwrapReturnValue evaluated)
    | .BuiltinFunctionObject name => some (builtinApply name args)
    | _ => some (.ErrorObject ("not a function: " ++ fn.objectType.tag))

/-- evaluateHashLiteral: the source iterates the pairs with forEach whose
callback returns early on a non-hashable key or an error value; those
returns only skip the pair (forEach discards them), so the pair is dropped
and iteration continues. -/
def evaluateHashLiteral : ℕ → List (AstNode × AstNode) →
    List (ℚ × Obj × Obj) → Env → Option (List (ℚ × Obj × Obj) × Env)
  | 0, _, _, _ => none
  | _, [], acc, environment => some (acc, environment)
  | fuel + 1, (k, v) :: rest, acc, environment => do
    let (evaluatedKey, environment) ← evaluator fuel k environment
    match evaluatedKey.hashKey with
    | none => evaluateHashLiteral fuel rest acc environment
    | some hk => do
      let (evaluatedValue, environment) ← evaluator fuel v environment
      if isError evaluatedValue then
        evaluateHashLiteral fuel rest acc environment
      else
        evaluateHashLiteral fuel rest
          (buildHashPairs.hashMapSet acc hk (evaluatedKey, evaluatedValue))
          environment

end

/-- Evaluate a whole program in a fresh environment, as the interpreter
entry point does, returning the resulting object. -/
def evalProgram (fuel : ℕ) (program : AstNode) : Option Obj :=
  (evaluator fuel program (.mk [] none)).map (fun p => p.1)

end Orangutan

namespace Orangutan

/-! ## The final instruction table and encoder

Modelled from the spec: the code module the compiler of part_002 imports
(with the call, return, local, builtin, closure and free opcodes and 1-byte
operand support) is present in the snapshot only through its tests.  Widths
follow the opcode table of the spec; opcodes 0 to 20 keep the numbering of
part_012, and 21 to 29 are numbered in enum order, consistent with
OpGetLocal = 24 visible in the code tests. -/

def OpConstant : ℕ := 0
def OpAdd : ℕ := 1
def OpPop : ℕ := 2
def OpSub : ℕ := 3
def OpMul : ℕ := 4
def OpDiv : ℕ := 5
def OpTrue : ℕ := 6
def OpFalse : ℕ := 7
def OpEqual : ℕ := 8
def OpNotEqual : ℕ := 9
def OpGreaterThan : ℕ := 10
def OpMinus : ℕ := 11
def OpBang : ℕ := 12
def OpJumpNotTruthy : ℕ := 13
def OpJump : ℕ := 14
def OpNull : ℕ := 15
def OpGetGlobal : ℕ := 16
def OpSetGlobal : ℕ := 17
def OpArray : ℕ := 18
def OpHash : ℕ := 19
def OpIndex : ℕ := 20
def OpCall : ℕ := 21
def OpReturnValue : ℕ := 22
def OpReturn : ℕ := 23
def OpGetLocal : ℕ := 24
def OpSetLocal : ℕ := 25
def OpGetBuiltin : ℕ := 26
def OpClosure : ℕ := 27
def OpGetFree : ℕ := 28
def OpCurrentClosure : ℕ := 29

/-- Modelled from the spec: the operand-width table of the final code
module (spec opcode table; the snapshot holds only the module's tests). -/
def definitionsFull : ℕ → Option Definition
  | 0 => some ⟨"OpConstant", [2]⟩
  | 1 => some ⟨"OpAdd", []⟩
  | 2 => some ⟨"OpPop", []⟩
  | 3 => some ⟨"OpSub", []⟩
  | 4 => some ⟨"OpMul", []⟩
  | 5 => some ⟨"OpDiv", []⟩
  | 6 => some ⟨"OpTrue", []⟩
  | 7 => some ⟨"OpFalse", []⟩
  | 8 => some ⟨"OpEqual", []⟩
  | 9 => some ⟨"OpNotEqual", []⟩
  | 10 => some ⟨"OpGreaterThan", []⟩
  | 11 => some ⟨"OpMinus", []⟩
  | 12 => some ⟨"OpBang", []⟩
  | 13 => some ⟨"OpJumpNotTruthy", [2]⟩
  | 14 => some ⟨"OpJump", [2]⟩
  | 15 => some ⟨"OpNull", []⟩
  | 16 => some ⟨"OpGetGlobal", [2]⟩
  | 17 => some ⟨"OpSetGlobal", [2]⟩
  | 18 => some ⟨"OpArray", [2]⟩
  | 19 => some ⟨"OpHash", [2]⟩
  | 20 => some ⟨"OpIndex", []⟩
  | 21 => some ⟨"OpCall", [1]⟩
  | 22 => some ⟨"OpReturnValue", []⟩
  | 23 => some ⟨"OpReturn", []⟩
  | 24 => some ⟨"OpGetLocal", [1]⟩
  | 25 => some ⟨"OpSetLocal", [1]⟩
  | 26 => some ⟨"OpGetBuiltin", [1]⟩
  | 27 => some ⟨"OpClosure", [2, 1]⟩
  | 28 => some ⟨"OpGetFree", [1]⟩
  | 29 => some ⟨"OpCurrentClosure", []⟩
  | _ => none

/-- Modelled from the spec: make of the final code module, identical to the
part_012 encoder except that the width switch also handles 1-byte operands
(`make(OpGetLocal, 255)` encodes to `[24, 255]` in the module's tests). -/
def makeF (op : ℕ) (operands : List ℕ) : List ℕ :=
  match definitionsFull op with
  | none => []
  | some definition =>
    let instructionLength := definition.operandWidths.foldl (· + ·) 1
    let init : List ℕ × ℕ :=
      ((List.replicate instructionLength 0).set 0 (op % 256), 1)
    (operands.enum.foldl
      (fun acc p =>
        match definition.operandWidths[p.1]? with
        | some 2 =>
            ((acc.1.set acc.2 (((p.2 >>> 8)) % 256)).set (acc.2 + 1)
              ((p.2 &&& 255) % 256),
             acc.2 + 2)
        | some 1 => (acc.1.set acc.2 (p.2 % 256), acc.2 + 1)
        | _ => acc)
      init).1

/-! ## The compiler (src/unnamed/part_002, the scoped compiler of the
snapshot, with the symbol table of part_001)

Errors are thrown in the source; the embedding returns them in
`Except String`.  The compiler state carries the constants, the current
symbol table, and the stack of compilation scopes. -/

structure EmittedInstruction where
  opcode : ℕ
  position : ℤ
  deriving Repr

structure CompilationScope where
  instructions : List ℕ
  lastInstruction : EmittedInstruction
  previousInstruction : EmittedInstruction
  deriving Repr

/-- A fresh compilation scope; the last-instruction slots hold bogus
values, position -1. -/
def newCompilationScope : CompilationScope :=
  ⟨[], ⟨OpConstant, -1⟩, ⟨OpConstant, -1⟩⟩

structure CompilerState where
  constants : List Obj
  symbols : SymbolTable
  scopes : List CompilationScope
  scopeIndex : ℕ

/-- The Compiler constructor with a fresh global symbol table and empty
constants. -/
def newCompiler : CompilerState :=
  ⟨[], .mk none [] [] 0, [newCompilationScope], 0⟩

def CompilerState.currentScope (st : CompilerState) : CompilationScope :=
  st.scopes.getD st.scopeIndex newCompilationScope

def CompilerState.currentInstructions (st : CompilerState) : List ℕ :=
  st.currentScope.instructions

def CompilerState.updateScope (st : CompilerState)
    (f : CompilationScope → CompilationScope) : CompilerState :=
  { st with scopes := st.scopes.set st.scopeIndex (f st.currentScope) }

/-- addInstruction: append and return the position of the new
instruction. -/
def CompilerState.addInstruction (st : CompilerState) (instruction : List ℕ) :
    ℤ × CompilerState :=
  let position : ℤ := st.currentInstructions.length
  (position, st.updateScope (fun scope =>
    { scope with instructions := scope.instructions ++ instruction }))

/-- setLastInstruction. -/
def CompilerState.setLastInstruction (st : CompilerState) (opcode : ℕ)
    (position : ℤ) : CompilerState :=
  st.updateScope (fun scope =>
    { scope with previousInstruction := scope.lastInstruction,
                 lastInstruction := ⟨opcode, position⟩ })

/-- emit: encode, append, remember. -/
def CompilerState.emit (st : CompilerState) (op : ℕ) (operands : List ℕ) :
    ℤ × CompilerState :=
  let (position, st) := st.addInstruction (makeF op operands)
  (position, st.setLastInstruction op position)

/-- addConstant: append and return the index. -/
def CompilerState.addConstant (st : CompilerState) (object : Obj) :
    ℕ × CompilerState :=
  (st.constants.length, { st with constants := st.constants ++ [object] })

/-- lastInstructionIs. -/
def CompilerState.lastInstructionIs (st : CompilerState) (opcode : ℕ) : Bool :=
  if st.currentInstructions.length = 0 then false
  else st.currentScope.lastInstruction.opcode = opcode

/-- removeLastPop: truncate at the last instruction's position and restore
the previous instruction. -/
def CompilerState.removeLastPop (st : CompilerState) : CompilerState :=
  st.updateScope (fun scope =>
    { scope with
        instructions := scope.instructions.take scope.lastInstruction.position.toNat,
        lastInstruction := scope.previousInstruction })

/-- replaceInstruction: overwrite the bytes of the new instruction in
place. -/
def CompilerState.replaceInstruction (st : CompilerState) (position : ℕ)
    (newInstruction : List ℕ) : CompilerState :=
  st.updateScope (fun scope =>
    { scope with instructions :=
        (newInstruction.enum.foldl
          (fun acc p => acc.set (position + p.1) p.2)
          scope.instructions) })

/-- changeOperand: re-encode with the opcode found at the position and the
new operand, overwriting in place. -/
def CompilerState.changeOperand (st : CompilerState) (opPosition : ℕ)
    (operand : ℕ) : CompilerState :=
  let opcode := (st.currentInstructions.drop opPosition).headD 0
  st.replaceInstruction opPosition (makeF opcode [operand])

/-- replaceLastPopWithReturn. -/
def CompilerState.replaceLastPopWithReturn (st : CompilerState) : CompilerState :=
  let last := st.currentScope.lastInstruction
  let st := st.replaceInstruction last.position.toNat (makeF OpReturnValue [])
  st.updateScope (fun scope =>
    { scope with lastInstruction := { scope.lastInstruction with opcode := OpReturnValue } })

/-- enterScope: push a fresh compilation scope and a nested symbol table. -/
def CompilerState.enterScope (st : CompilerState) : CompilerState :=
  { st with scopes := st.scopes ++ [newCompilationScope],
            scopeIndex := st.scopeIndex + 1,
            symbols := .mk (some st.symbols) [] [] 0 }

/-- leaveScope: pop the scope and return to the outer symbol table (the
source casts the outer pointer, which is never absent when leaveScope is
reached). -/
def CompilerState.leaveScope (st : CompilerState) : List ℕ × CompilerState :=
  let instructions := st.currentInstructions
  (instructions,
   { st with scopes := st.scopes.dropLast,
             scopeIndex := st.scopeIndex - 1,
             symbols := st.symbols.outer.getD st.symbols })

/-- The stable ascending sort of the hash-literal pairs by the source form
of the key (`localeCompare` modelled as the string order; stability matches
the JavaScript sort). -/
def insertSorted (key : AstNode × AstNode → String) (a : AstNode × AstNode) :
    List (AstNode × AstNode) → List (AstNode × AstNode)
  | [] => [a]
  | b :: bs =>
    if key b ≤ key a then b :: insertSorted key a bs else a :: b :: bs

def sortPairsByKey (pairs : List (AstNode × AstNode)) : List (AstNode × AstNode) :=
  pairs.foldl (fun acc p => insertSorted (fun q => q.1.asString) p acc) []

mutual

/-- The compile method of part_002.  Unknown operators and unresolved
identifiers throw; every branch otherwise emits exactly as the source
does.  The fuel argument is a modelling artifact bounding recursion depth
(the source recursion is bounded by the finite AST); every use below
supplies ample fuel. -/
def compile : ℕ → AstNode → CompilerState → Except String CompilerState
  | 0, _, _ => .error "model out of fuel"
  | fuel + 1, node, st =>
    match node, st with
    | .Program statements, st => compileList fuel statements st
    | .BlockStatement statements, st => compileList fuel statements st
    | .ExpressionStatement expression, st => do
      let st ← compile fuel expression st
      .ok (st.emit OpPop []).2
    | .InfixExpression operator left right, st => do
      let st ←
        if operator = "<" then do
          let st ← compile fuel right st
          compile fuel left st
        else do
          let st ← compile fuel left st
          compile fuel right st
      match operator with
      | "+" => .ok (st.emit OpAdd []).2
      | "-" => .ok (st.emit OpSub []).2
      | "*" => .ok (st.emit OpMul []).2
      | "/" => .ok (st.emit OpDiv []).2
      | "==" => .ok (st.emit OpEqual []).2
      | "!=" => .ok (st.emit OpNotEqual []).2
      | "<" => .ok (st.emit OpGreaterThan []).2
      | ">" => .ok (st.emit OpGreaterThan []).2
      | _ => .error ("Unknown operator " ++ operator)
    | .PrefixExpression operator right, st => do
      let st ← compile fuel right st
      match operator with
      | "!" => .ok (st.emit OpBang []).2
      | "-" => .ok (st.emit OpMinus []).2
      | _ => .error ("Unknown operator " ++ operator)
    | .IntegerLiteral value, st =>
      let (index, st) := st.addConstant (.IntegerObject (value : ℚ))
      .ok (st.emit OpConstant [index]).2
    | .BooleanLiteral value, st =>
      if value then .ok (st.emit OpTrue []).2 else .ok (st.emit OpFalse []).2
    | .StringLiteral literal, st =>
      let (index, st) := st.addConstant (.StringObject literal)
      .ok (st.emit OpConstant [index]).2
    | .IfExpression condition consequence alternative, st => do
      let st ← compile fuel condition st
      let (opJumpNotTruthyPosition, st) := st.emit OpJumpNotTruthy [9999]
      let st ← compile fuel consequence st
      let st := if st.lastInstructionIs OpPop then st.removeLastPop else st
      let (opJumpPosition, st) := st.emit OpJump [9999]
      let st := st.changeOperand opJumpNotTruthyPosition.toNat
        st.currentInstructions.length
      let st ← match alternative with
        | some alt => do
          let st ← compile fuel alt st
          pure (if st.lastInstructionIs OpPop then st.removeLastPop else st)
        | none => pure (st.emit OpNull []).2
      .ok (st.changeOperand opJumpPosition.toNat st.currentInstructions.length)
    | .Identifier value, st =>
      let (symbol, symbols) := st.symbols.resolve value
      let st := { st with symbols := symbols }
      match symbol with
      | none => .error ("Identifier not found: " ++ value)
      | some s =>
        .ok (st.emit (if s.scope = .Local then OpGetLocal else OpGetGlobal)
          [s.index]).2
    | .LetStatement name value, st => do
      let st ← compile fuel value st
      let (symbol, symbols) := st.symbols.define name
      let st := { st with symbols := symbols }
      .ok (st.emit (if symbol.scope = .Local then OpSetLocal else OpSetGlobal)
        [symbol.index]).2
    | .ArrayLiteral elements, st => do
      let st ← compileList fuel elements st
      .ok (st.emit OpArray [elements.length]).2
    | .HashLiteral pairs, st => do
      let st ← compilePairs fuel (sortPairsByKey pairs) st
      .ok (st.emit OpHash [pairs.length * 2]).2
    | .IndexExpression left index, st => do
      let st ← compile fuel left st
      let st ← compile fuel index st
      .ok (st.emit OpIndex []).2
    | .FunctionLiteral parameters body, st => do
      let st := st.enterScope
      let st := parameters.foldl
        (fun st param =>
          let (_, symbols) := st.symbols.define param
          { st with symbols := symbols })
        st
      let st ← compile fuel body st
      let st := if st.lastInstructionIs OpPop then st.replaceLastPopWithReturn else st
      let st := if !st.lastInstructionIs OpReturnValue then (st.emit OpReturn []).2 else st
      let numberLocals := st.symbols.store.length
      let (instructions, st) := st.leaveScope
      let compiledFunction : Obj :=
        .CompiledFunctionObject ⟨instructions, numberLocals, parameters.length⟩
      let (index, st) := st.addConstant compiledFunction
      .ok (st.emit OpConstant [index]).2
    | .ReturnStatement returnValue, st => do
      let st ← compile fuel returnValue st
      .ok (st.emit OpReturnValue []).2
    | .CallExpression function arguments, st => do
      let st ← compile fuel function st
      let st ← compileList fuel arguments st
      .ok (st.emit OpCall [arguments.length]).2

def compileList : ℕ → List AstNode → CompilerState → Except String CompilerState
  | 0, _, _ => .error "model out of fuel"
  | _, [], st => .ok st
  | fuel + 1, node :: rest, st => do
    let st ← compile fuel node st
    compileList fuel rest st

def compilePairs : ℕ → List (AstNode × AstNode) → CompilerState →
    Except String CompilerState
  | 0, _, _ => .error "model out of fuel"
  | _, [], st => .ok st
  | fuel + 1, (k, v) :: rest, st => do
    let st ← compile fuel k st
    let st ← compile fuel v st
    compilePairs fuel rest st

end

/-- Bytecode: the instructions of the root scope plus the constants. -/
def CompilerState.bytecode (st : CompilerState) : List ℕ × List Obj :=
  (st.currentInstructions, st.constants)

/-- Compile a program with a fresh compiler and run the VM on the result,
returning the final VM state. -/
def compileAndRun (fuel : ℕ) (program : AstNode) :
    Except String VmState := do
  match compile fuel program newCompiler with
  | .error e => .error e
  | .ok st =>
    let (instructions, constants) := st.bytecode
    vmRun fuel (newVM instructions constants)

end Orangutan

namespace Orangutan

/-! ## Claim C1: evaluator versus compiler+VM -/

/-- The display of the program result under the compiler and VM: the last
popped stack element's inspect form. -/
def pipelineLastPopped (fuel : ℕ) (program : AstNode) : Except String Obj :=
  (compileAndRun fuel program).map VmState.lastPoppedStackElement

/-- The program `!(if (false) { 5; })`, which is in the VM test corpus of
the repository with expected value `true`. -/
def bangNullProgram : AstNode :=
  .Program [.ExpressionStatement (.PrefixExpression "!"
    (.IfExpression (.BooleanLiteral false)
      (.BlockStatement [.ExpressionStatement (.IntegerLiteral 5)]) none))]

/-- C1: the evaluator and the compiler+VM pair disagree on the terminating
program `!(if (false) { 5; })`.  The if-expression yields NULL; the
evaluator's PrefixExpression case returns a NULL operand outright without
applying the bang (even though its own evaluateBangOperatorExpression maps
NULL to TRUE), so eval displays "null", while the VM pops NULL at OpBang
and pushes TRUE, displaying "true". -/
theorem evaluator_vm_disagree :
    evalProgram 99 bangNullProgram = some Obj.NullObject ∧
    (evalProgram 99 bangNullProgram).map Obj.inspect = some "null" ∧
    pipelineLastPopped 99 bangNullProgram = .ok (.BooleanObject true) ∧
    (pipelineLastPopped 99 bangNullProgram).map Obj.inspect = .ok "true" ∧
    evaluateBangOperatorExpression .NullObject = .BooleanObject true ∧
    "null" ≠ "true" := by
  refine ⟨rfl, rfl, rfl, rfl, rfl, by decide⟩

/-! ## Claim C5: the `/` operator -/

/-- The program `5 / 2`. -/
def divisionProgram : AstNode :=
  .Program [.ExpressionStatement
    (.InfixExpression "/" (.IntegerLiteral 5) (.IntegerLiteral 2))]

/-- C5: division is not truncated toward zero.  Both the reference
evaluator and the VM apply the bare JavaScript `/` to the operand values,
so `5 / 2` yields the non-integer 5/2 (2.5) wrapped in an IntegerObject in
both engines, not the integer quotient 2 the claim requires. -/
theorem division_not_truncated :
    evaluateIntegerInfixExpression "/" (.IntegerObject 5) (.IntegerObject 2) =
      .IntegerObject (5 / 2 : ℚ) ∧
    evalProgram 99 divisionProgram = some (.IntegerObject (5 / 2 : ℚ)) ∧
    pipelineLastPopped 99 divisionProgram = .ok (.IntegerObject (5 / 2 : ℚ)) ∧
    (5 / 2 : ℚ) ≠ 2 := by
  refine ⟨rfl, rfl, rfl, by norm_num⟩

/-! ## Claim C8: num_locals of a compiled function -/

/-- The numberLocals of a compiled-function constant. -/
def compiledFunctionLocals : Obj → Option ℕ
  | .CompiledFunctionObject fn => some fn.numberLocals
  | _ => none

/-- The function literal `fn() { let x = 1; let x = 2; x }`, whose scope
performs two define calls on the same name. -/
def shadowProgram : AstNode :=
  .Program [.ExpressionStatement (.FunctionLiteral []
    (.BlockStatement
      [.LetStatement "x" (.IntegerLiteral 1),
       .LetStatement "x" (.IntegerLiteral 2),
       .ExpressionStatement (.Identifier "x")]))]

set_option maxHeartbeats 1000000 in
/-- C8 counterexample: compiling `fn() { let x = 1; let x = 2; x }` records
numberLocals 1 (the store size), while the local-definition counter of that
scope — two define calls replayed on the same fresh scope table — is 2. -/
theorem numberLocals_counterexample :
    (compile 20 shadowProgram newCompiler).map
      (fun st => st.constants.filterMap compiledFunctionLocals) = .ok [1] ∧
    ((((SymbolTable.mk (some newCompiler.symbols) [] [] 0).define "x").2.define
        "x").2).numberDefinitions = 2 ∧
    (1 : ℕ) ≠ 2 := by
  refine ⟨rfl, rfl, by decide⟩

/-- The parameter-definition fold the FunctionLiteral case performs on
entering the scope. -/
def defineParams (st : CompilerState) (parameters : List String) : CompilerState :=
  parameters.foldl
    (fun st param =>
      let (_, symbols) := st.symbols.define param
      { st with symbols := symbols })
    st

set_option maxHeartbeats 1000000 in
/-- C8 amended: the num_locals recorded in a CompiledFunction equals the
size of the function scope's symbol-table store when leaving (the number of
distinct names present: parameters, let-bindings and any free promotions),
which matches the define-call counter only while no name is defined twice;
the compiled function is appended to the constants with that store size and
the parameter count. -/
theorem numberLocals_is_store_size :
    ∀ (fuel : ℕ) (parameters : List String) (body : AstNode)
      (st stB : CompilerState),
      compile fuel body (defineParams st.enterScope parameters) = .ok stB →
      ∃ (rest : CompilerState) (ins : List ℕ),
        compile (fuel + 1) (.FunctionLiteral parameters body) st = .ok rest ∧
        rest.constants.getLast? =
          some (.CompiledFunctionObject
            ⟨ins, stB.symbols.store.length, parameters.length⟩) := by
  intro fuel parameters body st stB hbody
  have hfold : (parameters.foldl
      (fun st param =>
        let (_, symbols) := st.symbols.define param
        { st with symbols := symbols })
      st.enterScope) = defineParams st.enterScope parameters := rfl
  simp only [compile]
  rw [hfold, hbody]
  simp only [bind, Except.bind]
  set stFix := if stB.lastInstructionIs OpPop then stB.replaceLastPopWithReturn else stB with hFix
  have hsymm : stFix.symbols = stB.symbols := by
    by_cases h : stB.lastInstructionIs OpPop
    · simp [hFix, h, CompilerState.replaceLastPopWithReturn,
        CompilerState.replaceInstruction, CompilerState.updateScope]
    · simp [hFix, h]
  set stRet := if !stFix.lastInstructionIs OpReturnValue
    then (stFix.emit OpReturn []).2 else stFix with hRet
  have hsym2 : stRet.symbols = stB.symbols := by
    by_cases h : stFix.lastInstructionIs OpReturnValue
    · simp [hRet, h, hsymm]
    · simp [hRet, h, CompilerState.emit, CompilerState.addInstruction,
        CompilerState.setLastInstruction, CompilerState.updateScope, hsymm]
  refine ⟨_, (stRet.leaveScope).1, rfl, ?_⟩
  simp only [CompilerState.emit, CompilerState.addInstruction,
    CompilerState.setLastInstruction, CompilerState.updateScope,
    CompilerState.addConstant, CompilerState.leaveScope, hsym2]
  simp

/-- Witness for C8 amended: the empty function literal `fn() {}` compiled
from a fresh compiler; its body (an empty block) compiles to the entered
scope unchanged, and the recorded numberLocals is the (empty) store size
0. -/
theorem numberLocals_is_store_size_witness :
    ∃ (rest : CompilerState) (ins : List ℕ),
      compile 3 (.FunctionLiteral [] (.BlockStatement [])) newCompiler = .ok rest ∧
      rest.constants.getLast? =
        some (.CompiledFunctionObject
          ⟨ins, (defineParams newCompiler.enterScope []).symbols.store.length, 0⟩) :=
  numberLocals_is_store_size 2 [] (.BlockStatement []) newCompiler
    (defineParams newCompiler.enterScope []) rfl

end Orangutan

namespace Orangutan

/-! ## Claim C3: identifier emission of the final compiler

Modelled from the spec: the final compiler (the one pairing with the full
VM, emitting builtin, free and current-closure loads) is present in the
snapshot only through the symbol table and the VM; its Identifier case is
modelled from the spec: resolve the name (a compile error when unresolved)
and emit the single load instruction selected by the resolved symbol's
scope, with CurrentClosure when the identifier names the function being
compiled (the pseudo-local the compiler defines for a named function
literal). -/

/-- The opcode the final compiler selects for each symbol scope. -/
def scopeOpcode : SymbolScope → ℕ
  | .Global => OpGetGlobal
  | .Local => OpGetLocal
  | .BuiltIn => OpGetBuiltin
  | .Free => OpGetFree

/-- Modelled from the spec: loadSymbol of the final compiler emits the
scope-selected load of the symbol's index. -/
def loadSymbol (s : Symbol) : List ℕ :=
  makeF (scopeOpcode s.scope) [s.index]

/-- Modelled from the spec: the Identifier case of the final compiler.
It returns the bytes emitted and the (possibly free-promoted) symbol
table. -/
def compileIdentifierFinal (symbols : SymbolTable)
    (currentFunctionName : Option String) (name : String) :
    Except String (List ℕ × SymbolTable) :=
  let (symbol, symbols) := symbols.resolve name
  match symbol with
  | none => .error ("Identifier not found: " ++ name)
  | some s =>
    if currentFunctionName = some name then
      .ok (makeF OpCurrentClosure [], symbols)
    else
      .ok (loadSymbol s, symbols)

/-- C3: an identifier that resolves makes the compiler emit exactly one
load instruction chosen by the symbol's scope — GetGlobal, GetLocal,
GetBuiltin or GetFree, with a 16-bit operand for the global load and a
1-byte operand otherwise — or the bare CurrentClosure when the identifier
names the function being compiled; an identifier that does not resolve is a
compile error. -/
theorem identifier_emission :
    (∀ (symbols : SymbolTable) (cfn : Option String) (name : String)
        (s : Symbol) (symbols' : SymbolTable),
      symbols.resolve name = (some s, symbols') →
      cfn ≠ some name →
        compileIdentifierFinal symbols cfn name = .ok (loadSymbol s, symbols') ∧
        (loadSymbol s).headD 0 = scopeOpcode s.scope ∧
        (loadSymbol s).length =
          (match s.scope with | .Global => 3 | _ => 2)) ∧
    (∀ (symbols : SymbolTable) (cfn : Option String) (name : String)
        (s : Symbol) (symbols' : SymbolTable),
      symbols.resolve name = (some s, symbols') →
      cfn = some name →
        compileIdentifierFinal symbols cfn name =
          .ok (makeF OpCurrentClosure [], symbols') ∧
        makeF OpCurrentClosure [] = [OpCurrentClosure]) ∧
    (∀ (symbols : SymbolTable) (cfn : Option String) (name : String)
        (symbols' : SymbolTable),
      symbols.resolve name = (none, symbols') →
        compileIdentifierFinal symbols cfn name =
          .error ("Identifier not found: " ++ name)) := by
  refine ⟨?_, ?_, ?_⟩
  · intro symbols cfn name s symbols' hres hcfn
    refine ⟨?_, ?_, ?_⟩
    · unfold compileIdentifierFinal
      rw [hres]
      simp [hcfn]
    · obtain ⟨nm, sc, idx⟩ := s
      cases sc <;> rfl
    · obtain ⟨nm, sc, idx⟩ := s
      cases sc <;> rfl
  · intro symbols cfn name s symbols' hres hcfn
    constructor
    · unfold compileIdentifierFinal
      rw [hres]
      simp [hcfn]
    · rfl
  · intro symbols cfn name symbols' hres
    unfold compileIdentifierFinal
    rw [hres]

/-- Witness for C3: a global symbol resolved at the root table emits
GetGlobal with its two-byte index, and an empty table is a compile
error. -/
theorem identifier_emission_witness :
    compileIdentifierFinal (.mk none [("a", ⟨"a", .Global, 0⟩)] [] 1) none "a" =
      .ok (loadSymbol ⟨"a", .Global, 0⟩,
        .mk none [("a", ⟨"a", .Global, 0⟩)] [] 1) ∧
    compileIdentifierFinal (.mk none [] [] 0) none "b" =
      .error "Identifier not found: b" := by
  constructor
  · exact (identifier_emission.1 (.mk none [("a", ⟨"a", .Global, 0⟩)] [] 1) none
      "a" ⟨"a", .Global, 0⟩ (.mk none [("a", ⟨"a", .Global, 0⟩)] [] 1) rfl
      (by decide)).1
  · exact identifier_emission.2.2 (.mk none [] [] 0) none "b" (.mk none [] [] 0) rfl

end Orangutan

namespace Orangutan

/-! ## Claim C7: jump targets stay in range

The instruction stream of a scope is always a concatenation of well-formed
instructions (chunks): each chunk is the encoding of one opcode with a full
set of operands.  A chunk is a jump when its opcode byte is OpJump or
OpJumpNotTruthy; its decoded 16-bit operand must stay below the stream
length. -/

/-- A well-formed instruction: the encoding of a defined opcode applied to
exactly as many operands as its definition lists. -/
def goodChunk (c : List ℕ) : Prop :=
  ∃ (op : ℕ) (d : Definition) (operands : List ℕ),
    definitionsFull op = some d ∧
    operands.length = d.operandWidths.length ∧
    c = makeF op operands

/-- The opcode byte of a chunk marks a jump instruction. -/
def jumpHead (c : List ℕ) : Prop :=
  c.headD 0 = OpJump ∨ c.headD 0 = OpJumpNotTruthy

def chunksOk (D : List (List ℕ)) : Prop := ∀ c ∈ D, goodChunk c

/-- Every jump chunk decodes to an operand at most `bound`. -/
def jumpsLe (bound : ℕ) (D : List (List ℕ)) : Prop :=
  ∀ c ∈ D, jumpHead c → readUint16 (c.drop 1) ≤ bound

/-- Every jump chunk decodes to an operand strictly below `bound`. -/
def jumpsLt (bound : ℕ) (D : List (List ℕ)) : Prop :=
  ∀ c ∈ D, jumpHead c → readUint16 (c.drop 1) < bound

theorem jumpsLe_mono {b b' : ℕ} (h : b ≤ b') {D : List (List ℕ)}
    (hD : jumpsLe b D) : jumpsLe b' D :=
  fun c hc hj => le_trans (hD c hc hj) h

theorem jumpsLt_mono {b b' : ℕ} (h : b ≤ b') {D : List (List ℕ)}
    (hD : jumpsLt b D) : jumpsLt b' D :=
  fun c hc hj => lt_of_lt_of_le (hD c hc hj) h

theorem jumpsLt_le {b : ℕ} {D : List (List ℕ)} (hD : jumpsLt b D) :
    jumpsLe b D :=
  fun c hc hj => le_of_lt (hD c hc hj)

theorem chunksOk_append {A B : List (List ℕ)} (hA : chunksOk A)
    (hB : chunksOk B) : chunksOk (A ++ B) := by
  intro c hc
  rcases List.mem_append.mp hc with h | h
  · exact hA c h
  · exact hB c h

theorem jumpsLe_append {b : ℕ} {A B : List (List ℕ)} (hA : jumpsLe b A)
    (hB : jumpsLe b B) : jumpsLe b (A ++ B) := by
  intro c hc hj
  rcases List.mem_append.mp hc with h | h
  · exact hA c h hj
  · exact hB c h hj

theorem jumpsLt_append {b : ℕ} {A B : List (List ℕ)} (hA : jumpsLt b A)
    (hB : jumpsLt b B) : jumpsLt b (A ++ B) := by
  intro c hc hj
  rcases List.mem_append.mp hc with h | h
  · exact hA c h hj
  · exact hB c h hj

theorem flatten_append (A B : List (List ℕ)) :
    (A ++ B).flatten = A.flatten ++ B.flatten := List.flatten_append A B

end Orangutan

namespace Orangutan

/-- The decoded operand of a patched jump chunk: encoding then decoding a
16-bit operand takes it modulo 65536, which never exceeds the original. -/
theorem readUint16_jumpOperand (t : ℕ) :
    readUint16 [(t >>> 8) % 256, (t &&& 255) % 256] = t % 65536 := by
  unfold readUint16
  simp only [List.getElem?_cons_zero, List.getElem?_cons_succ, Option.getD_some]
  have h8 : t >>> 8 = t / 256 := Nat.shiftRight_eq_div_pow t 8
  have hand : t &&& 255 = t % 256 := Nat.and_pow_two_sub_one_eq_mod t 8
  rw [h8, hand, Nat.mod_eq_of_lt (show t % 256 < 256 by omega)]
  have hlt : t % 256 < 2 ^ 8 := by omega
  calc (t / 256 % 256) <<< 8 ||| t % 256
      = t / 256 % 256 * 2 ^ 8 ||| t % 256 := by rw [Nat.shiftLeft_eq]
    _ = 2 ^ 8 * (t / 256 % 256) ||| t % 256 := by ring_nf
    _ = 2 ^ 8 * (t / 256 % 256) + t % 256 := (Nat.mul_add_lt_is_or hlt _).symm
    _ = t % 256 + 256 * (t / 256 % 256) := by ring_nf
    _ = t % (256 * 256) := (Nat.mod_mul).symm
    _ = t % 65536 := by norm_num

/-- The byte form of a width-2 chunk (a jump or any other 16-bit-operand
opcode the compiler emits). -/
theorem makeF_jnt (t : ℕ) :
    makeF OpJumpNotTruthy [t] = [OpJumpNotTruthy, (t >>> 8) % 256, (t &&& 255) % 256] := rfl

theorem makeF_jump (t : ℕ) :
    makeF OpJump [t] = [OpJump, (t >>> 8) % 256, (t &&& 255) % 256] := rfl

theorem goodChunk_emitted (op : ℕ) (d : Definition) (operands : List ℕ)
    (hd : definitionsFull op = some d)
    (hlen : operands.length = d.operandWidths.length) :
    goodChunk (makeF op operands) := ⟨op, d, operands, hd, hlen, rfl⟩

/-- Setting a cell at index 1 or beyond keeps the head of a list. -/
theorem headD_set_of_pos (l : List ℕ) (i v : ℕ) (hi : 1 ≤ i) :
    (l.set i v).headD 0 = l.headD 0 := by
  cases l with
  | nil => simp
  | cons b rest =>
    cases i with
    | zero => omega
    | succ j => simp [List.set]

/-- A chunk whose opcode byte is below 256 starts with that byte. -/
theorem makeF_headD (op : ℕ) (d : Definition) (operands : List ℕ)
    (hd : definitionsFull op = some d) (hop : op < 256) :
    (makeF op operands).headD 0 = op := by
  unfold makeF
  rw [hd]
  have key : ∀ (l : List (ℕ × ℕ)) (buf : List ℕ) (off : ℕ),
      buf.headD 0 = op → 1 ≤ off →
      ((l.foldl
        (fun acc p =>
          match d.operandWidths[p.1]? with
          | some 2 =>
              ((acc.1.set acc.2 (((p.2 >>> 8)) % 256)).set (acc.2 + 1)
                ((p.2 &&& 255) % 256),
               acc.2 + 2)
          | some 1 => (acc.1.set acc.2 (p.2 % 256), acc.2 + 1)
          | _ => acc)
        (buf, off)).1).headD 0 = op := by
    intro l
    induction l with
    | nil => intro buf off h _; exact h
    | cons p ps ih =>
      intro buf off h hoff
      simp only [List.foldl_cons]
      match hw : d.operandWidths[p.1]? with
      | some 2 =>
        simp only [hw]
        refine ih _ _ ?_ (by omega)
        rw [headD_set_of_pos _ _ _ (by omega), headD_set_of_pos _ _ _ (by omega)]
        exact h
      | some 1 =>
        simp only [hw]
        refine ih _ _ ?_ (by omega)
        rw [headD_set_of_pos _ _ _ (by omega)]
        exact h
      | none =>
        simp only [hw]
        exact ih _ _ h hoff
      | some 0 =>
        simp only [hw]
        exact ih _ _ h hoff
      | some (n + 3) =>
        simp only [hw]
        exact ih _ _ h hoff
  refine key _ _ _ ?_ (le_refl 1)
  have hlen : 1 ≤ d.operandWidths.foldl (· + ·) 1 := by
    have hmono : ∀ (ws : List ℕ) (a : ℕ), a ≤ ws.foldl (· + ·) a := by
      intro ws
      induction ws with
      | nil => intro a; exact le_refl a
      | cons w rest ih =>
        intro a
        exact le_trans (Nat.le_add_right a w) (ih (a + w))
    exact hmono d.operandWidths 1
  match hL : List.replicate (d.operandWidths.foldl (· + ·) 1) 0 with
  | [] =>
    exfalso
    have := congrArg List.length hL
    simp at this
    omega
  | b :: rest => simp [List.set, Nat.mod_eq_of_lt hop]

end Orangutan

namespace Orangutan

/-! ### Compiler-state bookkeeping for the jump-target invariant

The compiler keeps `scopeIndex` pointing at the last element of `scopes`;
every operation preserves this. -/

def SOK (st : CompilerState) : Prop := st.scopeIndex + 1 = st.scopes.length

theorem SOK_newCompiler : SOK newCompiler := rfl

theorem getD_set_self {α : Type} (l : List α) (i : ℕ) (x d : α)
    (h : i < l.length) : (l.set i x).getD i d = x := by
  unfold List.getD
  rw [List.get?_eq_getElem?, List.getElem?_set_self (by simpa using h)]
  rfl

theorem updateScope_currentScope {st : CompilerState}
    (f : CompilationScope → CompilationScope) (h : SOK st) :
    (st.updateScope f).currentScope = f st.currentScope := by
  unfold CompilerState.updateScope CompilerState.currentScope
  simp only
  exact getD_set_self _ _ _ _ (by unfold SOK at h; omega)

theorem updateScope_fields (st : CompilerState)
    (f : CompilationScope → CompilationScope) :
    (st.updateScope f).scopeIndex = st.scopeIndex ∧
    (st.updateScope f).scopes.length = st.scopes.length ∧
    (st.updateScope f).constants = st.constants ∧
    (st.updateScope f).symbols = st.symbols ∧
    (∀ j, j ≠ st.scopeIndex → (st.updateScope f).scopes[j]? = st.scopes[j]?) := by
  refine ⟨rfl, by simp [CompilerState.updateScope], rfl, rfl, ?_⟩
  intro j hj
  unfold CompilerState.updateScope
  simp only
  rw [List.getElem?_set_ne (fun hc => hj hc.symm)]

theorem SOK_updateScope {st : CompilerState}
    (f : CompilationScope → CompilationScope) (h : SOK st) :
    SOK (st.updateScope f) := by
  unfold SOK at h ⊢
  rw [(updateScope_fields st f).1, (updateScope_fields st f).2.1]
  exact h

end Orangutan

namespace Orangutan

/-- Everything emit changes: it appends the encoded instruction to the
current scope, records the last/previous instruction pair, and leaves all
other state alone. -/
theorem emit_spec (st : CompilerState) (op : ℕ) (ops : List ℕ) (h : SOK st) :
    (st.emit op ops).1 = (st.currentScope.instructions.length : ℤ) ∧
    SOK (st.emit op ops).2 ∧
    (st.emit op ops).2.scopeIndex = st.scopeIndex ∧
    (st.emit op ops).2.scopes.length = st.scopes.length ∧
    (st.emit op ops).2.constants = st.constants ∧
    (st.emit op ops).2.symbols = st.symbols ∧
    (∀ j, j ≠ st.scopeIndex → (st.emit op ops).2.scopes[j]? = st.scopes[j]?) ∧
    (st.emit op ops).2.currentScope.instructions =
      st.currentScope.instructions ++ makeF op ops ∧
    (st.emit op ops).2.currentScope.lastInstruction =
      ⟨op, (st.currentScope.instructions.length : ℤ)⟩ ∧
    (st.emit op ops).2.currentScope.previousInstruction =
      st.currentScope.lastInstruction := by
  unfold CompilerState.emit CompilerState.addInstruction
    CompilerState.setLastInstruction
  simp only
  have h1 := @SOK_updateScope st
    (fun scope => { scope with instructions := scope.instructions ++ makeF op ops }) h
  have e1 := @updateScope_currentScope st
    (fun scope => { scope with instructions := scope.instructions ++ makeF op ops }) h
  set st1 := st.updateScope
    (fun scope => { scope with instructions := scope.instructions ++ makeF op ops })
    with hst1
  have idx1 : st1.scopeIndex = st.scopeIndex := (updateScope_fields st _).1
  refine ⟨rfl, SOK_updateScope _ h1, ?_, ?_, ?_, ?_, ?_, ?_, ?_, ?_⟩
  · rw [(updateScope_fields st1 _).1, idx1]
  · rw [(updateScope_fields st1 _).2.1, (updateScope_fields st _).2.1]
  · rw [(updateScope_fields st1 _).2.2.1, (updateScope_fields st _).2.2.1]
  · rw [(updateScope_fields st1 _).2.2.2.1, (updateScope_fields st _).2.2.2.1]
  · intro j hj
    rw [(updateScope_fields st1 _).2.2.2.2 j (by rw [idx1]; exact hj),
      (updateScope_fields st _).2.2.2.2 j hj]
  · rw [updateScope_currentScope _ h1, e1]
  · rw [updateScope_currentScope _ h1]
    rfl
  · rw [updateScope_currentScope _ h1, e1]

/-- addConstant appends the object and returns its index; nothing else
changes. -/
theorem addConstant_spec (st : CompilerState) (object : Obj) :
    (st.addConstant object).1 = st.constants.length ∧
    (st.addConstant object).2.constants = st.constants ++ [object] ∧
    (st.addConstant object).2.scopes = st.scopes ∧
    (st.addConstant object).2.scopeIndex = st.scopeIndex ∧
    (st.addConstant object).2.symbols = st.symbols ∧
    (st.addConstant object).2.currentScope = st.currentScope :=
  ⟨rfl, rfl, rfl, rfl, rfl, rfl⟩

theorem SOK_addConstant {st : CompilerState} (object : Obj) (h : SOK st) :
    SOK (st.addConstant object).2 := h

/-- enterScope pushes a fresh scope (which becomes current) and nests the
symbol table. -/
theorem enterScope_spec (st : CompilerState) (h : SOK st) :
    SOK st.enterScope ∧
    st.enterScope.scopeIndex = st.scopeIndex + 1 ∧
    st.enterScope.constants = st.constants ∧
    st.enterScope.currentScope = newCompilationScope ∧
    (∀ j, j < st.scopes.length → st.enterScope.scopes[j]? = st.scopes[j]?) := by
  refine ⟨?_, rfl, rfl, ?_, ?_⟩
  · unfold SOK at h ⊢
    unfold CompilerState.enterScope
    simp only [List.length_append, List.length_cons, List.length_nil]
    omega
  · unfold CompilerState.enterScope CompilerState.currentScope
    simp only
    unfold SOK at h
    have : st.scopeIndex + 1 = st.scopes.length := h
    rw [List.getD, List.get?_eq_getElem?, this, List.getElem?_append_right (le_refl _)]
    simp
  · intro j hj
    unfold CompilerState.enterScope
    simp only
    rw [List.getElem?_append_left hj]

/-- leaveScope drops the top scope; the new current scope is whatever sat
below, and constants and the remaining scopes survive. -/
theorem leaveScope_spec (st : CompilerState) (h : SOK st) (hpos : 1 ≤ st.scopeIndex) :
    (st.leaveScope.1 = st.currentScope.instructions) ∧
    SOK st.leaveScope.2 ∧
    st.leaveScope.2.scopeIndex = st.scopeIndex - 1 ∧
    st.leaveScope.2.constants = st.constants ∧
    (∀ j, j < st.scopes.length - 1 → st.leaveScope.2.scopes[j]? = st.scopes[j]?) := by
  refine ⟨rfl, ?_, rfl, rfl, ?_⟩
  · unfold SOK at h ⊢
    unfold CompilerState.leaveScope
    simp only [List.length_dropLast]
    omega
  · intro j hj
    unfold CompilerState.leaveScope
    simp only
    rw [List.dropLast_eq_take]
    exact List.getElem?_take_of_lt (by omega)

end Orangutan

namespace Orangutan

theorem removeLastPop_spec (st : CompilerState) (h : SOK st) :
    SOK st.removeLastPop ∧
    st.removeLastPop.scopeIndex = st.scopeIndex ∧
    st.removeLastPop.scopes.length = st.scopes.length ∧
    st.removeLastPop.constants = st.constants ∧
    st.removeLastPop.symbols = st.symbols ∧
    (∀ j, j ≠ st.scopeIndex → st.removeLastPop.scopes[j]? = st.scopes[j]?) ∧
    st.removeLastPop.currentScope.instructions =
      st.currentScope.instructions.take
        st.currentScope.lastInstruction.position.toNat ∧
    st.removeLastPop.currentScope.lastInstruction =
      st.currentScope.previousInstruction ∧
    st.removeLastPop.currentScope.previousInstruction =
      st.currentScope.previousInstruction := by
  unfold CompilerState.removeLastPop
  refine ⟨SOK_updateScope _ h, (updateScope_fields st _).1,
    (updateScope_fields st _).2.1, (updateScope_fields st _).2.2.1,
    (updateScope_fields st _).2.2.2.1, (updateScope_fields st _).2.2.2.2,
    ?_, ?_, ?_⟩ <;> rw [updateScope_currentScope _ h]

/-- The in-place byte overwrite of replaceInstruction, written recursively:
set each byte of the new instruction from the given position on. -/
def overwriteRec (l : List ℕ) (pos : ℕ) : List ℕ → List ℕ
  | [] => l
  | n :: ns => overwriteRec (l.set pos n) (pos + 1) ns

theorem foldl_enum_eq_overwriteRec (new : List ℕ) :
    ∀ (shift : ℕ) (l : List ℕ),
      ((new.enumFrom shift).foldl (fun acc p => acc.set p.1 p.2) l) =
        overwriteRec l shift new := by
  induction new with
  | nil => intro shift l; rfl
  | cons n ns ih =>
    intro shift l
    simp only [List.enumFrom, List.foldl_cons]
    exact ih (shift + 1) (l.set shift n)

theorem foldl_enum_pos_eq_overwriteRec (new : List ℕ) (pos : ℕ) (l : List ℕ) :
    (new.enum.foldl (fun acc p => acc.set (pos + p.1) p.2) l) =
      overwriteRec l pos new := by
  have key : ∀ (ns : List ℕ) (shift : ℕ) (acc : List ℕ),
      ((ns.enumFrom shift).foldl (fun a p => a.set (pos + p.1) p.2) acc) =
        overwriteRec acc (pos + shift) ns := by
    intro ns
    induction ns with
    | nil => intro shift acc; rfl
    | cons n rest ih =>
      intro shift acc
      simp only [List.enumFrom, List.foldl_cons]
      rw [ih (shift + 1)]
      show overwriteRec (acc.set (pos + shift) n) (pos + (shift + 1)) rest =
        overwriteRec (acc.set (pos + shift) n) ((pos + shift) + 1) rest
      ring_nf
  have h0 := key new 0 l
  simpa [List.enum] using h0

/-- Overwriting bytes over a middle segment of the same length replaces
exactly that segment. -/
theorem overwriteRec_append (new : List ℕ) :
    ∀ (A mid B : List ℕ), mid.length = new.length →
      overwriteRec (A ++ (mid ++ B)) A.length new = A ++ (new ++ B) := by
  induction new with
  | nil =>
    intro A mid B hlen
    have : mid = [] := List.length_eq_zero.mp hlen
    subst this
    rfl
  | cons n ns ih =>
    intro A mid B hlen
    match mid, hlen with
    | m :: mid', hlen =>
      unfold overwriteRec
      have hset : (A ++ (m :: mid' ++ B)).set A.length n =
          (A ++ [n]) ++ (mid' ++ B) := by
        rw [List.set_append_right _ _ (le_refl _)]
        simp [List.set]
      rw [hset]
      have hlen' : mid'.length = ns.length := by
        simpa using hlen
      have := ih (A ++ [n]) mid' B hlen'
      rw [show (A ++ [n]).length = A.length + 1 by simp] at this
      rw [this]
      simp

end Orangutan

namespace Orangutan

/-- changeOperand at the start of a jump chunk re-encodes exactly that
chunk with the new operand and touches nothing else. -/
theorem changeOperand_surgery (st : CompilerState) (h : SOK st)
    (A B : List ℕ) (op oldT newT : ℕ)
    (hop : op = OpJump ∨ op = OpJumpNotTruthy)
    (hbytes : st.currentScope.instructions = A ++ (makeF op [oldT] ++ B)) :
    SOK (st.changeOperand A.length newT) ∧
    (st.changeOperand A.length newT).scopeIndex = st.scopeIndex ∧
    (st.changeOperand A.length newT).scopes.length = st.scopes.length ∧
    (st.changeOperand A.length newT).constants = st.constants ∧
    (st.changeOperand A.length newT).symbols = st.symbols ∧
    (∀ j, j ≠ st.scopeIndex →
      (st.changeOperand A.length newT).scopes[j]? = st.scopes[j]?) ∧
    (st.changeOperand A.length newT).currentScope.instructions =
      A ++ (makeF op [newT] ++ B) ∧
    (st.changeOperand A.length newT).currentScope.lastInstruction =
      st.currentScope.lastInstruction ∧
    (st.changeOperand A.length newT).currentScope.previousInstruction =
      st.currentScope.previousInstruction := by
  have hform : makeF op [oldT] = [op, (oldT >>> 8) % 256, (oldT &&& 255) % 256] := by
    rcases hop with rfl | rfl
    · exact makeF_jump oldT
    · exact makeF_jnt oldT
  have hform' : makeF op [newT] = [op, (newT >>> 8) % 256, (newT &&& 255) % 256] := by
    rcases hop with rfl | rfl
    · exact makeF_jump newT
    · exact makeF_jnt newT
  have hopread : ((st.currentScope.instructions.drop A.length).headD 0) = op := by
    rw [hbytes, List.drop_left, hform]
    rfl
  unfold CompilerState.changeOperand
  show _ ∧ _ ∧ _ ∧ _ ∧ _ ∧ _ ∧ _ ∧ _ ∧ _
  rw [show CompilerState.currentInstructions st = st.currentScope.instructions from rfl]
  rw [hopread]
  unfold CompilerState.replaceInstruction
  refine ⟨SOK_updateScope _ h, (updateScope_fields st _).1,
    (updateScope_fields st _).2.1, (updateScope_fields st _).2.2.1,
    (updateScope_fields st _).2.2.2.1, (updateScope_fields st _).2.2.2.2,
    ?_, ?_, ?_⟩ <;> rw [updateScope_currentScope _ h]
  · show ((makeF op [newT]).enum.foldl
      (fun acc p => acc.set (A.length + p.1) p.2)
      st.currentScope.instructions) = A ++ (makeF op [newT] ++ B)
    rw [foldl_enum_pos_eq_overwriteRec, hbytes]
    exact overwriteRec_append (makeF op [newT]) A (makeF op [oldT]) B
      (by rw [hform, hform']; rfl)

/-- replaceLastPopWithReturn with an accurate last-instruction descriptor:
the trailing OpPop chunk becomes an OpReturnValue chunk. -/
theorem replaceLastPopWithReturn_surgery (st : CompilerState) (h : SOK st)
    (A : List ℕ)
    (hbytes : st.currentScope.instructions = A ++ [OpPop])
    (hpos : st.currentScope.lastInstruction.position = (A.length : ℤ)) :
    SOK st.replaceLastPopWithReturn ∧
    st.replaceLastPopWithReturn.scopeIndex = st.scopeIndex ∧
    st.replaceLastPopWithReturn.scopes.length = st.scopes.length ∧
    st.replaceLastPopWithReturn.constants = st.constants ∧
    st.replaceLastPopWithReturn.symbols = st.symbols ∧
    (∀ j, j ≠ st.scopeIndex →
      st.replaceLastPopWithReturn.scopes[j]? = st.scopes[j]?) ∧
    st.replaceLastPopWithReturn.currentScope.instructions =
      A ++ [OpReturnValue] ∧
    st.replaceLastPopWithReturn.currentScope.lastInstruction =
      ⟨OpReturnValue, st.currentScope.lastInstruction.position⟩ := by
  unfold CompilerState.replaceLastPopWithReturn CompilerState.replaceInstruction
  have hto : st.currentScope.lastInstruction.position.toNat = A.length := by
    rw [hpos]; simp
  have h1 := @SOK_updateScope st
    (fun scope =>
      { scope with instructions :=
          ((makeF OpReturnValue []).enum.foldl
            (fun acc p => acc.set (st.currentScope.lastInstruction.position.toNat + p.1) p.2)
            scope.instructions) }) h
  refine ⟨SOK_updateScope _ h1, ?_, ?_, ?_, ?_, ?_, ?_, ?_⟩
  · rw [(updateScope_fields _ _).1, (updateScope_fields st _).1]
  · rw [(updateScope_fields _ _).2.1, (updateScope_fields st _).2.1]
  · rw [(updateScope_fields _ _).2.2.1, (updateScope_fields st _).2.2.1]
  · rw [(updateScope_fields _ _).2.2.2.1, (updateScope_fields st _).2.2.2.1]
  · intro j hj
    rw [(updateScope_fields _ _).2.2.2.2 j
        (by rw [(updateScope_fields st _).1]; exact hj),
      (updateScope_fields st _).2.2.2.2 j hj]
  · rw [updateScope_currentScope _ h1, updateScope_currentScope _ h]
    show ((makeF OpReturnValue []).enum.foldl
      (fun acc p => acc.set (st.currentScope.lastInstruction.position.toNat + p.1) p.2)
      st.currentScope.instructions) = A ++ [OpReturnValue]
    rw [foldl_enum_pos_eq_overwriteRec, hto, hbytes]
    have := overwriteRec_append (makeF OpReturnValue []) A [OpPop] []
      (by rfl)
    simpa using this
  · rw [updateScope_currentScope _ h1, updateScope_currentScope _ h]

end Orangutan

namespace Orangutan

/-! ### Well-formed parser output

The parser only ever produces programs whose statement lists hold
statements (expression statements, lets, returns) and whose if-branches
and function bodies are block statements; the jump-target invariant is a
property of such programs. -/

mutual

def wfExpr : AstNode → Bool
  | .IntegerLiteral _ => true
  | .StringLiteral _ => true
  | .BooleanLiteral _ => true
  | .Identifier _ => true
  | .PrefixExpression _ right => wfExpr right
  | .InfixExpression _ left right => wfExpr left && wfExpr right
  | .IfExpression condition consequence alternative =>
      wfExpr condition && wfBlockNode consequence && wfAlt alternative
  | .FunctionLiteral _ body => wfBlockNode body
  | .CallExpression function arguments => wfExpr function && wfExprList arguments
  | .ArrayLiteral elements => wfExprList elements
  | .HashLiteral pairs => wfPairList pairs
  | .IndexExpression left index => wfExpr left && wfExpr index
  | _ => false

def wfBlockNode : AstNode → Bool
  | .BlockStatement statements => wfStmtList statements
  | _ => false

def wfAlt : Option AstNode → Bool
  | none => true
  | some alt => wfBlockNode alt

def wfStmt : AstNode → Bool
  | .ExpressionStatement expression => wfExpr expression
  | .LetStatement _ value => wfExpr value
  | .ReturnStatement returnValue => wfExpr returnValue
  | _ => false

def wfStmtList : List AstNode → Bool
  | [] => true
  | s :: rest => wfStmt s && wfStmtList rest

def wfExprList : List AstNode → Bool
  | [] => true
  | e :: rest => wfExpr e && wfExprList rest

def wfPairList : List (AstNode × AstNode) → Bool
  | [] => true
  | (k, v) :: rest => wfExpr k && wfExpr v && wfPairList rest

end

/-- The well-formedness a node must satisfy at its position in compile:
statement lists hold statements, statements hold expressions. -/
def wfNode : AstNode → Bool
  | .Program statements => wfStmtList statements
  | .BlockStatement statements => wfStmtList statements
  | .ExpressionStatement expression => wfExpr expression
  | .LetStatement _ value => wfExpr value
  | .ReturnStatement returnValue => wfExpr returnValue
  | e => wfExpr e

/-! ### Postconditions of compilation -/

/-- A CompiledFunction constant carries a chunk-structured instruction
stream whose jump targets lie strictly inside it. -/
def goodFnConst (c : Obj) : Prop :=
  ∀ fn : CompiledFn, c = .CompiledFunctionObject fn →
    ∃ D, fn.instructions = D.flatten ∧ chunksOk D ∧
      jumpsLt fn.instructions.length D

def ConstsOk (cs : List Obj) : Prop := ∀ c ∈ cs, goodFnConst c

/-- The last-instruction slot accurately describes the last chunk: its
opcode byte and its byte offset. -/
def accDesc (base : ℕ) (D : List (List ℕ)) (e : EmittedInstruction) : Prop :=
  ∃ Dp c, D = Dp ++ [c] ∧ e.opcode = c.headD 0 ∧
    e.position = (base + Dp.flatten.length : ℤ)

/-- When the last chunk is an OpPop, the previous-instruction slot
accurately describes the chunk before it, which is not an OpPop. -/
def PopDesc (base : ℕ) (D : List (List ℕ)) (s : CompilationScope) : Prop :=
  s.lastInstruction.opcode = OpPop →
    ∃ Dp, D = Dp ++ [[OpPop]] ∧ accDesc base Dp s.previousInstruction ∧
      s.previousInstruction.opcode ≠ OpPop

/-- State bookkeeping every compile step preserves: the scope stack shape,
the other scopes, and the soundness of function constants. -/
def ScopeBase (st st' : CompilerState) : Prop :=
  SOK st' ∧
  st'.scopeIndex = st.scopeIndex ∧
  st'.scopes.length = st.scopes.length ∧
  (∀ j, j ≠ st.scopeIndex → st'.scopes[j]? = st.scopes[j]?) ∧
  (ConstsOk st.constants → ConstsOk st'.constants)

/-- Compiling an expression appends well-formed chunks whose jump targets
are at most the new length, leaves an accurate non-Pop last slot. -/
def ExprPost (st st' : CompilerState) : Prop :=
  ScopeBase st st' ∧
  ∃ D, st'.currentScope.instructions = st.currentScope.instructions ++ D.flatten ∧
    chunksOk D ∧
    jumpsLe st'.currentScope.instructions.length D ∧
    accDesc st.currentScope.instructions.length D st'.currentScope.lastInstruction ∧
    st'.currentScope.lastInstruction.opcode ≠ OpPop

/-- Compiling a statement appends well-formed chunks whose jump targets
are strictly below the new length, with accurate last/previous slots. -/
def StmtPost (st st' : CompilerState) : Prop :=
  ScopeBase st st' ∧
  ∃ D, st'.currentScope.instructions = st.currentScope.instructions ++ D.flatten ∧
    chunksOk D ∧
    jumpsLt st'.currentScope.instructions.length D ∧
    accDesc st.currentScope.instructions.length D st'.currentScope.lastInstruction ∧
    PopDesc st.currentScope.instructions.length D st'.currentScope

/-- Compiling a statement list: as StmtPost, except an empty list leaves
the scope untouched. -/
def StmtsPost (st st' : CompilerState) : Prop :=
  ScopeBase st st' ∧
  ∃ D, st'.currentScope.instructions = st.currentScope.instructions ++ D.flatten ∧
    chunksOk D ∧
    jumpsLt st'.currentScope.instructions.length D ∧
    ((D = [] ∧ st'.currentScope = st.currentScope) ∨
     (accDesc st.currentScope.instructions.length D st'.currentScope.lastInstruction ∧
      PopDesc st.currentScope.instructions.length D st'.currentScope))

/-- Compiling an expression list: as ExprPost, except an empty list leaves
the scope untouched. -/
def ExprsPost (st st' : CompilerState) : Prop :=
  ScopeBase st st' ∧
  ∃ D, st'.currentScope.instructions = st.currentScope.instructions ++ D.flatten ∧
    chunksOk D ∧
    jumpsLe st'.currentScope.instructions.length D ∧
    ((D = [] ∧ st'.currentScope = st.currentScope) ∨
     (accDesc st.currentScope.instructions.length D st'.currentScope.lastInstruction ∧
      st'.currentScope.lastInstruction.opcode ≠ OpPop))

/-- The postcondition compile establishes for a node, by its syntactic
class. -/
def compilePost (node : AstNode) (st st' : CompilerState) : Prop :=
  match node with
  | .Program _ => StmtsPost st st'
  | .BlockStatement _ => StmtsPost st st'
  | .ExpressionStatement _ => StmtPost st st'
  | .LetStatement _ _ => StmtPost st st'
  | .ReturnStatement _ => StmtPost st st'
  | _ => ExprPost st st'

end Orangutan

namespace Orangutan

theorem definitionsFull_past (n : ℕ) : definitionsFull (n + 30) = none := rfl

theorem definitionsFull_lt {op : ℕ} {d : Definition}
    (hd : definitionsFull op = some d) : op < 30 := by
  by_contra hge
  push_neg at hge
  have : op = (op - 30) + 30 := by omega
  rw [this, definitionsFull_past] at hd
  exact Option.noConfusion hd

theorem append_singleton_inj {α : Type} {A B : List α} {x y : α}
    (h : A ++ [x] = B ++ [y]) : A = B ∧ x = y := by
  have h' := congrArg List.reverse h
  simp only [List.reverse_append, List.reverse_cons, List.reverse_nil,
    List.nil_append, List.singleton_append, List.cons.injEq] at h'
  exact ⟨List.reverse_inj.mp h'.2, h'.1⟩

theorem makeF_nullary (op : ℕ) (s : String)
    (hd : definitionsFull op = some ⟨s, []⟩) (hop : op < 256) :
    makeF op [] = [op] := by
  unfold makeF
  rw [hd]
  simp [Nat.mod_eq_of_lt hop, List.set]

/-- A well-formed chunk whose opcode byte is OpPop is exactly the one-byte
Pop instruction. -/
theorem goodChunk_pop {c : List ℕ} (hg : goodChunk c)
    (hh : c.headD 0 = OpPop) : c = [OpPop] := by
  obtain ⟨op, d, operands, hd, hlen, rfl⟩ := hg
  have hlt : op < 30 := definitionsFull_lt hd
  have hhead := makeF_headD op d operands hd (by omega)
  rw [hhead] at hh
  subst hh
  have hd2 : d = ⟨"OpPop", []⟩ := by
    have : definitionsFull OpPop = some ⟨"OpPop", []⟩ := rfl
    rw [this] at hd
    exact (Option.some.injEq _ _).mp hd.symm |>.symm ▸ rfl
  subst hd2
  have hops : operands = [] := List.length_eq_zero.mp (by simpa using hlen)
  subst hops
  exact makeF_nullary OpPop "OpPop" rfl (by norm_num [OpPop])

theorem mem_insertSorted {key : AstNode × AstNode → String}
    {a x : AstNode × AstNode} :
    ∀ {l : List (AstNode × AstNode)}, x ∈ insertSorted key a l → x = a ∨ x ∈ l := by
  intro l
  induction l with
  | nil =>
    intro h
    unfold insertSorted at h
    exact Or.inl (by simpa using h)
  | cons b bs ih =>
    intro h
    unfold insertSorted at h
    by_cases hk : key b ≤ key a
    · rw [if_pos hk] at h
      rcases List.mem_cons.mp h with h | h
      · exact Or.inr (h ▸ List.mem_cons_self b bs)
      · rcases ih h with h | h
        · exact Or.inl h
        · exact Or.inr (List.mem_cons_of_mem b h)
    · rw [if_neg hk] at h
      rcases List.mem_cons.mp h with h | h
      · exact Or.inl h
      · exact Or.inr h

theorem mem_sortPairsByKey {x : AstNode × AstNode}
    {l : List (AstNode × AstNode)} (h : x ∈ sortPairsByKey l) : x ∈ l := by
  unfold sortPairsByKey at h
  have key : ∀ (ns : List (AstNode × AstNode)) (acc : List (AstNode × AstNode)),
      x ∈ ns.foldl (fun acc p => insertSorted (fun q => q.1.asString) p acc) acc →
      x ∈ acc ∨ x ∈ ns := by
    intro ns
    induction ns with
    | nil => intro acc h; exact Or.inl h
    | cons p ps ih =>
      intro acc h
      rcases ih _ h with h | h
      · rcases mem_insertSorted h with h | h
        · exact Or.inr (h ▸ List.mem_cons_self p ps)
        · exact Or.inl h
      · exact Or.inr (List.mem_cons_of_mem p h)
  rcases key l [] h with h | h
  · simp at h
  · exact h

theorem wfPairList_iff_mem {l : List (AstNode × AstNode)} :
    wfPairList l = true ↔
      ∀ p ∈ l, wfExpr p.1 = true ∧ wfExpr p.2 = true := by
  induction l with
  | nil => simp [wfPairList]
  | cons p ps ih =>
    obtain ⟨k, v⟩ := p
    simp only [wfPairList, Bool.and_eq_true, ih, List.mem_cons]
    constructor
    · rintro ⟨⟨hk, hv⟩, hrest⟩ q hq
      rcases hq with rfl | hq
      · exact ⟨hk, hv⟩
      · exact hrest q hq
    · intro h
      exact ⟨⟨(h (k, v) (Or.inl rfl)).1, (h (k, v) (Or.inl rfl)).2⟩,
        fun q hq => h q (Or.inr hq)⟩

theorem wfPairList_sorted {pairs : List (AstNode × AstNode)}
    (h : wfPairList pairs = true) :
    wfPairList (sortPairsByKey pairs) = true := by
  rw [wfPairList_iff_mem] at h ⊢
  exact fun p hp => h p (mem_sortPairsByKey hp)

theorem scopes_getElem_current {st : CompilerState} (h : SOK st) :
    st.scopes[st.scopeIndex]? = some st.currentScope := by
  unfold SOK at h
  have hlt : st.scopeIndex < st.scopes.length := by omega
  unfold CompilerState.currentScope
  rw [List.getD, List.get?_eq_getElem?, List.getElem?_eq_getElem hlt]
  rfl

theorem currentScope_eq {st : CompilerState} {s : CompilationScope}
    (h : st.scopes[st.scopeIndex]? = some s) : st.currentScope = s := by
  unfold CompilerState.currentScope
  rw [List.getD, List.get?_eq_getElem?, h]
  rfl

theorem ScopeBase_self {st : CompilerState} (h : SOK st) : ScopeBase st st :=
  ⟨h, rfl, rfl, fun _ _ => rfl, fun hc => hc⟩

theorem ScopeBase_trans {st1 st2 st3 : CompilerState}
    (h12 : ScopeBase st1 st2) (h23 : ScopeBase st2 st3) : ScopeBase st1 st3 := by
  obtain ⟨s2, i2, l2, o2, c2⟩ := h12
  obtain ⟨s3, i3, l3, o3, c3⟩ := h23
  exact ⟨s3, i3.trans i2, l3.trans l2,
    fun j hj => (o3 j (i2 ▸ hj)).trans (o2 j hj),
    fun hc => c3 (c2 hc)⟩

end Orangutan

namespace Orangutan

/-- ScopeBase facts for a single emit. -/
theorem ScopeBase_emit {st st1 : CompilerState} (op : ℕ) (ops : List ℕ)
    (h1 : SOK st1) (hbase : ScopeBase st st1) :
    ScopeBase st (st1.emit op ops).2 := by
  obtain ⟨hS, hI, hL, hO, hC⟩ := hbase
  obtain ⟨_, eS, eI, eL, eC, _, eO, _, _, _⟩ := emit_spec st1 op ops h1
  exact ⟨eS, eI.trans hI, eL.trans hL,
    fun j hj => (eO j (hI ▸ hj)).trans (hO j hj),
    fun hc => eC ▸ hC hc⟩

/-- Closing an expression with a non-jump, non-pop emit after appending
chunk-structured bytes yields ExprPost. -/
theorem post_emit_expr (st st1 : CompilerState) (op : ℕ) (ops : List ℕ)
    (d : Definition) (hd : definitionsFull op = some d)
    (hop : op < 256) (hj1 : op ≠ OpJump) (hj2 : op ≠ OpJumpNotTruthy)
    (hpop : op ≠ OpPop)
    (hbase : ScopeBase st st1)
    (D : List (List ℕ))
    (hins : st1.currentScope.instructions = st.currentScope.instructions ++ D.flatten)
    (hlen : ops.length = d.operandWidths.length)
    (hchunks : chunksOk D)
    (hjumps : jumpsLe st1.currentScope.instructions.length D) :
    ExprPost st (st1.emit op ops).2 := by
  have h1 : SOK st1 := hbase.1
  obtain ⟨ePos, eS, eI, eL, eC, eSy, eO, eIns, eLast, ePrev⟩ :=
    emit_spec st1 op ops h1
  refine ⟨ScopeBase_emit op ops h1 hbase, D ++ [makeF op ops], ?_, ?_, ?_, ?_, ?_⟩
  · rw [eIns, hins]
    simp [flatten_append]
  · exact chunksOk_append hchunks
      (fun c hc => by
        rw [List.mem_singleton.mp hc]
        exact goodChunk_emitted op d ops hd hlen)
  · refine jumpsLe_append ?_ ?_
    · refine jumpsLe_mono ?_ hjumps
      rw [eIns]
      simp
    · intro c hc hjump
      exfalso
      rw [List.mem_singleton.mp hc] at hjump
      unfold jumpHead at hjump
      rw [makeF_headD op d ops hd hop] at hjump
      rcases hjump with h | h
      · exact hj1 h
      · exact hj2 h
  · refine ⟨D, makeF op ops, rfl, ?_, ?_⟩
    · rw [eLast, makeF_headD op d ops hd hop]
    · rw [eLast, hins]
      simp
  · rw [eLast]
    simpa using hpop

/-- Closing a statement with an emit (possibly the statement Pop) after an
expression segment with an accurate non-Pop last slot yields StmtPost. -/
theorem post_emit_stmt (st st1 : CompilerState) (op : ℕ) (ops : List ℕ)
    (d : Definition) (hd : definitionsFull op = some d)
    (hop : op < 256) (hj1 : op ≠ OpJump) (hj2 : op ≠ OpJumpNotTruthy)
    (hbase : ScopeBase st st1)
    (D : List (List ℕ))
    (hins : st1.currentScope.instructions = st.currentScope.instructions ++ D.flatten)
    (hlen : ops.length = d.operandWidths.length)
    (hlen1 : 1 ≤ (makeF op ops).length)
    (hchunks : chunksOk D)
    (hjumps : jumpsLe st1.currentScope.instructions.length D)
    (hacc : accDesc st.currentScope.instructions.length D
      st1.currentScope.lastInstruction)
    (hlastpop : st1.currentScope.lastInstruction.opcode ≠ OpPop) :
    StmtPost st (st1.emit op ops).2 := by
  have h1 : SOK st1 := hbase.1
  obtain ⟨ePos, eS, eI, eL, eC, eSy, eO, eIns, eLast, ePrev⟩ :=
    emit_spec st1 op ops h1
  have hlenIns : (st1.emit op ops).2.currentScope.instructions.length =
      st1.currentScope.instructions.length + (makeF op ops).length := by
    rw [eIns]; simp
  refine ⟨ScopeBase_emit op ops h1 hbase, D ++ [makeF op ops], ?_, ?_, ?_, ?_, ?_⟩
  · rw [eIns, hins]
    simp [flatten_append]
  · exact chunksOk_append hchunks
      (fun c hc => by
        rw [List.mem_singleton.mp hc]
        exact goodChunk_emitted op d ops hd hlen)
  · refine jumpsLt_append ?_ ?_
    · intro c hc hjump
      have := hjumps c hc hjump
      rw [hlenIns]
      omega
    · intro c hc hjump
      exfalso
      rw [List.mem_singleton.mp hc] at hjump
      unfold jumpHead at hjump
      rw [makeF_headD op d ops hd hop] at hjump
      rcases hjump with h | h
      · exact hj1 h
      · exact hj2 h
  · refine ⟨D, makeF op ops, rfl, ?_, ?_⟩
    · rw [eLast, makeF_headD op d ops hd hop]
    · rw [eLast, hins]
      simp
  · intro hPop
    rw [eLast] at hPop
    simp only at hPop
    subst hPop
    have hd2 : d = ⟨"OpPop", []⟩ := by
      have hdp : definitionsFull OpPop = some ⟨"OpPop", []⟩ := rfl
      rw [hdp] at hd
      exact Option.some_inj.mp hd.symm
    have hops : ops = [] := by
      refine List.length_eq_zero.mp ?_
      rw [hlen, hd2]
      rfl
    subst hops
    have hmk : makeF OpPop [] = [OpPop] :=
      makeF_nullary OpPop "OpPop" rfl (by norm_num [OpPop])
    refine ⟨D, by rw [hmk], ?_, ?_⟩
    · rw [ePrev]
      exact hacc
    · rw [ePrev]
      exact hlastpop

end Orangutan

namespace Orangutan

/-- The common core of the postconditions: appended chunk-structured bytes
with jump targets bounded by the new length. -/
def SegPost (st st' : CompilerState) : Prop :=
  ScopeBase st st' ∧
  ∃ D, st'.currentScope.instructions = st.currentScope.instructions ++ D.flatten ∧
    chunksOk D ∧ jumpsLe st'.currentScope.instructions.length D

theorem exprPost_seg {st st' : CompilerState} (h : ExprPost st st') :
    SegPost st st' :=
  ⟨h.1, h.2.choose, h.2.choose_spec.1, h.2.choose_spec.2.1, h.2.choose_spec.2.2.1⟩

theorem exprsPost_seg {st st' : CompilerState} (h : ExprsPost st st') :
    SegPost st st' :=
  ⟨h.1, h.2.choose, h.2.choose_spec.1, h.2.choose_spec.2.1, h.2.choose_spec.2.2.1⟩

theorem stmtsPost_seg {st st' : CompilerState} (h : StmtsPost st st') :
    SegPost st st' :=
  ⟨h.1, h.2.choose, h.2.choose_spec.1, h.2.choose_spec.2.1,
    jumpsLt_le h.2.choose_spec.2.2.1⟩

theorem stmtPost_seg {st st' : CompilerState} (h : StmtPost st st') :
    SegPost st st' :=
  ⟨h.1, h.2.choose, h.2.choose_spec.1, h.2.choose_spec.2.1,
    jumpsLt_le h.2.choose_spec.2.2.1⟩

theorem seg_len_le {st st' : CompilerState} (h : SegPost st st') :
    st.currentScope.instructions.length ≤ st'.currentScope.instructions.length := by
  obtain ⟨_, D, hins, _, _⟩ := h
  rw [hins]
  simp

theorem SegPost_trans {st1 st2 st3 : CompilerState}
    (h12 : SegPost st1 st2) (h23 : SegPost st2 st3) : SegPost st1 st3 := by
  obtain ⟨b12, D1, i1, c1, j1⟩ := h12
  obtain ⟨b23, D2, i2, c2, j2⟩ := h23
  refine ⟨ScopeBase_trans b12 b23, D1 ++ D2, ?_, chunksOk_append c1 c2, ?_⟩
  · rw [i2, i1, flatten_append, List.append_assoc]
  · refine jumpsLe_append (jumpsLe_mono ?_ j1) j2
    rw [i2]
    simp

theorem accDesc_shift {base : ℕ} {D1 D2 : List (List ℕ)} {e : EmittedInstruction}
    (h : accDesc (base + D1.flatten.length) D2 e) : accDesc base (D1 ++ D2) e := by
  obtain ⟨Dp, c, hD, ho, hp⟩ := h
  refine ⟨D1 ++ Dp, c, by rw [hD, List.append_assoc], ho, ?_⟩
  rw [hp, flatten_append, List.length_append]
  push_cast
  ring

theorem StmtPost.toList {st st' : CompilerState} (h : StmtPost st st') :
    StmtsPost st st' := by
  obtain ⟨b, D, hi, hc, hj, ha, hp⟩ := h
  exact ⟨b, D, hi, hc, hj, Or.inr ⟨ha, hp⟩⟩

theorem StmtPost_comp {st1 st2 st3 : CompilerState}
    (h12 : StmtPost st1 st2) (h23 : StmtsPost st2 st3) : StmtsPost st1 st3 := by
  obtain ⟨b12, D1, i1, c1, j1, a1, p1⟩ := h12
  obtain ⟨b23, D2, i2, c2, j2, disj⟩ := h23
  have hbase2 : st2.currentScope.instructions.length =
      st1.currentScope.instructions.length + D1.flatten.length := by
    rw [i1]; simp
  have hle23 : st2.currentScope.instructions.length ≤
      st3.currentScope.instructions.length := by
    rw [i2]; simp
  refine ⟨ScopeBase_trans b12 b23, D1 ++ D2, ?_, chunksOk_append c1 c2,
    jumpsLt_append (jumpsLt_mono hle23 j1) j2, Or.inr ?_⟩
  · rw [i2, i1, flatten_append, List.append_assoc]
  rcases disj with ⟨hD2, hsc⟩ | ⟨a2, p2⟩
  · subst hD2
    rw [List.append_nil]
    rw [hsc]
    exact ⟨a1, p1⟩
  · constructor
    · exact accDesc_shift (hbase2 ▸ a2)
    · intro hPop
      obtain ⟨Dp2, hD2, hacc2, hne2⟩ := p2 hPop
      refine ⟨D1 ++ Dp2, by rw [hD2, List.append_assoc], ?_, hne2⟩
      exact accDesc_shift (hbase2 ▸ hacc2)

theorem ExprPost_comp {st1 st2 st3 : CompilerState}
    (h12 : ExprPost st1 st2) (h23 : ExprsPost st2 st3) : ExprsPost st1 st3 := by
  obtain ⟨b12, D1, i1, c1, j1, a1, p1⟩ := h12
  obtain ⟨b23, D2, i2, c2, j2, disj⟩ := h23
  have hbase2 : st2.currentScope.instructions.length =
      st1.currentScope.instructions.length + D1.flatten.length := by
    rw [i1]; simp
  have hle23 : st2.currentScope.instructions.length ≤
      st3.currentScope.instructions.length := by
    rw [i2]; simp
  refine ⟨ScopeBase_trans b12 b23, D1 ++ D2, ?_, chunksOk_append c1 c2,
    jumpsLe_append (jumpsLe_mono hle23 j1) j2, Or.inr ?_⟩
  · rw [i2, i1, flatten_append, List.append_assoc]
  rcases disj with ⟨hD2, hsc⟩ | ⟨a2, p2⟩
  · subst hD2
    rw [List.append_nil]
    rw [hsc]
    exact ⟨a1, p1⟩
  · exact ⟨accDesc_shift (hbase2 ▸ a2), p2⟩

theorem StmtsPost_nil {st : CompilerState} (h : SOK st) : StmtsPost st st :=
  ⟨ScopeBase_self h, [], by simp, fun c hc => absurd hc (List.not_mem_nil c),
    fun c hc => absurd hc (List.not_mem_nil c), Or.inl ⟨rfl, rfl⟩⟩

theorem ExprsPost_nil {st : CompilerState} (h : SOK st) : ExprsPost st st :=
  ⟨ScopeBase_self h, [], by simp, fun c hc => absurd hc (List.not_mem_nil c),
    fun c hc => absurd hc (List.not_mem_nil c), Or.inl ⟨rfl, rfl⟩⟩

/-- compilePost of an expression node is ExprPost. -/
theorem compilePost_expr {e : AstNode} {st st' : CompilerState}
    (hwf : wfExpr e = true) (h : compilePost e st st') : ExprPost st st' := by
  cases e <;> first
    | exact h
    | exact Bool.noConfusion hwf

/-- compilePost of a statement node is StmtPost. -/
theorem compilePost_stmt {s : AstNode} {st st' : CompilerState}
    (hwf : wfStmt s = true) (h : compilePost s st st') : StmtPost st st' := by
  cases s <;> first
    | exact h
    | exact Bool.noConfusion hwf

/-- An expression node satisfies wfNode. -/
theorem wfNode_of_wfExpr {e : AstNode} (hwf : wfExpr e = true) :
    wfNode e = true := by
  cases e <;> first
    | exact hwf
    | exact Bool.noConfusion hwf

/-- A statement node satisfies wfNode. -/
theorem wfNode_of_wfStmt {s : AstNode} (hwf : wfStmt s = true) :
    wfNode s = true := by
  cases s <;> first
    | exact hwf
    | exact Bool.noConfusion hwf

/-- A block node is a BlockStatement of well-formed statements. -/
theorem wfBlockNode_elim {b : AstNode} (hwf : wfBlockNode b = true) :
    ∃ stmts, b = .BlockStatement stmts ∧ wfStmtList stmts = true := by
  cases b <;> first
    | exact ⟨_, rfl, hwf⟩
    | exact Bool.noConfusion hwf

end Orangutan

namespace Orangutan

theorem makeF_pop_eq : makeF OpPop [] = [OpPop] := rfl

theorem makeF_null_eq : makeF OpNull [] = [OpNull] := rfl

theorem makeF_returnValue_eq : makeF OpReturnValue [] = [OpReturnValue] := rfl

theorem makeF_return_eq : makeF OpReturn [] = [OpReturn] := rfl

theorem makeF_setLocal (i : ℕ) : makeF OpSetLocal [i] = [OpSetLocal, i % 256] := rfl

theorem makeF_setGlobal (i : ℕ) :
    makeF OpSetGlobal [i] = [OpSetGlobal, (i >>> 8) % 256, (i &&& 255) % 256] := rfl

theorem lastInstructionIs_true_iff (st : CompilerState) (op : ℕ) :
    st.lastInstructionIs op = true ↔
      st.currentInstructions.length ≠ 0 ∧
        st.currentScope.lastInstruction.opcode = op := by
  unfold CompilerState.lastInstructionIs
  split
  · next h => simp [h]
  · next h => simp [h]

theorem ScopeBase_of_parts {st st' : CompilerState} (hS : SOK st')
    (hI : st'.scopeIndex = st.scopeIndex)
    (hL : st'.scopes.length = st.scopes.length)
    (hO : ∀ j, j ≠ st.scopeIndex → st'.scopes[j]? = st.scopes[j]?)
    (hCeq : st'.constants = st.constants) : ScopeBase st st' :=
  ⟨hS, hI, hL, hO, fun hc => hCeq ▸ hc⟩

theorem ScopeBase_removeLastPop {st : CompilerState} (h : SOK st) :
    ScopeBase st st.removeLastPop := by
  obtain ⟨hS, hI, hL, hC, _, hO, _, _, _⟩ := removeLastPop_spec st h
  exact ScopeBase_of_parts hS hI hL hO hC

theorem goodFnConst_integer (q : ℚ) : goodFnConst (.IntegerObject q) :=
  fun _ h => Obj.noConfusion h

theorem goodFnConst_string (s : String) : goodFnConst (.StringObject s) :=
  fun _ h => Obj.noConfusion h

theorem ScopeBase_addConstant {st : CompilerState} (h : SOK st) (obj : Obj)
    (hobj : goodFnConst obj) : ScopeBase st (st.addConstant obj).2 := by
  refine ⟨h, rfl, rfl, fun _ _ => rfl, ?_⟩
  intro hc c hcm
  have hcm' : c ∈ st.constants ++ [obj] := hcm
  rcases List.mem_append.mp hcm' with hm | hm
  · exact hc c hm
  · rw [List.mem_singleton.mp hm]
    exact hobj

end Orangutan

namespace Orangutan

theorem foldl_add_init_le (ws : List ℕ) : ∀ a : ℕ, a ≤ ws.foldl (· + ·) a := by
  induction ws with
  | nil => intro a; exact le_refl a
  | cons w rest ih =>
    intro a
    exact le_trans (Nat.le_add_right a w) (ih (a + w))

theorem makeF_length (op : ℕ) (d : Definition) (ops : List ℕ)
    (hd : definitionsFull op = some d) :
    (makeF op ops).length = d.operandWidths.foldl (· + ·) 1 := by
  unfold makeF
  rw [hd]
  have key : ∀ (l : List (ℕ × ℕ)) (acc : List ℕ × ℕ),
      ((l.foldl
        (fun acc p =>
          match d.operandWidths[p.1]? with
          | some 2 =>
              ((acc.1.set acc.2 (((p.2 >>> 8)) % 256)).set (acc.2 + 1)
                ((p.2 &&& 255) % 256),
               acc.2 + 2)
          | some 1 => (acc.1.set acc.2 (p.2 % 256), acc.2 + 1)
          | _ => acc)
        acc).1).length = acc.1.length := by
    intro l
    induction l with
    | nil => intro acc; rfl
    | cons q qs ih =>
      intro acc
      rw [List.foldl_cons, ih]
      split <;> simp [List.length_set]
  rw [key]
  simp

theorem goodChunk_length_pos {c : List ℕ} (h : goodChunk c) : 1 ≤ c.length := by
  obtain ⟨op, d, ops, hd, hlen, rfl⟩ := h
  rw [makeF_length op d ops hd]
  exact foldl_add_init_le d.operandWidths 1

set_option maxHeartbeats 1000000 in
/-- The consequence/alternative trimming step of the IfExpression case:
compile a block, then remove a trailing Pop if one was emitted. -/
theorem popTrim_spec (stA stB : CompilerState)
    (hlastA : stA.currentScope.lastInstruction.opcode ≠ OpPop)
    (P : StmtsPost stA stB) :
    ∃ C,
      ScopeBase stA
        (if stB.lastInstructionIs OpPop = true then stB.removeLastPop else stB) ∧
      (if stB.lastInstructionIs OpPop = true then stB.removeLastPop
        else stB).currentScope.instructions =
        stA.currentScope.instructions ++ C.flatten ∧
      chunksOk C ∧
      jumpsLe
        (if stB.lastInstructionIs OpPop = true then stB.removeLastPop
          else stB).currentScope.instructions.length C ∧
      ((C = [] ∧
        (if stB.lastInstructionIs OpPop = true then stB.removeLastPop
          else stB).currentScope.lastInstruction =
          stA.currentScope.lastInstruction) ∨
       (accDesc stA.currentScope.instructions.length C
          (if stB.lastInstructionIs OpPop = true then stB.removeLastPop
            else stB).currentScope.lastInstruction ∧
        (if stB.lastInstructionIs OpPop = true then stB.removeLastPop
          else stB).currentScope.lastInstruction.opcode ≠ OpPop)) := by
  obtain ⟨B, D, hins, hch, hj, disj⟩ := P
  by_cases hpp : stB.lastInstructionIs OpPop = true
  · rw [if_pos hpp]
    rw [lastInstructionIs_true_iff] at hpp
    obtain ⟨hne0, hPop⟩ := hpp
    rcases disj with ⟨hD, hsc⟩ | ⟨ha, hp⟩
    · exact absurd (hsc ▸ hPop) hlastA
    · obtain ⟨Dp, hDp, haccp, hnep⟩ := hp hPop
      obtain ⟨Dpa, ca, hDa, hoa, hpa⟩ := ha
      have hinj := append_singleton_inj (hDa.symm.trans hDp)
      obtain ⟨rS, rI, rL, rC, rSy, rO, rIns, rLast, rPrev⟩ :=
        removeLastPop_spec stB B.1
      have hposN : stB.currentScope.lastInstruction.position.toNat =
          stA.currentScope.instructions.length + Dp.flatten.length := by
        rw [hpa, hinj.1]
        omega
      have hinsB : stB.currentScope.instructions =
          (stA.currentScope.instructions ++ Dp.flatten) ++ [OpPop] := by
        rw [hins, hDp]
        simp [flatten_append, List.append_assoc]
      have hins4 : stB.removeLastPop.currentScope.instructions =
          stA.currentScope.instructions ++ Dp.flatten := by
        rw [rIns, hposN, hinsB]
        rw [show stA.currentScope.instructions.length + Dp.flatten.length =
          (stA.currentScope.instructions ++ Dp.flatten).length by simp]
        exact List.take_left _ _
      refine ⟨Dp, ScopeBase_trans B (ScopeBase_removeLastPop B.1), hins4, ?_, ?_,
        Or.inr ⟨?_, ?_⟩⟩
      · intro c hcm
        exact hch c (by rw [hDp]; exact List.mem_append_left _ hcm)
      · intro c hcm hjh
        have hlt := hj c (by rw [hDp]; exact List.mem_append_left _ hcm) hjh
        have hlen : stB.currentScope.instructions.length =
            stB.removeLastPop.currentScope.instructions.length + 1 := by
          rw [hinsB, hins4]
          simp only [List.length_append, List.length_cons, List.length_nil]
        omega
      · rw [rLast]
        exact haccp
      · rw [rLast]
        exact hnep
  · rw [if_neg hpp]
    rw [lastInstructionIs_true_iff] at hpp
    push_neg at hpp
    rcases disj with ⟨hD, hsc⟩ | ⟨ha, hpd⟩
    · exact ⟨D, B, hins, hch, jumpsLt_le hj, Or.inl ⟨hD, by rw [hsc]⟩⟩
    · refine ⟨D, B, hins, hch, jumpsLt_le hj, Or.inr ⟨ha, ?_⟩⟩
      obtain ⟨Dpa, ca, hDa, hoa, hpa⟩ := ha
      have hca : 1 ≤ ca.length :=
        goodChunk_length_pos (hch ca (by rw [hDa]; exact List.mem_append_right _ (List.mem_singleton_self ca)))
      have hflat : 1 ≤ D.flatten.length := by
        rw [hDa, flatten_append]
        simp only [List.length_append, List.flatten_cons, List.flatten_nil,
          List.append_nil]
        omega
      have hlenB : stB.currentScope.instructions.length ≠ 0 := by
        rw [hins]
        simp only [List.length_append]
        omega
      exact hpp hlenB

set_option maxHeartbeats 1600000 in
/-- Assembling the IfExpression postcondition after the final jump
back-patch. -/
theorem if_assemble
    (st st1 st7 : CompilerState)
    (C1 C4 C7 : List (List ℕ))
    (t1 p L : ℕ)
    (B7 : ScopeBase st st7)
    (i1 : st1.currentScope.instructions = st.currentScope.instructions ++ C1.flatten)
    (ch1 : chunksOk C1)
    (j1 : jumpsLe st1.currentScope.instructions.length C1)
    (ht1 : t1 = st1.currentScope.instructions.length + 3 + C4.flatten.length + 3)
    (i7 : st7.currentScope.instructions =
      st1.currentScope.instructions ++ (makeF OpJumpNotTruthy [t1] ++
        (C4.flatten ++ (makeF OpJump [9999] ++ C7.flatten))))
    (ch4 : chunksOk C4) (ch7 : chunksOk C7)
    (j4 : jumpsLe (st1.currentScope.instructions.length + 3 + C4.flatten.length) C4)
    (j7 : jumpsLe st7.currentScope.instructions.length C7)
    (hp : p = st1.currentScope.instructions.length + 3 + C4.flatten.length)
    (hL : L = st7.currentScope.instructions.length)
    (hlast : (C7 = [] ∧ st7.currentScope.lastInstruction =
        ⟨OpJump, (st1.currentScope.instructions.length + 3 + C4.flatten.length : ℤ)⟩) ∨
      (accDesc (st1.currentScope.instructions.length + 3 + C4.flatten.length + 3) C7
         st7.currentScope.lastInstruction ∧
       st7.currentScope.lastInstruction.opcode ≠ OpPop)) :
    ExprPost st (st7.changeOperand p L) := by
  have hjntlen : (makeF OpJumpNotTruthy [t1]).length = 3 := by
    rw [makeF_jnt]
    rfl
  have hjmplen9 : (makeF OpJump [9999]).length = 3 := by
    rw [makeF_jump]
    rfl
  have hjmplenL : (makeF OpJump [L]).length = 3 := by
    rw [makeF_jump]
    rfl
  have hA2 : p = (st1.currentScope.instructions ++ makeF OpJumpNotTruthy [t1]
      ++ C4.flatten).length := by
    simp [hjntlen, hp]
    omega
  have hbytes : st7.currentScope.instructions =
      (st1.currentScope.instructions ++ makeF OpJumpNotTruthy [t1] ++ C4.flatten) ++
        (makeF OpJump [9999] ++ C7.flatten) := by
    rw [i7]
    simp [List.append_assoc]
  obtain ⟨sS, sI, sL2, sC, sSy, sO, sIns, sLast, sPrev⟩ :=
    changeOperand_surgery st7 B7.1
      (st1.currentScope.instructions ++ makeF OpJumpNotTruthy [t1] ++ C4.flatten)
      C7.flatten OpJump 9999 L (Or.inl rfl) hbytes
  rw [hA2]
  have hlen1 : st1.currentScope.instructions.length =
      st.currentScope.instructions.length + C1.flatten.length := by
    rw [i1]
    simp
  have hlen7 : st7.currentScope.instructions.length =
      st1.currentScope.instructions.length + 3 + C4.flatten.length + 3 +
        C7.flatten.length := by
    rw [i7]
    simp [hjntlen, hjmplen9]
    omega
  have hlen8 : (st7.changeOperand
      (st1.currentScope.instructions ++ makeF OpJumpNotTruthy [t1] ++ C4.flatten).length
      L).currentScope.instructions.length = st7.currentScope.instructions.length := by
    rw [sIns, hbytes]
    simp [hjmplen9, hjmplenL]
  refine ⟨ScopeBase_trans B7 (ScopeBase_of_parts sS sI sL2 sO sC),
    C1 ++ ([makeF OpJumpNotTruthy [t1]] ++ (C4 ++ ([makeF OpJump [L]] ++ C7))),
    ?_, ?_, ?_, ?_, ?_⟩
  · rw [sIns, i1]
    simp [flatten_append, List.append_assoc]
  · refine chunksOk_append ch1 (chunksOk_append ?_ (chunksOk_append ch4
      (chunksOk_append ?_ ch7)))
    · intro c hcm
      rw [List.mem_singleton.mp hcm]
      exact goodChunk_emitted OpJumpNotTruthy ⟨"OpJumpNotTruthy", [2]⟩ [t1] rfl rfl
    · intro c hcm
      rw [List.mem_singleton.mp hcm]
      exact goodChunk_emitted OpJump ⟨"OpJump", [2]⟩ [L] rfl rfl
  · rw [hlen8]
    refine jumpsLe_append ?_ (jumpsLe_append ?_ (jumpsLe_append ?_
      (jumpsLe_append ?_ ?_)))
    · refine jumpsLe_mono ?_ j1
      omega
    · intro c hcm hjh
      rw [List.mem_singleton.mp hcm, makeF_jnt] at hjh ⊢
      have : readUint16 ([OpJumpNotTruthy, (t1 >>> 8) % 256,
          (t1 &&& 255) % 256].drop 1) = t1 % 65536 := by
        rw [show [OpJumpNotTruthy, (t1 >>> 8) % 256, (t1 &&& 255) % 256].drop 1 =
          [(t1 >>> 8) % 256, (t1 &&& 255) % 256] from rfl]
        exact readUint16_jumpOperand t1
      rw [this]
      have hm : t1 % 65536 ≤ t1 := Nat.mod_le t1 65536
      omega
    · refine jumpsLe_mono ?_ j4
      omega
    · intro c hcm hjh
      rw [List.mem_singleton.mp hcm, makeF_jump] at hjh ⊢
      have : readUint16 ([OpJump, (L >>> 8) % 256, (L &&& 255) % 256].drop 1) =
          L % 65536 := by
        rw [show [OpJump, (L >>> 8) % 256, (L &&& 255) % 256].drop 1 =
          [(L >>> 8) % 256, (L &&& 255) % 256] from rfl]
        exact readUint16_jumpOperand L
      rw [this]
      have hm : L % 65536 ≤ L := Nat.mod_le L 65536
      omega
    · refine jumpsLe_mono ?_ j7
      omega
  · rcases hlast with ⟨hC7, hl7⟩ | ⟨⟨Dp7, c7, hD7, ho7, hp7⟩, hne⟩
    · subst hC7
      refine ⟨C1 ++ ([makeF OpJumpNotTruthy [t1]] ++ C4), makeF OpJump [L], ?_, ?_, ?_⟩
      · simp [List.append_assoc]
      · rw [sLast, hl7, makeF_jump]
        rfl
      · rw [sLast, hl7]
        simp only [flatten_append, List.flatten_cons, List.flatten_nil,
          List.length_append, List.append_nil, hjntlen]
        push_cast
        omega
    · subst hD7
      refine ⟨C1 ++ ([makeF OpJumpNotTruthy [t1]] ++ (C4 ++ ([makeF OpJump [L]] ++ Dp7))),
        c7, ?_, ?_, ?_⟩
      · simp [List.append_assoc]
      · rw [sLast]
        exact ho7
      · rw [sLast, hp7]
        simp only [flatten_append, List.flatten_cons, List.flatten_nil,
          List.length_append, List.append_nil, hjntlen, hjmplenL]
        push_cast
        omega
  · rw [sLast]
    rcases hlast with ⟨hC7, hl7⟩ | ⟨ha, hne⟩
    · rw [hl7]
      exact (by decide : OpJump ≠ OpPop)
    · exact hne

theorem currentInstructions_eq (st : CompilerState) :
    st.currentInstructions = st.currentScope.instructions := rfl

theorem foldl_symbols_preserves (params : List String) :
    ∀ (stX : CompilerState),
      (params.foldl
        (fun st param =>
          let (_, symbols) := st.symbols.define param
          { st with symbols := symbols }) stX).scopes = stX.scopes ∧
      (params.foldl
        (fun st param =>
          let (_, symbols) := st.symbols.define param
          { st with symbols := symbols }) stX).scopeIndex = stX.scopeIndex ∧
      (params.foldl
        (fun st param =>
          let (_, symbols) := st.symbols.define param
          { st with symbols := symbols }) stX).constants = stX.constants := by
  induction params with
  | nil => intro stX; exact ⟨rfl, rfl, rfl⟩
  | cons p ps ih =>
    intro stX
    rw [List.foldl_cons]
    exact ih _

set_option maxHeartbeats 1600000 in
/-- The tail of the FunctionLiteral case: leave the function scope, record
the compiled function as a constant, and emit the constant load in the
restored scope. -/
theorem fn_tail (st st5 : CompilerState) (C5 : List (List ℕ)) (nl np : ℕ)
    (hS : SOK st)
    (hS5 : SOK st5)
    (hidx5 : st5.scopeIndex = st.scopeIndex + 1)
    (hlen5 : st5.scopes.length = st.scopes.length + 1)
    (hothers : ∀ j, j ≠ st.scopeIndex + 1 → st5.scopes[j]? = st.scopes[j]?)
    (hconsts : ConstsOk st.constants → ConstsOk st5.constants)
    (i5 : st5.currentScope.instructions = C5.flatten)
    (ch5 : chunksOk C5)
    (j5 : jumpsLt st5.currentScope.instructions.length C5) :
    ExprPost st
      ((st5.leaveScope.2.addConstant
          (.CompiledFunctionObject ⟨st5.leaveScope.1, nl, np⟩)).2.emit OpConstant
        [(st5.leaveScope.2.addConstant
          (.CompiledFunctionObject ⟨st5.leaveScope.1, nl, np⟩)).1]).2 := by
  have hSn : st.scopeIndex + 1 = st.scopes.length := hS
  obtain ⟨l1, lS, lI, lC, lO⟩ := leaveScope_spec st5 hS5 (by omega)
  have hidx6 : st5.leaveScope.2.scopeIndex = st.scopeIndex := by
    rw [lI, hidx5]
    omega
  have hSn6 : st5.leaveScope.2.scopeIndex + 1 = st5.leaveScope.2.scopes.length := lS
  have hlen6 : st5.leaveScope.2.scopes.length = st.scopes.length := by
    omega
  have hothers6 : ∀ j, j ≠ st.scopeIndex →
      st5.leaveScope.2.scopes[j]? = st.scopes[j]? := by
    intro j hj
    by_cases hlt : j < st.scopes.length
    · rw [lO j (by omega), hothers j (by omega)]
    · rw [List.getElem?_eq_none (by omega), List.getElem?_eq_none (by omega)]
  have hcur6 : st5.leaveScope.2.currentScope = st.currentScope := by
    have h66 : st5.leaveScope.2.scopes[st5.leaveScope.2.scopeIndex]? =
        some st.currentScope := by
      rw [hidx6, lO st.scopeIndex (by omega), hothers st.scopeIndex (by omega),
        scopes_getElem_current hS]
    exact currentScope_eq h66
  have hB6 : ScopeBase st st5.leaveScope.2 :=
    ⟨lS, hidx6, hlen6, hothers6, fun h => by rw [lC]; exact hconsts h⟩
  have hfn : goodFnConst
      (.CompiledFunctionObject ⟨st5.leaveScope.1, nl, np⟩) := by
    intro fn hfneq
    injection hfneq with h
    subst h
    refine ⟨C5, ?_, ch5, ?_⟩
    · rw [l1]
      exact i5
    · rw [l1]
      exact j5
  refine post_emit_expr st _ OpConstant
    [(st5.leaveScope.2.addConstant
      (.CompiledFunctionObject ⟨st5.leaveScope.1, nl, np⟩)).1]
    ⟨"OpConstant", [2]⟩ rfl (by decide) (by decide) (by decide) (by decide)
    (ScopeBase_trans hB6 (ScopeBase_addConstant lS _ hfn)) [] ?_ rfl
    (fun c hcm => absurd hcm (List.not_mem_nil c))
    (fun c hcm => absurd hcm (List.not_mem_nil c))
  rw [show ((st5.leaveScope.2.addConstant
      (.CompiledFunctionObject ⟨st5.leaveScope.1, nl, np⟩)).2).currentScope =
    st5.leaveScope.2.currentScope from rfl, hcur6]
  simp

set_option maxHeartbeats 4000000 in
theorem compile_all_post : ∀ fuel : ℕ,
    (∀ node st st', wfNode node = true → SOK st →
      compile fuel node st = .ok st' → compilePost node st st') ∧
    (∀ L st st', wfStmtList L = true → SOK st →
      compileList fuel L st = .ok st' → StmtsPost st st') ∧
    (∀ L st st', wfExprList L = true → SOK st →
      compileList fuel L st = .ok st' → ExprsPost st st') ∧
    (∀ L st st', wfPairList L = true → SOK st →
      compilePairs fuel L st = .ok st' → ExprsPost st st') := by
  intro fuel
  induction fuel with
  | zero =>
    refine ⟨?_, ?_, ?_, ?_⟩ <;> intro x st st' hwf hS hc <;>
      simp only [compile, compileList, compilePairs] at hc <;>
      exact Except.noConfusion hc
  | succ fuel ih =>
    obtain ⟨ihC, ihS, ihE, ihP⟩ := ih
    refine ⟨?_, ?_, ?_, ?_⟩
    · intro node st st' hwf hS hc
      cases node with
      | Program statements =>
        simp only [compile] at hc
        exact ihS statements st st' hwf hS hc
      | BlockStatement statements =>
        simp only [compile] at hc
        exact ihS statements st st' hwf hS hc
      | ExpressionStatement e =>
        simp only [compile] at hc
        cases h1 : compile fuel e st with
        | error err =>
          rw [h1] at hc
          simp only [bind, Except.bind] at hc
          exact Except.noConfusion hc
        | ok st1 =>
          rw [h1] at hc
          simp only [bind, Except.bind, Except.ok.injEq] at hc
          subst hc
          have P1 : ExprPost st st1 :=
            compilePost_expr hwf (ihC e st st1 (wfNode_of_wfExpr hwf) hS h1)
          obtain ⟨hbase, D, hins, hch, hj, hacc, hpop⟩ := P1
          exact post_emit_stmt st st1 OpPop [] ⟨"OpPop", []⟩ rfl (by decide)
            (by decide) (by decide) hbase D hins rfl
            (by rw [makeF_pop_eq]; norm_num) hch hj hacc hpop
      | ReturnStatement e =>
        simp only [compile] at hc
        cases h1 : compile fuel e st with
        | error err =>
          rw [h1] at hc
          simp only [bind, Except.bind] at hc
          exact Except.noConfusion hc
        | ok st1 =>
          rw [h1] at hc
          simp only [bind, Except.bind, Except.ok.injEq] at hc
          subst hc
          have P1 : ExprPost st st1 :=
            compilePost_expr hwf (ihC e st st1 (wfNode_of_wfExpr hwf) hS h1)
          obtain ⟨hbase, D, hins, hch, hj, hacc, hpop⟩ := P1
          exact post_emit_stmt st st1 OpReturnValue [] ⟨"OpReturnValue", []⟩ rfl
            (by decide) (by decide) (by decide) hbase D hins rfl
            (by rw [makeF_returnValue_eq]; norm_num) hch hj hacc hpop
      | LetStatement name value =>
        simp only [compile] at hc
        cases h1 : compile fuel value st with
        | error err =>
          rw [h1] at hc
          simp only [bind, Except.bind] at hc
          exact Except.noConfusion hc
        | ok st1 =>
          rw [h1] at hc
          simp only [bind, Except.bind, Except.ok.injEq] at hc
          subst hc
          have P1 : ExprPost st st1 :=
            compilePost_expr hwf (ihC value st st1 (wfNode_of_wfExpr hwf) hS h1)
          have P2 : ExprPost st ({ st1 with symbols := (st1.symbols.define name).2 }) := P1
          obtain ⟨hbase, D, hins, hch, hj, hacc, hpop⟩ := P2
          by_cases hsc : (st1.symbols.define name).1.scope = SymbolScope.Local
          · rw [if_pos hsc]
            exact post_emit_stmt st _ OpSetLocal [(st1.symbols.define name).1.index]
              ⟨"OpSetLocal", [1]⟩ rfl (by decide) (by decide) (by decide)
              hbase D hins rfl (by rw [makeF_setLocal]; norm_num) hch hj hacc hpop
          · rw [if_neg hsc]
            exact post_emit_stmt st _ OpSetGlobal [(st1.symbols.define name).1.index]
              ⟨"OpSetGlobal", [2]⟩ rfl (by decide) (by decide) (by decide)
              hbase D hins rfl (by rw [makeF_setGlobal]; norm_num) hch hj hacc hpop
      | IntegerLiteral value =>
        simp only [compile, Except.ok.injEq] at hc
        subst hc
        exact post_emit_expr st _ OpConstant [(st.addConstant (.IntegerObject (value : ℚ))).1]
          ⟨"OpConstant", [2]⟩ rfl (by decide) (by decide) (by decide) (by decide)
          (ScopeBase_addConstant hS _ (goodFnConst_integer _)) []
          (by simp only [List.flatten_nil, List.append_nil] <;> rfl) rfl (fun c hcm => absurd hcm (List.not_mem_nil c))
          (fun c hcm => absurd hcm (List.not_mem_nil c))
      | StringLiteral literal =>
        simp only [compile, Except.ok.injEq] at hc
        subst hc
        exact post_emit_expr st _ OpConstant [(st.addConstant (.StringObject literal)).1]
          ⟨"OpConstant", [2]⟩ rfl (by decide) (by decide) (by decide) (by decide)
          (ScopeBase_addConstant hS _ (goodFnConst_string _)) []
          (by simp only [List.flatten_nil, List.append_nil] <;> rfl) rfl (fun c hcm => absurd hcm (List.not_mem_nil c))
          (fun c hcm => absurd hcm (List.not_mem_nil c))
      | BooleanLiteral value =>
        simp only [compile] at hc
        split at hc
        · simp only [Except.ok.injEq] at hc
          subst hc
          exact post_emit_expr st st OpTrue [] ⟨"OpTrue", []⟩ rfl (by decide)
            (by decide) (by decide) (by decide) (ScopeBase_self hS) []
            (by simp only [List.flatten_nil, List.append_nil] <;> rfl) rfl (fun c hcm => absurd hcm (List.not_mem_nil c))
            (fun c hcm => absurd hcm (List.not_mem_nil c))
        · simp only [Except.ok.injEq] at hc
          subst hc
          exact post_emit_expr st st OpFalse [] ⟨"OpFalse", []⟩ rfl (by decide)
            (by decide) (by decide) (by decide) (ScopeBase_self hS) []
            (by simp only [List.flatten_nil, List.append_nil] <;> rfl) rfl (fun c hcm => absurd hcm (List.not_mem_nil c))
            (fun c hcm => absurd hcm (List.not_mem_nil c))
      | Identifier value =>
        simp only [compile] at hc
        split at hc
        · exact Except.noConfusion hc
        · next s hsym =>
          simp only [Except.ok.injEq] at hc
          subst hc
          have hbase : ScopeBase st ({ st with symbols := (st.symbols.resolve value).2 }) :=
            ScopeBase_self hS
          by_cases hsc : s.scope = SymbolScope.Local
          · rw [if_pos hsc]
            exact post_emit_expr st _ OpGetLocal [s.index] ⟨"OpGetLocal", [1]⟩ rfl
              (by decide) (by decide) (by decide) (by decide) hbase []
              (by simp only [List.flatten_nil, List.append_nil] <;> rfl) rfl (fun c hcm => absurd hcm (List.not_mem_nil c))
              (fun c hcm => absurd hcm (List.not_mem_nil c))
          · rw [if_neg hsc]
            exact post_emit_expr st _ OpGetGlobal [s.index] ⟨"OpGetGlobal", [2]⟩ rfl
              (by decide) (by decide) (by decide) (by decide) hbase []
              (by simp only [List.flatten_nil, List.append_nil] <;> rfl) rfl (fun c hcm => absurd hcm (List.not_mem_nil c))
              (fun c hcm => absurd hcm (List.not_mem_nil c))
      | PrefixExpression operator right =>
        have hwf' : wfExpr right = true := hwf
        simp only [compile] at hc
        cases h1 : compile fuel right st with
        | error err =>
          rw [h1] at hc
          simp only [bind, Except.bind] at hc
          exact Except.noConfusion hc
        | ok st1 =>
          rw [h1] at hc
          simp only [bind, Except.bind] at hc
          have P1 : ExprPost st st1 :=
            compilePost_expr hwf' (ihC right st st1 (wfNode_of_wfExpr hwf') hS h1)
          obtain ⟨hbase, D, hins, hch, hj, hacc, hpop⟩ := P1
          split at hc
          · simp only [Except.ok.injEq] at hc
            subst hc
            exact post_emit_expr st st1 OpBang [] ⟨"OpBang", []⟩ rfl (by decide)
              (by decide) (by decide) (by decide) hbase D hins rfl hch hj
          · simp only [Except.ok.injEq] at hc
            subst hc
            exact post_emit_expr st st1 OpMinus [] ⟨"OpMinus", []⟩ rfl (by decide)
              (by decide) (by decide) (by decide) hbase D hins rfl hch hj
          · exact Except.noConfusion hc
      | InfixExpression operator left right =>
        have hwf' : (wfExpr left && wfExpr right) = true := hwf
        rw [Bool.and_eq_true] at hwf'
        simp only [compile] at hc
        by_cases hlt : operator = "<"
        · rw [if_pos hlt] at hc
          cases h1 : compile fuel right st with
          | error err =>
            rw [h1] at hc
            simp only [bind, Except.bind] at hc
            exact Except.noConfusion hc
          | ok st1 =>
            rw [h1] at hc
            simp only [bind, Except.bind] at hc
            cases h2 : compile fuel left st1 with
            | error err =>
              rw [h2] at hc
              simp only [bind, Except.bind] at hc
              exact Except.noConfusion hc
            | ok st2 =>
              rw [h2] at hc
              simp only [bind, Except.bind] at hc
              have P1 : ExprPost st st1 :=
                compilePost_expr hwf'.2 (ihC right st st1 (wfNode_of_wfExpr hwf'.2) hS h1)
              have P2 : ExprPost st1 st2 :=
                compilePost_expr hwf'.1 (ihC left st1 st2 (wfNode_of_wfExpr hwf'.1) P1.1.1 h2)
              obtain ⟨hbase, D, hins, hch, hj⟩ := SegPost_trans (exprPost_seg P1) (exprPost_seg P2)
              split at hc <;>
                first
                  | exact Except.noConfusion hc
                  | (simp only [Except.ok.injEq] at hc
                     subst hc
                     exact post_emit_expr st st2 _ [] _ rfl (by decide) (by decide)
                       (by decide) (by decide) hbase D hins rfl hch hj)
        · rw [if_neg hlt] at hc
          cases h1 : compile fuel left st with
          | error err =>
            rw [h1] at hc
            simp only [bind, Except.bind] at hc
            exact Except.noConfusion hc
          | ok st1 =>
            rw [h1] at hc
            simp only [bind, Except.bind] at hc
            cases h2 : compile fuel right st1 with
            | error err =>
              rw [h2] at hc
              simp only [bind, Except.bind] at hc
              exact Except.noConfusion hc
            | ok st2 =>
              rw [h2] at hc
              simp only [bind, Except.bind] at hc
              have P1 : ExprPost st st1 :=
                compilePost_expr hwf'.1 (ihC left st st1 (wfNode_of_wfExpr hwf'.1) hS h1)
              have P2 : ExprPost st1 st2 :=
                compilePost_expr hwf'.2 (ihC right st1 st2 (wfNode_of_wfExpr hwf'.2) P1.1.1 h2)
              obtain ⟨hbase, D, hins, hch, hj⟩ := SegPost_trans (exprPost_seg P1) (exprPost_seg P2)
              split at hc <;>
                first
                  | exact Except.noConfusion hc
                  | (simp only [Except.ok.injEq] at hc
                     subst hc
                     exact post_emit_expr st st2 _ [] _ rfl (by decide) (by decide)
                       (by decide) (by decide) hbase D hins rfl hch hj)
      | IfExpression condition consequence alternative =>
        have hwf' : (wfExpr condition && wfBlockNode consequence &&
            wfAlt alternative) = true := hwf
        rw [Bool.and_eq_true, Bool.and_eq_true] at hwf'
        obtain ⟨⟨hwc, hwq⟩, halt⟩ := hwf'
        obtain ⟨stmts, rfl, hws⟩ := wfBlockNode_elim hwq
        simp only [compile] at hc
        cases h1 : compile fuel condition st with
        | error err =>
          rw [h1] at hc
          simp only [bind, Except.bind] at hc
          exact Except.noConfusion hc
        | ok st1 =>
          rw [h1] at hc
          simp only [bind, Except.bind] at hc
          have P1 : ExprPost st st1 :=
            compilePost_expr hwc (ihC condition st st1 (wfNode_of_wfExpr hwc) hS h1)
          obtain ⟨B1, C1, i1, ch1, j1, a1, hnp1⟩ := P1
          obtain ⟨e2pos, e2S, e2I, e2L, e2C, e2Sy, e2O, e2Ins, e2Last, e2Prev⟩ :=
            emit_spec st1 OpJumpNotTruthy [9999] B1.1
          have e2posN : (st1.emit OpJumpNotTruthy [9999]).1.toNat =
              st1.currentScope.instructions.length := by
            rw [e2pos]
            omega
          rw [e2posN] at hc
          cases h3 : compile fuel (.BlockStatement stmts)
              (st1.emit OpJumpNotTruthy [9999]).2 with
          | error err =>
            rw [h3] at hc
            simp at hc
          | ok st3 =>
            rw [h3] at hc
            simp only [] at hc
            have P3 : StmtsPost (st1.emit OpJumpNotTruthy [9999]).2 st3 :=
              ihC (.BlockStatement stmts) _ st3 hws e2S h3
            have hlast2 : (st1.emit OpJumpNotTruthy
                [9999]).2.currentScope.lastInstruction.opcode ≠ OpPop := by
              rw [e2Last]
              exact (by decide : OpJumpNotTruthy ≠ OpPop)
            obtain ⟨C4, B4, i4, ch4, j4, hl4⟩ :=
              popTrim_spec (st1.emit OpJumpNotTruthy [9999]).2 st3 hlast2 P3
            set st4 : CompilerState :=
              if st3.lastInstructionIs OpPop = true then st3.removeLastPop else st3
              with hst4
            have B2 : ScopeBase st (st1.emit OpJumpNotTruthy [9999]).2 :=
              ScopeBase_emit OpJumpNotTruthy [9999] B1.1 B1
            have B4f : ScopeBase st st4 := ScopeBase_trans B2 B4
            obtain ⟨e5pos, e5S, e5I, e5L, e5C, e5Sy, e5O, e5Ins, e5Last, e5Prev⟩ :=
              emit_spec st4 OpJump [9999] B4.1
            have e5posN : (st4.emit OpJump [9999]).1.toNat =
                st4.currentScope.instructions.length := by
              rw [e5pos]
              omega
            rw [e5posN] at hc
            have hlen4 : st4.currentScope.instructions.length =
                st1.currentScope.instructions.length + 3 + C4.flatten.length := by
              rw [i4, e2Ins]
              simp only [List.length_append, makeF_jnt, List.length_cons,
                List.length_nil] <;> omega
            set L6 : ℕ := (st4.emit OpJump [9999]).2.currentInstructions.length
              with hL6
            have hlen5 : L6 = st1.currentScope.instructions.length + 3 +
                C4.flatten.length + 3 := by
              rw [hL6, currentInstructions_eq, e5Ins]
              simp only [List.length_append, makeF_jump, List.length_cons,
                List.length_nil] <;> omega
            have hbytes5 : (st4.emit OpJump [9999]).2.currentScope.instructions =
                st1.currentScope.instructions ++ (makeF OpJumpNotTruthy [9999] ++
                  (C4.flatten ++ makeF OpJump [9999])) := by
              rw [e5Ins, i4, e2Ins]
              simp [List.append_assoc]
            obtain ⟨c6S, c6I, c6L, c6C, c6Sy, c6O, c6Ins, c6Last, c6Prev⟩ :=
              changeOperand_surgery (st4.emit OpJump [9999]).2 e5S
                st1.currentScope.instructions
                (C4.flatten ++ makeF OpJump [9999]) OpJumpNotTruthy 9999
                L6 (Or.inr rfl) hbytes5
            have B5 : ScopeBase st (st4.emit OpJump [9999]).2 :=
              ScopeBase_emit OpJump [9999] B4.1 B4f
            set st6 : CompilerState :=
              (st4.emit OpJump [9999]).2.changeOperand
                st1.currentScope.instructions.length L6 with hst6
            have B6 : ScopeBase st st6 :=
              ScopeBase_trans B5 (ScopeBase_of_parts c6S c6I c6L c6O c6C)
            have hlen6 : st6.currentScope.instructions.length =
                st1.currentScope.instructions.length + 3 + C4.flatten.length + 3 := by
              rw [c6Ins]
              simp only [List.length_append, makeF_jnt, makeF_jump,
                List.length_cons, List.length_nil]
              omega
            have j4f : jumpsLe (st1.currentScope.instructions.length + 3 +
                C4.flatten.length) C4 := hlen4 ▸ j4
            cases alternative with
            | none =>
              simp only [bind, Except.bind, pure, Except.pure,
                Except.ok.injEq] at hc
              subst hc
              obtain ⟨e7pos, e7S, e7I, e7L, e7C, e7Sy, e7O, e7Ins, e7Last, e7Prev⟩ :=
                emit_spec st6 OpNull [] c6S
              refine if_assemble st st1 (st6.emit OpNull []).2 C1 C4
                [makeF OpNull []] L6 st4.currentScope.instructions.length
                ((st6.emit OpNull []).2.currentInstructions.length)
                (ScopeBase_emit OpNull [] c6S B6) i1 ch1 j1 hlen5 ?_ ch4 ?_
                j4f ?_ hlen4 rfl ?_
              · rw [e7Ins, c6Ins]
                simp [List.append_assoc]
              · intro c hcm
                rw [List.mem_singleton.mp hcm]
                exact goodChunk_emitted OpNull ⟨"OpNull", []⟩ [] rfl rfl
              · intro c hcm hjh
                rw [List.mem_singleton.mp hcm] at hjh
                unfold jumpHead at hjh
                rw [makeF_null_eq] at hjh
                rcases hjh with h | h
                · exact absurd h (by decide)
                · exact absurd h (by decide)
              · refine Or.inr ⟨⟨[], makeF OpNull [], rfl, ?_, ?_⟩, ?_⟩
                · rw [e7Last, makeF_null_eq]
                  rfl
                · rw [e7Last, hlen6]
                  simp
                · rw [e7Last]
                  exact (by decide : OpNull ≠ OpPop)
            | some alt =>
              obtain ⟨stmts2, rfl, hws2⟩ :=
                wfBlockNode_elim (show wfBlockNode alt = true from halt)
              simp only [] at hc
              cases h7 : compile fuel (.BlockStatement stmts2) st6 with
              | error err =>
                rw [h7] at hc
                simp at hc
              | ok st7a =>
                rw [h7] at hc
                simp only [bind, Except.bind, pure, Except.pure,
                  Except.ok.injEq] at hc
                subst hc
                have P7 : StmtsPost st6 st7a :=
                  ihC (.BlockStatement stmts2) st6 st7a hws2 c6S h7
                have hlast6 : st6.currentScope.lastInstruction.opcode ≠ OpPop := by
                  rw [c6Last, e5Last]
                  exact (by decide : OpJump ≠ OpPop)
                obtain ⟨C7, B7a, i7a, ch7a, j7a, hl7a⟩ :=
                  popTrim_spec st6 st7a hlast6 P7
                set st7 : CompilerState :=
                  if st7a.lastInstructionIs OpPop = true then st7a.removeLastPop
                  else st7a with hst7
                refine if_assemble st st1 st7 C1 C4 C7 L6
                  st4.currentScope.instructions.length
                  st7.currentInstructions.length
                  (ScopeBase_trans B6 B7a) i1 ch1 j1 hlen5 ?_ ch4 ch7a
                  j4f ?_ hlen4 rfl ?_
                · rw [i7a, c6Ins]
                  simp [List.append_assoc]
                · exact j7a
                · rcases hl7a with ⟨hC7, hleq⟩ | ⟨hacc, hne⟩
                  · refine Or.inl ⟨hC7, ?_⟩
                    rw [hleq, c6Last, e5Last]
                    have : (st4.currentScope.instructions.length : ℤ) =
                        (st1.currentScope.instructions.length : ℤ) + 3 +
                          (C4.flatten.length : ℤ) := by
                      rw [hlen4]
                      push_cast
                      ring
                    rw [this]
                  · exact Or.inr ⟨hlen6 ▸ hacc, hne⟩
      | FunctionLiteral parameters body =>
        have hwf' : wfBlockNode body = true := hwf
        obtain ⟨stmts, rfl, hws⟩ := wfBlockNode_elim hwf'
        simp only [compile] at hc
        set st2 : CompilerState := parameters.foldl
          (fun st param =>
            let (_, symbols) := st.symbols.define param
            { st with symbols := symbols }) st.enterScope with hst2
        obtain ⟨e1S, e1I, e1C, e1Cur, e1O⟩ := enterScope_spec st hS
        have F := foldl_symbols_preserves parameters st.enterScope
        rw [← hst2] at F
        obtain ⟨Fsc, Fidx, Fc⟩ := F
        have hS2 : SOK st2 := by
          unfold SOK
          rw [Fidx, Fsc]
          exact e1S
        have hcur2 : st2.currentScope = newCompilationScope := by
          unfold CompilerState.currentScope
          rw [Fsc, Fidx]
          exact e1Cur
        have hins2 : st2.currentScope.instructions = [] := by
          rw [hcur2]
          rfl
        have hidx2 : st2.scopeIndex = st.scopeIndex + 1 := by
          rw [Fidx]
          exact e1I
        have hlen2 : st2.scopes.length = st.scopes.length + 1 := by
          rw [Fsc]
          show (st.scopes ++ [newCompilationScope]).length = _
          simp
        have hothers2 : ∀ j, j ≠ st.scopeIndex + 1 →
            st2.scopes[j]? = st.scopes[j]? := by
          intro j hj
          rw [Fsc]
          by_cases hlt : j < st.scopes.length
          · exact e1O j hlt
          · have hSn : st.scopeIndex + 1 = st.scopes.length := hS
            rw [List.getElem?_eq_none (by
                show (st.scopes ++ [newCompilationScope]).length ≤ j
                simp
                omega),
              List.getElem?_eq_none (by omega)]
        have hc2 : st2.constants = st.constants := by
          rw [Fc]
          exact e1C
        cases h3 : compile fuel (.BlockStatement stmts) st2 with
        | error err =>
          rw [h3] at hc
          simp only [bind, Except.bind] at hc
          exact Except.noConfusion hc
        | ok st3 =>
          rw [h3] at hc
          simp only [bind, Except.bind] at hc
          have P3 : StmtsPost st2 st3 :=
            ihC (.BlockStatement stmts) st2 st3 hws hS2 h3
          obtain ⟨B3, C3, i3, ch3, j3, disj3⟩ := P3
          have i3f : st3.currentScope.instructions = C3.flatten := by
            rw [i3, hins2]
            simp
          have hb0 : st2.currentScope.instructions.length = 0 := by
            rw [hins2]
            rfl
          by_cases hpp : st3.lastInstructionIs OpPop = true
          · rw [if_pos hpp] at hc
            rw [lastInstructionIs_true_iff] at hpp
            obtain ⟨hne0, hPop⟩ := hpp
            rcases disj3 with ⟨hD, hsc⟩ | ⟨a3, p3⟩
            · rw [hsc, hcur2] at hPop
              exact absurd hPop (by decide)
            · obtain ⟨Dp, hDp, haccp, hnep⟩ := p3 hPop
              obtain ⟨Dpa, ca, hDa, hoa, hpa⟩ := a3
              have hinj := append_singleton_inj (hDa.symm.trans hDp)
              have hbytes3 : st3.currentScope.instructions =
                  Dp.flatten ++ [OpPop] := by
                rw [i3f, hDp]
                simp [flatten_append]
              have hpos3 : st3.currentScope.lastInstruction.position =
                  (Dp.flatten.length : ℤ) := by
                rw [hpa, hinj.1, hb0]
                omega
              obtain ⟨rS, rI, rL, rC, rSy, rO, rIns, rLast⟩ :=
                replaceLastPopWithReturn_surgery st3 B3.1 Dp.flatten hbytes3 hpos3
              have hrv : st3.replaceLastPopWithReturn.lastInstructionIs
                  OpReturnValue = true := by
                rw [lastInstructionIs_true_iff]
                constructor
                · rw [currentInstructions_eq, rIns]
                  simp
                · rw [rLast]
              rw [if_neg (by simp [hrv])] at hc
              simp only [Except.ok.injEq] at hc
              subst hc
              refine fn_tail st st3.replaceLastPopWithReturn
                (Dp ++ [[OpReturnValue]]) _ _ hS rS ?_ ?_ ?_ ?_ ?_ ?_ ?_
              · rw [rI, B3.2.1, hidx2]
              · rw [rL, B3.2.2.1, hlen2]
              · intro j hj
                rw [rO j (by rw [B3.2.1, hidx2]; exact hj),
                  B3.2.2.2.1 j (by rw [hidx2]; exact hj), hothers2 j hj]
              · intro h
                rw [rC]
                exact B3.2.2.2.2 (by rw [hc2]; exact h)
              · rw [rIns]
                simp [flatten_append]
              · refine chunksOk_append (fun c hcm => ch3 c ?_) (fun c hcm => ?_)
                · rw [hDp]
                  exact List.mem_append_left _ hcm
                · rw [List.mem_singleton.mp hcm]
                  exact makeF_returnValue_eq ▸
                    goodChunk_emitted OpReturnValue ⟨"OpReturnValue", []⟩ [] rfl rfl
              · intro c hcm hjh
                rcases List.mem_append.mp hcm with hm | hm
                · have hlt := j3 c (by rw [hDp]; exact List.mem_append_left _ hm) hjh
                  have hlen53 : st3.replaceLastPopWithReturn.currentScope.instructions.length =
                      st3.currentScope.instructions.length := by
                    rw [rIns, hbytes3]
                    simp
                  omega
                · rw [List.mem_singleton.mp hm] at hjh
                  unfold jumpHead at hjh
                  rcases hjh with h | h <;> exact absurd h (by decide)
          · rw [if_neg hpp] at hc
            by_cases hrv : st3.lastInstructionIs OpReturnValue = true
            · rw [if_neg (by simp [hrv])] at hc
              simp only [Except.ok.injEq] at hc
              subst hc
              refine fn_tail st st3 C3 _ _ hS B3.1 ?_ ?_ ?_ ?_ i3f ch3 j3
              · rw [B3.2.1, hidx2]
              · rw [B3.2.2.1, hlen2]
              · intro j hj
                rw [B3.2.2.2.1 j (by rw [hidx2]; exact hj), hothers2 j hj]
              · intro h
                exact B3.2.2.2.2 (by rw [hc2]; exact h)
            · have hrv2 : st3.lastInstructionIs OpReturnValue = false := by
                revert hrv
                cases st3.lastInstructionIs OpReturnValue <;> simp
              rw [if_pos (by rw [hrv2]; decide)] at hc
              simp only [Except.ok.injEq] at hc
              subst hc
              obtain ⟨e5pos, e5S, e5I, e5L, e5C, e5Sy, e5O, e5Ins, e5Last, e5Prev⟩ :=
                emit_spec st3 OpReturn [] B3.1
              refine fn_tail st (st3.emit OpReturn []).2 (C3 ++ [[OpReturn]])
                _ _ hS e5S ?_ ?_ ?_ ?_ ?_ ?_ ?_
              · rw [e5I, B3.2.1, hidx2]
              · rw [e5L, B3.2.2.1, hlen2]
              · intro j hj
                rw [e5O j (by rw [B3.2.1, hidx2]; exact hj),
                  B3.2.2.2.1 j (by rw [hidx2]; exact hj), hothers2 j hj]
              · intro h
                rw [e5C]
                exact B3.2.2.2.2 (by rw [hc2]; exact h)
              · rw [e5Ins, i3f]
                simp [flatten_append, makeF_return_eq]
              · refine chunksOk_append ch3 (fun c hcm => ?_)
                rw [List.mem_singleton.mp hcm]
                exact makeF_return_eq ▸
                  goodChunk_emitted OpReturn ⟨"OpReturn", []⟩ [] rfl rfl
              · intro c hcm hjh
                rcases List.mem_append.mp hcm with hm | hm
                · have hlt := j3 c hm hjh
                  have hlen5e : (st3.emit OpReturn []).2.currentScope.instructions.length =
                      st3.currentScope.instructions.length + 1 := by
                    rw [e5Ins]
                    simp [makeF_return_eq]
                  omega
                · rw [List.mem_singleton.mp hm] at hjh
                  unfold jumpHead at hjh
                  rcases hjh with h | h <;> exact absurd h (by decide)
      | CallExpression function arguments =>
        have hwf' : (wfExpr function && wfExprList arguments) = true := hwf
        rw [Bool.and_eq_true] at hwf'
        simp only [compile] at hc
        cases h1 : compile fuel function st with
        | error err =>
          rw [h1] at hc
          simp only [bind, Except.bind] at hc
          exact Except.noConfusion hc
        | ok st1 =>
          rw [h1] at hc
          simp only [bind, Except.bind] at hc
          have P1 : ExprPost st st1 :=
            compilePost_expr hwf'.1 (ihC function st st1 (wfNode_of_wfExpr hwf'.1) hS h1)
          cases h2 : compileList fuel arguments st1 with
          | error err =>
            rw [h2] at hc
            simp only [bind, Except.bind] at hc
            exact Except.noConfusion hc
          | ok st2 =>
            rw [h2] at hc
            simp only [bind, Except.bind, Except.ok.injEq] at hc
            subst hc
            have P2 : ExprsPost st1 st2 := ihE arguments st1 st2 hwf'.2 P1.1.1 h2
            obtain ⟨hbase, D, hins, hch, hj⟩ := SegPost_trans (exprPost_seg P1) (exprsPost_seg P2)
            exact post_emit_expr st st2 OpCall [arguments.length] ⟨"OpCall", [1]⟩ rfl
              (by decide) (by decide) (by decide) (by decide) hbase D hins rfl hch hj
      | ArrayLiteral elements =>
        have hwf' : wfExprList elements = true := hwf
        simp only [compile] at hc
        cases h1 : compileList fuel elements st with
        | error err =>
          rw [h1] at hc
          simp only [bind, Except.bind] at hc
          exact Except.noConfusion hc
        | ok st1 =>
          rw [h1] at hc
          simp only [bind, Except.bind, Except.ok.injEq] at hc
          subst hc
          have P1 : ExprsPost st st1 := ihE elements st st1 hwf' hS h1
          obtain ⟨hbase, D, hins, hch, hj⟩ := exprsPost_seg P1
          exact post_emit_expr st st1 OpArray [elements.length] ⟨"OpArray", [2]⟩ rfl
            (by decide) (by decide) (by decide) (by decide) hbase D hins rfl hch hj
      | HashLiteral pairs =>
        have hwf' : wfPairList pairs = true := hwf
        simp only [compile] at hc
        cases h1 : compilePairs fuel (sortPairsByKey pairs) st with
        | error err =>
          rw [h1] at hc
          simp only [bind, Except.bind] at hc
          exact Except.noConfusion hc
        | ok st1 =>
          rw [h1] at hc
          simp only [bind, Except.bind, Except.ok.injEq] at hc
          subst hc
          have P1 : ExprsPost st st1 :=
            ihP (sortPairsByKey pairs) st st1 (wfPairList_sorted hwf') hS h1
          obtain ⟨hbase, D, hins, hch, hj⟩ := exprsPost_seg P1
          exact post_emit_expr st st1 OpHash [pairs.length * 2] ⟨"OpHash", [2]⟩ rfl
            (by decide) (by decide) (by decide) (by decide) hbase D hins rfl hch hj
      | IndexExpression left index =>
        have hwf' : (wfExpr left && wfExpr index) = true := hwf
        rw [Bool.and_eq_true] at hwf'
        simp only [compile] at hc
        cases h1 : compile fuel left st with
        | error err =>
          rw [h1] at hc
          simp only [bind, Except.bind] at hc
          exact Except.noConfusion hc
        | ok st1 =>
          rw [h1] at hc
          simp only [bind, Except.bind] at hc
          have P1 : ExprPost st st1 :=
            compilePost_expr hwf'.1 (ihC left st st1 (wfNode_of_wfExpr hwf'.1) hS h1)
          cases h2 : compile fuel index st1 with
          | error err =>
            rw [h2] at hc
            simp only [bind, Except.bind] at hc
            exact Except.noConfusion hc
          | ok st2 =>
            rw [h2] at hc
            simp only [bind, Except.bind, Except.ok.injEq] at hc
            subst hc
            have P2 : ExprPost st1 st2 :=
              compilePost_expr hwf'.2 (ihC index st1 st2 (wfNode_of_wfExpr hwf'.2) P1.1.1 h2)
            obtain ⟨hbase, D, hins, hch, hj⟩ := SegPost_trans (exprPost_seg P1) (exprPost_seg P2)
            exact post_emit_expr st st2 OpIndex [] ⟨"OpIndex", []⟩ rfl
              (by decide) (by decide) (by decide) (by decide) hbase D hins rfl hch hj
    · intro L st st' hwf hS hc
      cases L with
      | nil =>
        simp only [compileList, Except.ok.injEq] at hc
        subst hc
        exact StmtsPost_nil hS
      | cons s rest =>
        have hwf' : (wfStmt s && wfStmtList rest) = true := hwf
        rw [Bool.and_eq_true] at hwf'
        simp only [compileList] at hc
        cases h1 : compile fuel s st with
        | error err =>
          rw [h1] at hc
          simp only [bind, Except.bind] at hc
          exact Except.noConfusion hc
        | ok st1 =>
          rw [h1] at hc
          simp only [bind, Except.bind] at hc
          have P1 : StmtPost st st1 :=
            compilePost_stmt hwf'.1 (ihC s st st1 (wfNode_of_wfStmt hwf'.1) hS h1)
          exact StmtPost_comp P1 (ihS rest st1 st' hwf'.2 P1.1.1 hc)
    · intro L st st' hwf hS hc
      cases L with
      | nil =>
        simp only [compileList, Except.ok.injEq] at hc
        subst hc
        exact ExprsPost_nil hS
      | cons e rest =>
        have hwf' : (wfExpr e && wfExprList rest) = true := hwf
        rw [Bool.and_eq_true] at hwf'
        simp only [compileList] at hc
        cases h1 : compile fuel e st with
        | error err =>
          rw [h1] at hc
          simp only [bind, Except.bind] at hc
          exact Except.noConfusion hc
        | ok st1 =>
          rw [h1] at hc
          simp only [bind, Except.bind] at hc
          have P1 : ExprPost st st1 :=
            compilePost_expr hwf'.1 (ihC e st st1 (wfNode_of_wfExpr hwf'.1) hS h1)
          exact ExprPost_comp P1 (ihE rest st1 st' hwf'.2 P1.1.1 hc)
    · intro L st st' hwf hS hc
      cases L with
      | nil =>
        simp only [compilePairs, Except.ok.injEq] at hc
        subst hc
        exact ExprsPost_nil hS
      | cons p rest =>
        obtain ⟨k, v⟩ := p
        have hwf' : ((wfExpr k && wfExpr v) && wfPairList rest) = true := hwf
        rw [Bool.and_eq_true, Bool.and_eq_true] at hwf'
        simp only [compilePairs] at hc
        cases h1 : compile fuel k st with
        | error err =>
          rw [h1] at hc
          simp only [bind, Except.bind] at hc
          exact Except.noConfusion hc
        | ok st1 =>
          rw [h1] at hc
          simp only [bind, Except.bind] at hc
          have P1 : ExprPost st st1 :=
            compilePost_expr hwf'.1.1 (ihC k st st1 (wfNode_of_wfExpr hwf'.1.1) hS h1)
          cases h2 : compile fuel v st1 with
          | error err =>
            rw [h2] at hc
            simp only [bind, Except.bind] at hc
            exact Except.noConfusion hc
          | ok st2 =>
            rw [h2] at hc
            simp only [bind, Except.bind] at hc
            have P2 : ExprPost st1 st2 :=
              compilePost_expr hwf'.1.2 (ihC v st1 st2 (wfNode_of_wfExpr hwf'.1.2) P1.1.1 h2)
            exact ExprPost_comp P1 (ExprPost_comp P2 (ihP rest st2 st' hwf'.2 P2.1.1 hc))

end Orangutan

namespace Orangutan

/-- C7: for every well-formed program the compiler accepts, the emitted
instruction stream splits into well-formed instruction chunks, and every
Jump or JumpNotTruthy operand decoded from it lies in [0, length) of the
stream; the instruction streams of all CompiledFunction constants satisfy
the same bound. -/
theorem jump_targets_in_bounds (fuel : ℕ) (stmts : List AstNode)
    (st' : CompilerState)
    (hwf : wfStmtList stmts = true)
    (hc : compile fuel (.Program stmts) newCompiler = .ok st') :
    ∃ D, st'.currentInstructions = D.flatten ∧ chunksOk D ∧
      jumpsLt st'.currentInstructions.length D ∧ ConstsOk st'.constants := by
  have P : StmtsPost newCompiler st' :=
    (compile_all_post fuel).1 (.Program stmts) newCompiler st' hwf
      SOK_newCompiler hc
  obtain ⟨B, D, hins, hch, hj, _⟩ := P
  refine ⟨D, ?_, hch, ?_, B.2.2.2.2 ?_⟩
  · rw [currentInstructions_eq, hins]
    rfl
  · rw [currentInstructions_eq]
    exact hj
  · intro c hcm
    exact absurd hcm (List.not_mem_nil c)

/-- Witness: the if-program exercises both back-patched jumps; the
compiled stream is True, JumpNotTruthy 10, Constant 0, Jump 11, Null, Pop
of length 12 with both jump targets inside it. -/
theorem jump_targets_in_bounds_witness :
    (wfStmtList [.ExpressionStatement (.IfExpression (.BooleanLiteral true)
        (.BlockStatement [.ExpressionStatement (.IntegerLiteral 10)]) none)] = true) ∧
    ∃ st', compile 10 (.Program [.ExpressionStatement (.IfExpression
        (.BooleanLiteral true)
        (.BlockStatement [.ExpressionStatement (.IntegerLiteral 10)]) none)])
        newCompiler = .ok st' ∧
      ∃ D, st'.currentInstructions = D.flatten ∧ chunksOk D ∧
        jumpsLt st'.currentInstructions.length D ∧ ConstsOk st'.constants :=
  ⟨rfl,
    ⟨[.IntegerObject 10], .mk none [] [] 0,
      [⟨[6, 13, 0, 10, 0, 0, 0, 14, 0, 11, 15, 2], ⟨2, 11⟩, ⟨15, 10⟩⟩], 0⟩,
    rfl,
    jump_targets_in_bounds 10
      [.ExpressionStatement (.IfExpression (.BooleanLiteral true)
        (.BlockStatement [.ExpressionStatement (.IntegerLiteral 10)]) none)]
      ⟨[.IntegerObject 10], .mk none [] [] 0,
        [⟨[6, 13, 0, 10, 0, 0, 0, 14, 0, 11, 15, 2], ⟨2, 11⟩, ⟨15, 10⟩⟩], 0⟩
      rfl rfl⟩

end Orangutan
